import Mathlib

/-!
# fast-mobile-mcp: snapshot store, selector engine and target resolution

A shallow embedding of `shared/go/snapshot/store.go` and of the pure parts of
`worker-android/internal/server/service.go`, followed by theorems about them.

Modelling conventions.

* Go maps are total functions into `Option` (`none` = key absent).  The only map
  iteration in the embedded code (`cleanupExpired`) touches, in each round, the
  entry of the key it visits and nothing else, so it is embedded pointwise.
* `time.Now().UTC()` is a parameter `now : Nat`, the wall clock reading in
  nanoseconds since the Unix epoch (`UnixNano()`); durations are `Int`.
* Go `int` is 64 bit wide, `int32` 32 bit: sums that can leave the range are wrapped
  explicitly, and a run-time fault (slice bounds out of range) is the result `none`.
* Go strings are embedded as Lean strings (valid Unicode).
-/

namespace FastMobile

/-! ## Go runtime and standard library -/

/-- Two's-complement wrap of an integer into Go's 64 bit `int`. -/
def wrapInt64 (x : Int) : Int := (x + 2 ^ 63) % 2 ^ 64 - 2 ^ 63

/-- Two's-complement wrap of an integer into Go's `int32`. -/
def wrapInt32 (x : Int) : Int := (x + 2 ^ 31) % 2 ^ 32 - 2 ^ 31

/-- The function `strconv.Itoa` (and the verb `%d` of `fmt.Sprintf`): decimal digits,
with a leading `-` for a negative number. -/
def Itoa (n : Int) : String := toString n

/-- Value of a decimal digit, `none` for any other character. -/
def digitValue (c : Char) : Option Nat :=
  if 48 ≤ c.toNat ∧ c.toNat ≤ 57 then some (c.toNat - 48) else none

/-- The digit loop of `strconv.Atoi` / `strconv.ParseUint` in base 10: `n = n*10 + d`,
a syntax error (`none`) at the first character that is not a digit. -/
def parseDigits : List Char → Nat → Option Nat
  | [], acc => some acc
  | c :: cs, acc =>
    match digitValue c with
    | none => none
    | some d => parseDigits cs (acc * 10 + d)

/-- The function `strconv.Atoi` on a 64 bit platform: an optional sign, then at least one
decimal digit and nothing else; `none` stands for the error result (syntax error, or
value out of the range of `int`). -/
def Atoi (s : String) : Option Int :=
  match s.toList with
  | [] => none
  | c :: cs =>
    let neg := decide (c = '-')
    let ds := if c = '-' ∨ c = '+' then cs else c :: cs
    match ds with
    | [] => none
    | d :: ds' =>
      match parseDigits (d :: ds') 0 with
      | none => none
      | some n =>
        let v : Int := if neg then -(n : Int) else (n : Int)
        if -(2 : Int) ^ 63 ≤ v ∧ v < 2 ^ 63 then some v else none

/-- The function `strings.ToLower`, on the letters `A`–`Z`. -/
def stringsToLower (s : String) : String := String.mk (s.toList.map Char.toLower)

/-- The function `strings.EqualFold`, on the letters `A`–`Z` and `a`–`z`. -/
def stringsEqualFold (a b : String) : Bool :=
  decide (a.toList.map Char.toLower = b.toList.map Char.toLower)

/-- Decides whether `sub` occurs in `l` as a block of consecutive elements. -/
def listContains : List Char → List Char → Bool
  | [], sub => sub.isEmpty
  | c :: cs, sub => sub.isPrefixOf (c :: cs) || listContains cs sub

/-- The function `strings.Contains`. -/
def stringsContains (s substr : String) : Bool := listContains s.toList substr.toList

/-- The function `strings.HasPrefix`. -/
def stringsHasPrefixB (s pre : String) : Bool := pre.toList.isPrefixOf s.toList

/-- The function `strings.HasSuffix`. -/
def stringsHasSuffixB (s suf : String) : Bool := suf.toList.isSuffixOf s.toList

/-! ## `snapshot/store.go`: data model -/

/-- Go `type Bounds struct`. -/
structure Bounds where
  Left : Int
  Top : Int
  Right : Int
  Bottom : Int
deriving DecidableEq, Repr

/-- Go `type Node struct`. -/
structure Node where
  RefID : String
  ParentRefID : String
  Index : Int
  Text : String
  ContentDesc : String
  ResourceID : String
  ClassName : String
  PackageName : String
  Bounds : Bounds
  Enabled : Bool
  Clickable : Bool
  Focusable : Bool
  Visible : Bool
  Selected : Bool
  Checked : Bool
deriving DecidableEq, Repr

/-- Go `type Snapshot struct`; the two times are nanoseconds since the Unix epoch. -/
structure Snapshot where
  ID : String
  DeviceID : String
  CreatedAt : Int
  ExpiresAt : Int
  Nodes : List Node
deriving DecidableEq, Repr

/-- A Go `map[string]α`. -/
abbrev GoMap (α : Type) := String → Option α

/-- The empty map, `make(map[string]α)`. -/
def GoMap.empty {α : Type} : GoMap α := fun _ => none

/-- The assignment `m[k] = v`. -/
def GoMap.set {α : Type} (m : GoMap α) (k : String) (v : α) : GoMap α :=
  fun k' => if k' = k then some v else m k'

/-- The statement `delete(m, k)`. -/
def GoMap.delete {α : Type} (m : GoMap α) (k : String) : GoMap α :=
  fun k' => if k' = k then none else m k'

/-- Go `type Store struct`, without the lock and the stop channel. -/
structure Store where
  items : GoMap Snapshot
  latestByDevice : GoMap String
  byDevice : GoMap (List String)
  ttl : Int
  maxSnapshotsPerDevice : Int

/-- Go `NewStore` (the cleanup goroutine is the step `cleanupExpired` of a trace). -/
def NewStore (ttl : Int) (maxSnapshotsPerDevice : Int) : Store :=
  { items := GoMap.empty
    latestByDevice := GoMap.empty
    byDevice := GoMap.empty
    ttl := ttl
    maxSnapshotsPerDevice := maxSnapshotsPerDevice }

/-- The id that `Put` builds: `fmt.Sprintf("%s-%d", deviceID, now.UnixNano())`. -/
def snapshotID (deviceID : String) (now : Nat) : String :=
  deviceID ++ "-" ++ Itoa (now : Int)

/-- Go `Store.Put`, with the clock reading `now`; returns the new store and the snapshot. -/
def Store.Put (s : Store) (deviceID : String) (nodes : List Node) (now : Nat) :
    Store × Snapshot :=
  let id := snapshotID deviceID now
  let snap : Snapshot :=
    { ID := id
      DeviceID := deviceID
      CreatedAt := (now : Int)
      ExpiresAt := (now : Int) + s.ttl
      Nodes := nodes }
  let items := s.items.set id snap
  let latestByDevice := s.latestByDevice.set deviceID id
  let ids := (s.byDevice deviceID).getD [] ++ [id]
  if (ids.length : Int) > s.maxSnapshotsPerDevice then
    match ids with
    | [] => ({ s with items := items, latestByDevice := latestByDevice,
                      byDevice := s.byDevice.set deviceID ids }, snap)
    | oldest :: rest =>
      ({ s with items := items.delete oldest, latestByDevice := latestByDevice,
                byDevice := s.byDevice.set deviceID rest }, snap)
  else
    ({ s with items := items, latestByDevice := latestByDevice,
              byDevice := s.byDevice.set deviceID ids }, snap)

/-- Go `Store.Get` at the clock reading `now`; `none` is the miss `(Snapshot{}, false)`. -/
def Store.Get (s : Store) (snapshotID : String) (now : Nat) : Option Snapshot :=
  match s.items snapshotID with
  | none => none
  | some snap => if (now : Int) > snap.ExpiresAt then none else some snap

/-- Go `Store.Latest`. -/
def Store.Latest (s : Store) (deviceID : String) (now : Nat) : Option Snapshot :=
  match s.latestByDevice deviceID with
  | none => none
  | some id => s.Get id now

/-- Go `Store.ResolveRef`: the first node of the snapshot with the given ref id. -/
def Store.ResolveRef (s : Store) (snapshotID refID : String) (now : Nat) : Option Node :=
  match s.Get snapshotID now with
  | none => none
  | some snap => snap.Nodes.find? (fun n => decide (n.RefID = refID))

/-- The four results of `Store.Page`. -/
structure PageResult where
  nodes : List Node
  nextCursor : String
  total : Int
  ok : Bool
deriving DecidableEq, Repr

/-- The offset `start` that `Store.Page` decodes from a cursor. -/
def pageStart (cursor : String) : Int :=
  if cursor ≠ "" then
    match Atoi cursor with
    | some v => if v ≥ 0 then v else 0
    | none => 0
  else 0

/-- Go `Store.Page` at the clock reading `now`.  `none` is the run-time fault of the slice
expression `snap.Nodes[start:end]` when `end < start` (the sum `start + limit`
wrapped around). -/
def Store.Page (s : Store) (snapshotID cursor : String) (limit : Int) (now : Nat) :
    Option PageResult :=
  match s.Get snapshotID now with
  | none => some { nodes := [], nextCursor := "", total := 0, ok := false }
  | some snap =>
    let total : Int := snap.Nodes.length
    if total = 0 then some { nodes := [], nextCursor := "", total := 0, ok := true }
    else
      let start := pageStart cursor
      if start ≥ total then some { nodes := [], nextCursor := "", total := total, ok := true }
      else
        let limit := if limit ≤ 0 then 200 else limit
        let end0 := wrapInt64 (start + limit)
        let end1 := if end0 > total then total else end0
        if end1 < start then none
        else
          let paged := (snap.Nodes.drop start.toNat).take (end1 - start).toNat
          let nextCursor := if end1 < total then Itoa end1 else ""
          some { nodes := paged, nextCursor := nextCursor, total := total, ok := true }

/-- Go `Store.cleanupExpired` at the clock reading `now`. -/
def Store.cleanupExpired (s : Store) (now : Nat) : Store :=
  let items : GoMap Snapshot := fun id =>
    match s.items id with
    | none => none
    | some snap => if (now : Int) > snap.ExpiresAt then none else some snap
  let filtered : List String → List String :=
    fun ids => ids.filter (fun id => (items id).isSome)
  { s with
    items := items
    byDevice := fun d => (s.byDevice d).map filtered
    latestByDevice := fun d =>
      match s.byDevice d with
      | none => s.latestByDevice d
      | some ids =>
        match (filtered ids).getLast? with
        | none => none
        | some last => some last }

/-- One step of a store history: a `Put` or a run of the cleanup task. -/
inductive StoreOp where
  | put (deviceID : String) (nodes : List Node) (now : Nat)
  | cleanup (now : Nat)
deriving DecidableEq

/-- Effect of one step on the store. -/
def Store.step (s : Store) : StoreOp → Store
  | StoreOp.put d nodes now => (s.Put d nodes now).1
  | StoreOp.cleanup now => s.cleanupExpired now

/-- Effect of a history, oldest step first. -/
def Store.run (s : Store) (ops : List StoreOp) : Store := ops.foldl Store.step s

/-- The pairs (device id, clock reading) of the `Put` steps of a history, oldest first. -/
def putKeys : List StoreOp → List (String × Nat)
  | [] => []
  | StoreOp.put d _ t :: ops => (d, t) :: putKeys ops
  | StoreOp.cleanup _ :: ops => putKeys ops

/-- The snapshot that `Put` builds (and returns) for a device at a clock reading. -/
def mkSnapshot (ttl : Int) (deviceID : String) (nodes : List Node) (now : Nat) : Snapshot :=
  { ID := snapshotID deviceID now
    DeviceID := deviceID
    CreatedAt := (now : Int)
    ExpiresAt := (now : Int) + ttl
    Nodes := nodes }

/-- Every id listed for a device was built by a `Put` of that device recorded in `H`. -/
def IdsFrom (s : Store) (H : List (String × Nat)) : Prop :=
  ∀ d ids, s.byDevice d = some ids → ∀ i ∈ ids, ∃ t, i = snapshotID d t ∧ (d, t) ∈ H

/-- The history of `Put`s for one device: one (nodes, clock reading) pair per `Put`. -/
def putsFor (d : String) (puts : List (List Node × Nat)) : List StoreOp :=
  puts.map (fun p => StoreOp.put d p.1 p.2)

/-- The ids that the `Put`s of `putsFor` return, in creation order. -/
def idsFor (d : String) (puts : List (List Node × Nat)) : List String :=
  puts.map (fun p => snapshotID d p.2)

/-- The client loop of the pagination round trip, as the specification words it: starting
from `cursor`, call `Page` with page size `k`, keep the page, and go on with the returned
`next_cursor` until it is empty.  `clock j` is the clock reading during call number `j`.
The result lists the pages, one per call; it is `none` when `fuel` calls did not reach an
empty `next_cursor`, or a call faulted or reported `ok = false`. -/
def pageAll (s : Store) (id : String) (k : Int) (clock : Nat → Nat) :
    Nat → Nat → String → Option (List (List Node))
  | 0, _, _ => none
  | fuel + 1, j, cursor =>
    match s.Page id cursor k (clock j) with
    | none => none
    | some r =>
      if r.ok = false then none
      else if r.nextCursor = "" then some [r.nodes]
      else (pageAll s id k clock fuel (j + 1) r.nextCursor).map (fun ps => r.nodes :: ps)

/-- Referential integrity of the store together with what keeps it inductive: the id list
of a device has no repetition and all its ids are keys of `items`, and the latest id of
a device is one of its listed ids. -/
def StoreInv (s : Store) : Prop :=
  (∀ d ids, s.byDevice d = some ids → ids.Nodup ∧ ∀ i ∈ ids, (s.items i).isSome = true) ∧
  (∀ d i, s.latestByDevice d = some i → ∃ ids, s.byDevice d = some ids ∧ i ∈ ids)

/-- Example nodes for the concrete instances below. -/
def exampleNode (refID parentRefID text : String) : Node :=
  { RefID := refID, ParentRefID := parentRefID, Index := 0, Text := text, ContentDesc := "",
    ResourceID := "", ClassName := "android.view.View", PackageName := "com.example",
    Bounds := { Left := 0, Top := 0, Right := 10, Bottom := 20 },
    Enabled := true, Clickable := false, Focusable := false, Visible := true,
    Selected := false, Checked := false }

/-! ## `server/service.go`: selector engine -/

/-- Modelled from the spec: the generated protobuf enum `mobilev1.SelectorField` (its
declaration is not part of the sources); `UNSPECIFIED` stands for the zero value and
every value that `clauseMatch` sends to its `default` branch. -/
inductive SelectorField where
  | UNSPECIFIED
  | REF_ID
  | TEXT
  | CONTENT_DESC
  | RESOURCE_ID
  | CLASS_NAME
  | PACKAGE_NAME
  | ENABLED
  | CLICKABLE
  | VISIBLE
deriving DecidableEq, Repr

/-- Modelled from the spec: the generated protobuf enum `mobilev1.SelectorOperator`;
`UNSPECIFIED` stands for the zero value and every value that `compareWithOperator`
sends to its `default` branch. -/
inductive SelectorOperator where
  | UNSPECIFIED
  | EQ
  | CONTAINS
  | HAS_PREFIX
  | HAS_SUFFIX
  | REGEX
deriving DecidableEq, Repr

/-- Modelled from the spec: the generated protobuf message `mobilev1.SelectorClause`. -/
structure SelectorClause where
  Field : SelectorField
  Operator : SelectorOperator
  Value : String
deriving DecidableEq, Repr

/-- Modelled from the spec: the generated protobuf message `mobilev1.Selector`; `Limit` is
an integer field (the code converts it with `int(selector.Limit)`). -/
structure Selector where
  Clauses : List SelectorClause
  MatchAll : Bool
  WithinRefId : String
  Limit : Int
deriving DecidableEq, Repr

/-- The regular expression library as `compareWithOperator` uses it: `regexp.Compile`
fails (`none`) or yields the predicate `MatchString` of the compiled expression. -/
abbrev Regexp := String → Option (String → Bool)

/-- The test `boolRegex.MatchString(s)` for `boolRegex = ^(true|false)$`: without the
multi-line flag `^` and `$` match at the two ends of the text only. -/
def boolRegexMatchString (s : String) : Bool := decide (s = "true") || decide (s = "false")

/-- Go `compareWithOperator`. -/
def compareWithOperator (rx : Regexp) (actual : String) (op : SelectorOperator)
    (expected : String) : Bool :=
  match op with
  | SelectorOperator.EQ => decide (actual = expected)
  | SelectorOperator.CONTAINS => stringsContains actual expected
  | SelectorOperator.HAS_PREFIX => stringsHasPrefixB actual expected
  | SelectorOperator.HAS_SUFFIX => stringsHasSuffixB actual expected
  | SelectorOperator.REGEX =>
    match rx expected with
    | none => false
    | some r => r actual
  | SelectorOperator.UNSPECIFIED => false

/-- The three identical branches of `clauseMatch` for a boolean field with value `b`. -/
def boolFieldMatch (b : Bool) (value : String) : Bool :=
  if boolRegexMatchString (stringsToLower value) then
    let want := stringsEqualFold value "true"
    b == want
  else false

/-- Go `clauseMatch`. -/
def clauseMatch (rx : Regexp) (node : Node) (clause : SelectorClause) : Bool :=
  match clause.Field with
  | SelectorField.REF_ID => compareWithOperator rx node.RefID clause.Operator clause.Value
  | SelectorField.TEXT => compareWithOperator rx node.Text clause.Operator clause.Value
  | SelectorField.CONTENT_DESC =>
    compareWithOperator rx node.ContentDesc clause.Operator clause.Value
  | SelectorField.RESOURCE_ID =>
    compareWithOperator rx node.ResourceID clause.Operator clause.Value
  | SelectorField.CLASS_NAME =>
    compareWithOperator rx node.ClassName clause.Operator clause.Value
  | SelectorField.PACKAGE_NAME =>
    compareWithOperator rx node.PackageName clause.Operator clause.Value
  | SelectorField.ENABLED => boolFieldMatch node.Enabled clause.Value
  | SelectorField.CLICKABLE => boolFieldMatch node.Clickable clause.Value
  | SelectorField.VISIBLE => boolFieldMatch node.Visible clause.Value
  | SelectorField.UNSPECIFIED => false

/-- The inner loop of `filterNodes`: the number of clauses that match the node. -/
def countMatched (rx : Regexp) (n : Node) (clauses : List SelectorClause) : Nat :=
  clauses.foldl (fun matched clause => if clauseMatch rx n clause then matched + 1 else matched) 0

/-- The body of the outer loop of `filterNodes`: the slice `out` after visiting `n`. -/
def filterStep (rx : Regexp) (sel : Selector) (out : List Node) (n : Node) : List Node :=
  if sel.WithinRefId ≠ "" ∧ n.ParentRefID ≠ sel.WithinRefId ∧ n.RefID ≠ sel.WithinRefId then out
  else
    let matched := countMatched rx n sel.Clauses
    if (sel.MatchAll && decide (matched = sel.Clauses.length))
        || (!sel.MatchAll && decide (matched > 0)) then out ++ [n]
    else out

/-- The slice `out` of `filterNodes` when its outer loop is done, before the limit. -/
def filterLoop (rx : Regexp) (nodes : List Node) (sel : Selector) : List Node :=
  nodes.foldl (filterStep rx sel) []

/-- Go `filterNodes`; `none` is the nil selector. -/
def filterNodes (rx : Regexp) (nodes : List Node) (selector : Option Selector) : List Node :=
  match selector with
  | none => nodes
  | some sel =>
    if sel.Clauses.length = 0 then nodes
    else
      let out := filterLoop rx nodes sel
      if sel.Limit > 0 ∧ (out.length : Int) > sel.Limit then out.take sel.Limit.toNat
      else out

/-! ## `server/service.go`: target resolution -/

/-- Go `type point struct`. -/
structure point where
  x : Int
  y : Int
deriving DecidableEq, Repr

/-- Modelled from the spec: the generated protobuf message `mobilev1.Coordinates`. -/
structure Coordinates where
  X : Int
  Y : Int
deriving DecidableEq, Repr

/-- Go `center`: `int32` sums, then Go's truncating division. -/
def center (b : Bounds) : point :=
  { x := (wrapInt32 (b.Left + b.Right)).tdiv 2
    y := (wrapInt32 (b.Top + b.Bottom)).tdiv 2 }

/-- The clock readings of the calls of `time.Now()` that one run of `resolveTargetPoint`
can make, in program order: in `Get(snapshotID)`, in `Latest(deviceID)`, in `Put` and in
`ResolveRef`. -/
structure Clock where
  atGet : Nat
  atLatest : Nat
  atPut : Nat
  atResolveRef : Nat

/-- The outcome of the device bridge in `resolveSnapshot`: `RuntimeForDevice` followed by
`Executor.Submit` of `DumpHierarchy`, either the text of the error or the captured nodes. -/
abbrev Capture := Except String (List Node)

deriving instance DecidableEq for Except

/-- Go `MobileService.resolveSnapshot`; returns the store afterwards and the result. -/
def resolveSnapshot (store : Store) (capture : Capture) (clk : Clock)
    (deviceID snapshotID : String) : Store × Except String Snapshot :=
  match (if snapshotID ≠ "" then store.Get snapshotID clk.atGet else none) with
  | some snap => (store, Except.ok snap)
  | none =>
    match store.Latest deviceID clk.atLatest with
    | some latest => (store, Except.ok latest)
    | none =>
      match capture with
      | Except.error err => (store, Except.error err)
      | Except.ok nodes =>
        let r := store.Put deviceID nodes clk.atPut
        (r.1, Except.ok r.2)

/-- Go `MobileService.resolveTargetPoint`; returns the store afterwards and the result,
an error being the text of the Go error. -/
def resolveTargetPoint (rx : Regexp) (store : Store) (capture : Capture) (clk : Clock)
    (deviceID snapshotID refID : String) (selector : Option Selector)
    (coords : Option Coordinates) : Store × Except String point :=
  match coords with
  | some c => (store, Except.ok { x := c.X, y := c.Y })
  | none =>
    match resolveSnapshot store capture clk deviceID snapshotID with
    | (store1, Except.error err) => (store1, Except.error err)
    | (store1, Except.ok snap) =>
      if refID ≠ "" then
        match store1.ResolveRef snap.ID refID clk.atResolveRef with
        | none => (store1, Except.error ("ref_id " ++ refID ++ " not found"))
        | some n => (store1, Except.ok (center n.Bounds))
      else
        match selector with
        | some sel =>
          match filterNodes rx snap.Nodes (some sel) with
          | [] => (store1, Except.error "selector matched zero nodes")
          | m :: _ => (store1, Except.ok (center m.Bounds))
        | none => (store1, Except.error "missing action target")

/-! ## Selector semantics in the words of the specification -/

/-- A node is in scope of a selector: `within_ref_id` is empty, or it is the node's
`ref_id`, or it is the node's `parent_ref_id`. -/
def inScope (sel : Selector) (n : Node) : Bool :=
  decide (sel.WithinRefId = "") || decide (n.RefID = sel.WithinRefId)
    || decide (n.ParentRefID = sel.WithinRefId)

/-- A node satisfies the clauses of a selector: every clause when `match_all` is set, at
least one clause otherwise. -/
def satisfiesClauses (rx : Regexp) (sel : Selector) (n : Node) : Bool :=
  if sel.MatchAll then sel.Clauses.all (fun c => clauseMatch rx n c)
  else sel.Clauses.any (fun c => clauseMatch rx n c)

/-- A node is accepted by a selector: in scope, and satisfying the clauses. -/
def selectorAccepts (rx : Regexp) (sel : Selector) (n : Node) : Bool :=
  inScope sel n && satisfiesClauses rx sel n

/-- Two strings are equal ignoring letter case (of the letters `A`–`Z`). -/
def equalsIgnoringCase (a b : String) : Bool :=
  decide (a.length = b.length) &&
    (List.zipWith (fun x y => decide (x.toLower = y.toLower)) a.toList b.toList).all id

/-- The value of a boolean selector field on a node; `none` for the other fields. -/
def boolField (f : SelectorField) (n : Node) : Option Bool :=
  match f with
  | SelectorField.ENABLED => some n.Enabled
  | SelectorField.CLICKABLE => some n.Clickable
  | SelectorField.VISIBLE => some n.Visible
  | _ => none

/-- The text that denotes a boolean in a clause value. -/
def boolText (b : Bool) : String := if b then "true" else "false"

/-! ## `android/uia2_client.go`, `ios/wda_client.go`: flattening the hierarchy -/

/-- Go `xml.Attr`, with the local part of its name. -/
structure XmlAttr where
  Local : String
  Value : String
deriving DecidableEq, Repr

/-- Go `type hierarchyNode struct` (Android) and `type sourceNode struct` (iOS), which have
the same three fields; `XMLName` is the local name of the element. -/
inductive hierarchyNode where
  | mk (XMLName : String) (Attrs : List XmlAttr) (Children : List hierarchyNode)

/-- The iOS name of the tree type. -/
abbrev sourceNode := hierarchyNode

/-- Field `XMLName.Local` of a tree node. -/
def hierarchyNode.XMLName : hierarchyNode → String
  | hierarchyNode.mk name _ _ => name

/-- Field `Attrs` of a tree node. -/
def hierarchyNode.Attrs : hierarchyNode → List XmlAttr
  | hierarchyNode.mk _ attrs _ => attrs

/-- Field `Children` of a tree node. -/
def hierarchyNode.Children : hierarchyNode → List hierarchyNode
  | hierarchyNode.mk _ _ children => children

/-- Go `attrValue`: the value of the first attribute with the given local name. -/
def attrValue : List XmlAttr → String → String
  | [], _ => ""
  | attr :: attrs, key => if attr.Local = key then attr.Value else attrValue attrs key

/-- Go `attrBool`. -/
def attrBool (attrs : List XmlAttr) (key : String) : Bool :=
  stringsEqualFold (attrValue attrs key) "true"

/-- Go `attrBoolDefault` (iOS). -/
def attrBoolDefault (attrs : List XmlAttr) (key : String) (fallback : Bool) : Bool :=
  if attrValue attrs key = "" then fallback
  else stringsEqualFold (attrValue attrs key) "true"

/-- The value that `strconv.Atoi` returns when its error is dropped (`v, _ := Atoi(s)`):
`0` after a syntax error, the nearest bound of `int` after a range error. -/
def atoiValue (s : String) : Int :=
  match s.toList with
  | [] => 0
  | c :: cs =>
    let neg := decide (c = '-')
    let ds := if c = '-' ∨ c = '+' then cs else c :: cs
    match ds with
    | [] => 0
    | d :: ds' =>
      match parseDigits (d :: ds') 0 with
      | none => 0
      | some n =>
        let v : Int := if neg then -(n : Int) else (n : Int)
        if v < -(2 : Int) ^ 63 then -(2 : Int) ^ 63
        else if v ≥ 2 ^ 63 then 2 ^ 63 - 1
        else v

/-- The call `FindStringSubmatch` of a compiled pattern with four groups (`boundsPattern`,
`rectPattern`): the texts of the four groups, `none` when the match has not five parts. -/
abbrev SubmatchFinder := String → Option (String × String × String × String)

/-- Go `parseBounds` (Android). -/
def parseBounds (find : SubmatchFinder) (raw : String) : Bounds :=
  match find raw with
  | none => { Left := 0, Top := 0, Right := 0, Bottom := 0 }
  | some (m1, m2, m3, m4) =>
    { Left := wrapInt32 (atoiValue m1), Top := wrapInt32 (atoiValue m2),
      Right := wrapInt32 (atoiValue m3), Bottom := wrapInt32 (atoiValue m4) }

/-- Go `parseRect` (iOS). -/
def parseRect (find : SubmatchFinder) (raw : String) : Bounds :=
  match find raw with
  | none => { Left := 0, Top := 0, Right := 0, Bottom := 0 }
  | some (m1, m2, m3, m4) =>
    { Left := wrapInt32 (atoiValue m1), Top := wrapInt32 (atoiValue m2),
      Right := wrapInt32 (atoiValue m1 + atoiValue m3),
      Bottom := wrapInt32 (atoiValue m2 + atoiValue m4) }

/-- The reference id `fmt.Sprintf("n-%d", counter)`. -/
def refName (counter : Nat) : String := "n-" ++ Itoa (counter : Int)

/-- The `item` that `walkHierarchy` builds for a tree node (Android). -/
def hierarchyItem (find : SubmatchFinder) (node : hierarchyNode) (ref parentRef : String)
    (index : Int) : Node :=
  { RefID := ref
    ParentRefID := parentRef
    Index := index
    Text := attrValue node.Attrs "text"
    ContentDesc := attrValue node.Attrs "content-desc"
    ResourceID := attrValue node.Attrs "resource-id"
    ClassName := attrValue node.Attrs "class"
    PackageName := attrValue node.Attrs "package"
    Enabled := attrBool node.Attrs "enabled"
    Clickable := attrBool node.Attrs "clickable"
    Focusable := attrBool node.Attrs "focusable"
    Visible := attrBool node.Attrs "visible-to-user"
    Selected := attrBool node.Attrs "selected"
    Checked := attrBool node.Attrs "checked"
    Bounds := parseBounds find (attrValue node.Attrs "bounds") }

/-- The `item` that `walkSourceTree` builds for a tree node (iOS). -/
def sourceItem (find : SubmatchFinder) (node : sourceNode) (ref parentRef : String)
    (index : Int) : Node :=
  { RefID := ref
    ParentRefID := parentRef
    Index := index
    Text := attrValue node.Attrs "label"
    ContentDesc := attrValue node.Attrs "name"
    ResourceID := attrValue node.Attrs "identifier"
    ClassName := node.XMLName
    PackageName := ""
    Enabled := attrBool node.Attrs "enabled"
    Clickable := attrBool node.Attrs "hittable"
    Focusable := true
    Visible := attrBoolDefault node.Attrs "visible" true
    Selected := attrBool node.Attrs "selected"
    Checked := attrBool node.Attrs "value"
    Bounds := parseRect find (attrValue node.Attrs "rect") }

mutual
/-- The common body of Go `walkHierarchy` and `walkSourceTree`, which differ in the item
they build only: take the reference id from the counter, advance the counter, append the
item, then walk the children.  The counter and the output slice, which Go passes by
pointer, are passed in and returned. -/
def walkTree (item : hierarchyNode → String → String → Int → Node) (node : hierarchyNode)
    (parentRef : String) (index : Int) (counter : Nat) (out : List Node) : Nat × List Node :=
  match node with
  | hierarchyNode.mk name attrs children =>
    let ref := refName counter
    walkLoop item children ref 0 (counter + 1)
      (out ++ [item (hierarchyNode.mk name attrs children) ref parentRef index])
/-- The loop `for i, child := range children { walk(child, ref, int32(i), counter, out) }`
from its round `i` on. -/
def walkLoop (item : hierarchyNode → String → String → Int → Node)
    (children : List hierarchyNode) (ref : String) (i : Nat) (counter : Nat)
    (out : List Node) : Nat × List Node :=
  match children with
  | [] => (counter, out)
  | child :: rest =>
    let r := walkTree item child ref (wrapInt32 (i : Int)) counter out
    walkLoop item rest ref (i + 1) r.1 r.2
end

/-- Go `walkHierarchy` (Android). -/
def walkHierarchy (find : SubmatchFinder) (node : hierarchyNode) (parentRef : String)
    (index : Int) (counter : Nat) (out : List Node) : Nat × List Node :=
  walkTree (hierarchyItem find) node parentRef index counter out

/-- Go `walkSourceTree` (iOS). -/
def walkSourceTree (find : SubmatchFinder) (node : sourceNode) (parentRef : String)
    (index : Int) (counter : Nat) (out : List Node) : Nat × List Node :=
  walkTree (sourceItem find) node parentRef index counter out

/-- The end of Go `UIA2Client.DumpHierarchy`: the nodes of the parsed document
`root.Nodes`, flattened with a counter that starts at 0. -/
def dumpHierarchyNodes (find : SubmatchFinder) (roots : List hierarchyNode) : List Node :=
  (walkLoop (hierarchyItem find) roots "" 0 0 []).2

/-- The end of Go `WDAClient.DumpHierarchy`: the nodes of `root.Children`, flattened with a
counter that starts at 0. -/
def dumpSourceNodes (find : SubmatchFinder) (roots : List sourceNode) : List Node :=
  (walkLoop (sourceItem find) roots "" 0 0 []).2

/-! ## `server/service.go`: depth pruning and the stored tree -/

/-- The body of the loop of `pruneByDepth`: the map `depthByRef` and the slice `out`
after visiting `n`; a key that is missing reads as 0. -/
def pruneStep (maxDepth : Int) (st : GoMap Int × List Node) (n : Node) : GoMap Int × List Node :=
  let parentDepth := (st.1 n.ParentRefID).getD 0
  let d := parentDepth + 1
  let depthByRef := st.1.set n.RefID d
  if d ≤ maxDepth then (depthByRef, st.2 ++ [n]) else (depthByRef, st.2)

/-- Go `pruneByDepth`.  The depth is at most the number of nodes visited, so `d` stays in
the range of `int`. -/
def pruneByDepth (nodes : List Node) (maxDepth : Int) : List Node :=
  if maxDepth ≤ 0 then nodes
  else (nodes.foldl (pruneStep maxDepth) ((GoMap.empty : GoMap Int).set "" (-1), [])).2

/-- Lines 111 to 116 of Go `MobileService.GetUITree`: the captured nodes are pruned when
`depth_limit > 0` and stored with `Put`; returns the store afterwards and the snapshot. -/
def getUITreeStore (store : Store) (deviceID : String) (nodes : List Node) (depthLimit : Int)
    (now : Nat) : Store × Snapshot :=
  let nodes := if depthLimit > 0 then pruneByDepth nodes depthLimit else nodes
  store.Put deviceID nodes now

/-! ## Pre-order flattening in the words of the specification -/

mutual
/-- Number of nodes of a tree. -/
def treeSize : hierarchyNode → Nat
  | hierarchyNode.mk _ _ children => 1 + forestSize children
/-- Number of nodes of a forest. -/
def forestSize : List hierarchyNode → Nat
  | [] => 0
  | t :: ts => treeSize t + forestSize ts
end

/-- One entry of the pre-order listing of a forest: the tree node, its pre-order position,
the position of its tree parent (`none` for a root), its position among its siblings, and
its depth. -/
structure FlatEntry where
  node : hierarchyNode
  pos : Nat
  parent : Option Nat
  sibling : Nat
  depth : Nat

mutual
/-- Pre-order listing of a tree whose root has position `pos`: the root, then its
children from left to right, each followed by its own descendants. -/
def preorderTree (t : hierarchyNode) (parent : Option Nat) (sibling depth pos : Nat) :
    List FlatEntry :=
  match t with
  | hierarchyNode.mk name attrs children =>
    { node := hierarchyNode.mk name attrs children, pos := pos, parent := parent,
      sibling := sibling, depth := depth }
      :: preorderForest children (some pos) 0 (depth + 1) (pos + 1)
/-- Pre-order listing of sibling trees, the first of which is sibling number `sibling` and
starts at position `pos`. -/
def preorderForest (ts : List hierarchyNode) (parent : Option Nat) (sibling depth pos : Nat) :
    List FlatEntry :=
  match ts with
  | [] => []
  | t :: rest =>
    preorderTree t parent sibling depth pos
      ++ preorderForest rest parent (sibling + 1) depth (pos + treeSize t)
end

/-- The reference id of the parent of an entry: empty for a root. -/
def parentRefName : Option Nat → String
  | none => ""
  | some p => refName p

/-- The stored node that the specification describes for an entry: reference id `n-pos`,
parent reference id of the tree parent, index = position among the siblings. -/
def entryNode (item : hierarchyNode → String → String → Int → Node) (e : FlatEntry) : Node :=
  item e.node (refName e.pos) (parentRefName e.parent) (e.sibling : Int)

/-- An item builder stores the reference id, the parent reference id and the index it is
given, and nothing else depends on them. -/
def ItemOk (item : hierarchyNode → String → String → Int → Node) : Prop :=
  ∀ node ref parentRef index,
    item node ref parentRef index
      = { item node "" "" 0 with RefID := ref, ParentRefID := parentRef, Index := index }

/-- An example tree for the concrete instances. -/
def exampleTree (text : String) (children : List hierarchyNode) : hierarchyNode :=
  hierarchyNode.mk "node" [{ Local := "text", Value := text }] children

/-- The node that the walk stores for an entry: as `entryNode`, with the index converted
to `int32`. -/
def walkNode (item : hierarchyNode → String → String → Int → Node) (e : FlatEntry) : Node :=
  item e.node (refName e.pos) (parentRefName e.parent) (wrapInt32 (e.sibling : Int))

/-- The flattening `out` of the forest `roots` follows pre-order: it has one node per entry
of the pre-order listing, in that order; the entry at position `i` has reference id `n-i`;
reference ids are pairwise distinct; the parent reference id of an entry is the
reference id of its tree parent (empty for a root), which stands earlier in the list; and
the index is the position among the siblings (for sibling positions that `int32` holds). -/
def FlattensPreorder (item : hierarchyNode → String → String → Int → Node)
    (roots : List hierarchyNode) (out : List Node) : Prop :=
  out = (preorderForest roots none 0 0 0).map (walkNode item) ∧
  out.length = forestSize roots ∧
  (preorderForest roots none 0 0 0).map FlatEntry.pos = List.range (forestSize roots) ∧
  (∀ i n, out[i]? = some n → n.RefID = refName i) ∧
  (out.map Node.RefID).Nodup ∧
  (∀ e ∈ preorderForest roots none 0 0 0,
    (walkNode item e).RefID = refName e.pos ∧
    (walkNode item e).ParentRefID = parentRefName e.parent ∧
    (e.parent = none → (walkNode item e).ParentRefID = "") ∧
    (∀ q, e.parent = some q →
      q < e.pos ∧ ∃ n, out[q]? = some n ∧ n.RefID = (walkNode item e).ParentRefID) ∧
    (e.sibling < 2 ^ 31 → (walkNode item e).Index = (e.sibling : Int)))

/-! ## `server/service.go`: screenshot stream -/

/-- Lines 260 to 266 of Go `MobileService.ScreenshotStream`: the frame rate `fps` for the
requested `max_fps` and the configured `StreamMaxFPS`. -/
def streamFps (maxFps streamMaxFPS : Int) : Int :=
  let fps := if maxFps ≤ 0 then 2 else maxFps
  if fps > streamMaxFPS then streamMaxFPS else fps

/-- The tick interval in nanoseconds, `time.Second / time.Duration(fps)`, handed to
`time.NewTicker`.  `none` is a run-time fault: integer division by zero, or the panic of
`NewTicker` for an interval that is not positive. -/
def streamInterval (fps : Int) : Option Int :=
  if fps = 0 then none
  else if (1000000000 : Int).tdiv fps ≤ 0 then none
  else some ((1000000000 : Int).tdiv fps)

/-- Lines 268 to 271: the chunk size for the configured `StreamChunkBytes`. -/
def streamChunkSize (streamChunkBytes : Int) : Int :=
  if streamChunkBytes ≤ 0 then 65536 else streamChunkBytes

/-- Modelled from the spec: the generated protobuf message `mobilev1.ScreenshotFrameMeta`
(`Width`, `Height`, `ChunkCount` are `uint32`, `TotalBytes` is `uint64`). -/
structure ScreenshotFrameMeta where
  FrameId : String
  DeviceId : String
  Width : Int
  Height : Int
  MimeType : String
  TotalBytes : Int
  ChunkCount : Int
  CapturedAtUnixMs : Int
deriving DecidableEq, Repr

/-- Modelled from the spec: the generated protobuf message `mobilev1.ScreenshotChunk`
(`ChunkIndex` is `uint32`). -/
structure ScreenshotChunk where
  FrameId : String
  ChunkIndex : Int
  Data : List UInt8
deriving DecidableEq, Repr

/-- Modelled from the spec: the generated protobuf message `mobilev1.ScreenshotStreamEvent`
with the three payloads that the stream sends. -/
inductive ScreenshotStreamEvent where
  | FrameMeta (m : ScreenshotFrameMeta)
  | Chunk (c : ScreenshotChunk)
  | End (reason : String)
deriving DecidableEq, Repr

/-- The body of the chunk loop of `ScreenshotStream` in round `i`: the event it sends.
`none` is the run-time fault of the slice expression `frame.data[start:end]`. -/
def chunkEvent (frameID : String) (data : List UInt8) (chunkSize : Int) (i : Nat) :
    Option ScreenshotStreamEvent :=
  let start := wrapInt64 ((i : Int) * chunkSize)
  let end0 := wrapInt64 (start + chunkSize)
  let end1 := if end0 > (data.length : Int) then (data.length : Int) else end0
  if start < 0 ∨ end1 < start then none
  else some (ScreenshotStreamEvent.Chunk
    { FrameId := frameID
      ChunkIndex := (i : Int) % 2 ^ 32
      Data := (data.drop start.toNat).take (end1 - start).toNat })

/-- The chunk loop over the given rounds, every `stream.Send` succeeding. -/
def sendChunks (frameID : String) (data : List UInt8) (chunkSize : Int) :
    List Nat → Option (List ScreenshotStreamEvent)
  | [] => some []
  | i :: rounds =>
    match chunkEvent frameID data chunkSize i with
    | none => none
    | some ev =>
      match sendChunks frameID data chunkSize rounds with
      | none => none
      | some evs => some (ev :: evs)

/-- The count `chunkCount := int((len(frame.data) + chunkSize - 1) / chunkSize)`. -/
def chunkCount (total : Nat) (chunkSize : Int) : Int :=
  (wrapInt64 ((total : Int) + chunkSize - 1)).tdiv chunkSize

/-- Lines 309 to 342 of Go `MobileService.ScreenshotStream`: the events sent for one
captured frame (one `FrameMeta`, then the rounds `i = 0, 1, …` while `i < chunkCount`),
every `stream.Send` succeeding.  `frameID` is the fresh `uuid.NewString()`, `now` the
clock reading in nanoseconds. -/
def sendFrame (frameID deviceID : String) (data : List UInt8) (w h : Int) (chunkSize : Int)
    (now : Nat) : Option (List ScreenshotStreamEvent) :=
  let count := chunkCount data.length chunkSize
  let frameMeta : ScreenshotFrameMeta :=
    { FrameId := frameID
      DeviceId := deviceID
      Width := w % 2 ^ 32
      Height := h % 2 ^ 32
      MimeType := "image/jpeg"
      TotalBytes := (data.length : Int)
      ChunkCount := count % 2 ^ 32
      CapturedAtUnixMs := ((now / 1000000 : Nat) : Int) }
  match sendChunks frameID data chunkSize (List.range count.toNat) with
  | none => none
  | some chunks => some (ScreenshotStreamEvent.FrameMeta frameMeta :: chunks)

/-- The data of a chunk event (empty for the other events). -/
def eventData : ScreenshotStreamEvent → List UInt8
  | ScreenshotStreamEvent.Chunk c => c.Data
  | _ => []

/-! ## `server/service.go`: actions -/

/-- Modelled from the spec: the generated protobuf enum `mobilev1.ActionStatus`. -/
inductive ActionStatus where
  | ACTION_STATUS_UNSPECIFIED
  | ACTION_STATUS_OK
  | ACTION_STATUS_FAILED
  | ACTION_STATUS_TIMEOUT
deriving DecidableEq, Repr

/-- Modelled from the spec: the generated protobuf message `mobilev1.ActionResponse`
(its `Metadata` map is always empty and left out). -/
structure ActionResponse where
  DeviceId : String
  ActionId : String
  Status : ActionStatus
  StartedAtUnixMs : Int
  CompletedAtUnixMs : Int
  ErrorCode : String
  ErrorMessage : String
deriving DecidableEq, Repr

/-- The method `UnixMilli` of a clock reading in nanoseconds. -/
def unixMilli (nanos : Nat) : Int := ((nanos / 1000000 : Nat) : Int)

/-- Go `actionOK`; `actionID` is the fresh `uuid.NewString()`, `now` the clock reading. -/
def actionOK (deviceID : String) (startedAt : Nat) (actionID : String) (now : Nat) :
    ActionResponse :=
  { DeviceId := deviceID
    ActionId := actionID
    Status := ActionStatus.ACTION_STATUS_OK
    StartedAtUnixMs := unixMilli startedAt
    CompletedAtUnixMs := unixMilli now
    ErrorCode := ""
    ErrorMessage := "" }

/-- Go `actionFailed`; `err` is the text `err.Error()`. -/
def actionFailed (deviceID : String) (startedAt : Nat) (code : String) (err : String)
    (actionID : String) (now : Nat) : ActionResponse :=
  let statusCode :=
    if stringsContains (stringsToLower code) "timeout" then ActionStatus.ACTION_STATUS_TIMEOUT
    else ActionStatus.ACTION_STATUS_FAILED
  { DeviceId := deviceID
    ActionId := actionID
    Status := statusCode
    StartedAtUnixMs := unixMilli startedAt
    CompletedAtUnixMs := unixMilli now
    ErrorCode := code
    ErrorMessage := err }

/-- A call of the device bridge that an action submits through the executor. -/
inductive BridgeCall where
  | tap (x y count : Int)
  | typeText (text : String) (clear : Bool)
  | swipe (sx sy ex ey duration : Int)
deriving DecidableEq, Repr

/-- What an action meets outside the service: the result of `registry.RuntimeForDevice`,
the error (or success) that `Executor.Submit` returns for a bridge call, the fresh action
id, and the clock readings at the start and at the completion. -/
structure ActionEnv where
  runtime : Except String Unit
  submit : BridgeCall → Except String Unit
  actionID : String
  startedAt : Nat
  completedAt : Nat

/-- Modelled from the spec: the generated protobuf message `mobilev1.TapRequest`; the
target getters return `""` or nil for a target that is not set. -/
structure TapRequest where
  DeviceId : String
  SnapshotId : String
  RefId : String
  Selector : Option Selector
  Coordinates : Option Coordinates
  TapCount : Int

/-- Modelled from the spec: the generated protobuf message `mobilev1.TypeRequest`. -/
structure TypeRequest where
  DeviceId : String
  SnapshotId : String
  RefId : String
  Selector : Option Selector
  Coordinates : Option Coordinates
  Text : String
  ClearBeforeType : Bool

/-- Modelled from the spec: the generated protobuf enum `mobilev1.Direction`. -/
inductive Direction where
  | DIRECTION_UNSPECIFIED
  | DIRECTION_UP
  | DIRECTION_DOWN
  | DIRECTION_LEFT
  | DIRECTION_RIGHT
deriving DecidableEq, Repr

/-- Modelled from the spec: the generated protobuf message `mobilev1.SwipeRequest`. -/
structure SwipeRequest where
  DeviceId : String
  Start : Option Coordinates
  End : Option Coordinates
  DistancePx : Int
  Direction : Direction
  DurationMs : Int

/-- Go `swipeCoordinates` (`int32` arithmetic). -/
def swipeCoordinates (req : SwipeRequest) : Int × Int × Int × Int :=
  match req.Start, req.End with
  | some st, some en => (st.X, st.Y, en.X, en.Y)
  | _, _ =>
    let distance := if req.DistancePx ≤ 0 then 400 else req.DistancePx
    match req.Direction with
    | Direction.DIRECTION_UP => (500, 1000, 500, wrapInt32 (1000 - distance))
    | Direction.DIRECTION_DOWN => (500, 1000, 500, wrapInt32 (1000 + distance))
    | Direction.DIRECTION_LEFT => (500, 1000, wrapInt32 (500 - distance), 1000)
    | Direction.DIRECTION_RIGHT => (500, 1000, wrapInt32 (500 + distance), 1000)
    | Direction.DIRECTION_UNSPECIFIED => (500, 1000, 500, wrapInt32 (1000 - distance))

/-- Go `MobileService.Tap`; returns the store afterwards and the response. -/
def Tap (rx : Regexp) (store : Store) (capture : Capture) (clk : Clock) (env : ActionEnv)
    (req : TapRequest) : Store × ActionResponse :=
  match env.runtime with
  | Except.error err =>
    (store, actionFailed req.DeviceId env.startedAt "DEVICE_NOT_FOUND" err env.actionID
      env.completedAt)
  | Except.ok _ =>
    match resolveTargetPoint rx store capture clk req.DeviceId req.SnapshotId req.RefId
        req.Selector req.Coordinates with
    | (store1, Except.error resolveErr) =>
      (store1, actionFailed req.DeviceId env.startedAt "INVALID_TARGET" resolveErr env.actionID
        env.completedAt)
    | (store1, Except.ok pt) =>
      let count := if req.TapCount ≤ 0 then 1 else req.TapCount
      match env.submit (BridgeCall.tap pt.x pt.y count) with
      | Except.error err =>
        (store1, actionFailed req.DeviceId env.startedAt "TAP_FAILED" err env.actionID
          env.completedAt)
      | Except.ok _ => (store1, actionOK req.DeviceId env.startedAt env.actionID env.completedAt)

/-- Go `MobileService.Type`. -/
def TypeAction (rx : Regexp) (store : Store) (capture : Capture) (clk : Clock)
    (env : ActionEnv) (req : TypeRequest) : Store × ActionResponse :=
  match env.runtime with
  | Except.error err =>
    (store, actionFailed req.DeviceId env.startedAt "DEVICE_NOT_FOUND" err env.actionID
      env.completedAt)
  | Except.ok _ =>
    match resolveTargetPoint rx store capture clk req.DeviceId req.SnapshotId req.RefId
        req.Selector req.Coordinates with
    | (store1, Except.error resolveErr) =>
      (store1, actionFailed req.DeviceId env.startedAt "INVALID_TARGET" resolveErr env.actionID
        env.completedAt)
    | (store1, Except.ok _) =>
      match env.submit (BridgeCall.typeText req.Text req.ClearBeforeType) with
      | Except.error err =>
        (store1, actionFailed req.DeviceId env.startedAt "TYPE_FAILED" err env.actionID
          env.completedAt)
      | Except.ok _ => (store1, actionOK req.DeviceId env.startedAt env.actionID env.completedAt)

/-- Go `MobileService.Swipe`. -/
def Swipe (env : ActionEnv) (req : SwipeRequest) : ActionResponse :=
  match env.runtime with
  | Except.error err =>
    actionFailed req.DeviceId env.startedAt "DEVICE_NOT_FOUND" err env.actionID env.completedAt
  | Except.ok _ =>
    let c := swipeCoordinates req
    let duration := if req.DurationMs ≤ 0 then 200 else req.DurationMs
    match env.submit (BridgeCall.swipe c.1 c.2.1 c.2.2.1 c.2.2.2 duration) with
    | Except.error err =>
      actionFailed req.DeviceId env.startedAt "SWIPE_FAILED" err env.actionID env.completedAt
    | Except.ok _ => actionOK req.DeviceId env.startedAt env.actionID env.completedAt

/-! ## `server/service.go`: `FindElements` -/

/-- The gRPC status codes that the service returns. -/
inductive Code where
  | NotFound
  | Internal
deriving DecidableEq, Repr

/-- An RPC error `status.Error(code, message)`. -/
structure RpcError where
  code : Code
  message : String
deriving DecidableEq, Repr

/-- Modelled from the spec: the generated protobuf message `mobilev1.Element`; `Node` is
the converted node (`convertNode` copies the fields one to one) or nil. -/
structure Element where
  RefId : String
  Node : Option Node
deriving DecidableEq, Repr

/-- Modelled from the spec: the generated protobuf message `mobilev1.FindElementsRequest`;
`Limit` is an integer field (the code converts it with `int(req.Limit)`). -/
structure FindElementsRequest where
  DeviceId : String
  SnapshotId : String
  Selector : Option Selector
  Cursor : String
  Limit : Int
  IncludeNodes : Bool

/-- Modelled from the spec: the generated protobuf message
`mobilev1.FindElementsResponse` (`TotalMatched` is `uint32`). -/
structure FindElementsResponse where
  DeviceId : String
  SnapshotId : String
  Elements : List Element
  NextCursor : String
  TotalMatched : Int
deriving DecidableEq, Repr

/-- Go `parseCursor`. -/
def parseCursor (cursor : String) : Int :=
  if cursor = "" then 0
  else
    match Atoi cursor with
    | none => 0
    | some v => if v < 0 then 0 else v

/-- Lines 142 to 175 of Go `MobileService.FindElements`: the response built from a
resolved snapshot.  `none` is the run-time fault of the slice expression
`matches[start:end]` when `start + limit` wrapped around. -/
def findElementsPage (rx : Regexp) (snap : Snapshot) (req : FindElementsRequest) :
    Option FindElementsResponse :=
  let found := filterNodes rx snap.Nodes req.Selector
  let start0 := parseCursor req.Cursor
  let start := if start0 > (found.length : Int) then (found.length : Int) else start0
  let limit := if req.Limit ≤ 0 then 50 else req.Limit
  let end0 := wrapInt64 (start + limit)
  let end1 := if end0 > (found.length : Int) then (found.length : Int) else end0
  let next := if end1 < (found.length : Int) then Itoa end1 else ""
  if end1 < start then none
  else
    some
      { DeviceId := req.DeviceId
        SnapshotId := snap.ID
        Elements := ((found.drop start.toNat).take (end1 - start).toNat).map
          (fun node => { RefId := node.RefID, Node := if req.IncludeNodes then some node else none })
        NextCursor := next
        TotalMatched := (found.length : Int) % 2 ^ 32 }

/-- Go `MobileService.FindElements`; returns the store afterwards and the response or the
RPC error, `none` for the run-time fault of `findElementsPage`. -/
def FindElements (rx : Regexp) (store : Store) (capture : Capture) (clk : Clock)
    (req : FindElementsRequest) : Option (Store × Except RpcError FindElementsResponse) :=
  match resolveSnapshot store capture clk req.DeviceId req.SnapshotId with
  | (store1, Except.error err) =>
    some (store1, Except.error { code := Code.NotFound, message := err })
  | (store1, Except.ok snap) =>
    match findElementsPage rx snap req with
    | none => none
    | some resp => some (store1, Except.ok resp)

/-! ## `device/registry.go`: port assignment -/

/-- Go `type Runtime struct`: the executor and the bridge client are represented by the
local port the client was built for. -/
structure Runtime where
  DeviceID : String
  Port : Int
deriving DecidableEq, Repr

/-- Go `type Registry struct` (Android and iOS), without the configuration, the device
cache and the lock. -/
structure Registry where
  runtimes : GoMap Runtime
  portByDev : GoMap Int
  nextPort : Int

/-- Go `NewRegistry` for the configured base port (`UIA2BasePort`, `WDABasePort`). -/
def NewRegistry (basePort : Int) : Registry :=
  { runtimes := GoMap.empty, portByDev := GoMap.empty, nextPort := basePort }

/-- Go `Registry.assignPort` (the same in both workers); returns the registry afterwards
and the port. -/
def Registry.assignPort (r : Registry) (deviceID : String) : Registry × Int :=
  match r.portByDev deviceID with
  | some p => (r, p)
  | none =>
    ({ r with nextPort := wrapInt64 (r.nextPort + 1),
              portByDev := r.portByDev.set deviceID r.nextPort }, r.nextPort)

/-- Go `Registry.RuntimeForDevice` of the Android worker.  `forward port` is the result of
`ensurePortForward` and `session port` the result of `EnsureSession` of the client built
for the port. -/
def Registry.RuntimeForDevice (r : Registry) (deviceID : String)
    (forward session : Int → Except String Unit) : Registry × Except String Runtime :=
  match r.runtimes deviceID with
  | some existing => (r, Except.ok existing)
  | none =>
    let a := r.assignPort deviceID
    match forward a.2 with
    | Except.error err => (a.1, Except.error ("adb port-forward failed: " ++ err))
    | Except.ok _ =>
      match session a.2 with
      | Except.error err => (a.1, Except.error err)
      | Except.ok _ =>
        ({ a.1 with runtimes := a.1.runtimes.set deviceID { DeviceID := deviceID, Port := a.2 } },
          Except.ok { DeviceID := deviceID, Port := a.2 })

/-- Go `Registry.RuntimeForDevice` of the iOS worker, which forwards no port. -/
def Registry.RuntimeForDeviceIOS (r : Registry) (deviceID : String)
    (session : Int → Except String Unit) : Registry × Except String Runtime :=
  match r.runtimes deviceID with
  | some existing => (r, Except.ok existing)
  | none =>
    let a := r.assignPort deviceID
    match session a.2 with
    | Except.error err => (a.1, Except.error err)
    | Except.ok _ =>
      ({ a.1 with runtimes := a.1.runtimes.set deviceID { DeviceID := deviceID, Port := a.2 } },
        Except.ok { DeviceID := deviceID, Port := a.2 })

/-- The registry after a sequence of `assignPort` calls, oldest first. -/
def Registry.assignAll (r : Registry) (calls : List String) : Registry :=
  calls.foldl (fun r d => (r.assignPort d).1) r

/-- Invariant of the port table for base port `B`: `next_port` is at least `B`, every
assigned port lies in `[B, next_port)`, and no port is held by two devices. -/
def PortsOk (B : Int) (r : Registry) : Prop :=
  B ≤ r.nextPort ∧
  (∀ d p, r.portByDev d = some p → B ≤ p ∧ p < r.nextPort) ∧
  (∀ d1 d2 p, r.portByDev d1 = some p → r.portByDev d2 = some p → d1 = d2)

/-! ## The store and device ids -/

/-- Every id in the store was built for the device it is filed under: the key of a
snapshot in `items` is an id of the snapshot's device, the ids listed for a device and
the latest id of a device are ids of that device. -/
def DevInv (s : Store) : Prop :=
  (∀ i snap, s.items i = some snap → ∃ t, i = snapshotID snap.DeviceID t) ∧
  (∀ d ids, s.byDevice d = some ids → ∀ i ∈ ids, ∃ t, i = snapshotID d t) ∧
  (∀ d i, s.latestByDevice d = some i → ∃ t, i = snapshotID d t)

/-! ## One device, a clock that does not step back -/

/-- What `Put`s for the one device `d` at clock readings that do not decrease, none above
`T`, keep true of the store: the ids listed for `d` are ids of `d` at non-decreasing
readings up to `T`, and every snapshot in `items` is one of `d`, filed under its id, made
at a reading up to `T` and expiring `ttl` later. -/
def PutsInv (d : String) (ttl : Int) (T : Nat) (s : Store) : Prop :=
  (∃ ts : List Nat, (s.byDevice d).getD [] = ts.map (snapshotID d) ∧
    ts.Pairwise (fun a b => a ≤ b) ∧ ∀ t ∈ ts, t ≤ T) ∧
  (∀ i snap, s.items i = some snap →
    ∃ t, t ≤ T ∧ i = snapshotID d t ∧ snap.ExpiresAt = (t : Int) + ttl)

/-! # Theorems -/

/-! ## Decimal formatting and parsing -/

theorem digitValue_digitChar (d : Nat) (h : d < 10) : digitValue (Nat.digitChar d) = some d := by
  interval_cases d <;> decide

theorem parseDigits_append_single (l : List Char) (c : Char) (acc : Nat) :
    parseDigits (l ++ [c]) acc =
      (parseDigits l acc).bind (fun v => (digitValue c).map (fun d => v * 10 + d)) := by
  induction l generalizing acc with
  | nil =>
    cases h : digitValue c <;> simp [parseDigits, h]
  | cons a l ih =>
    cases h : digitValue a with
    | none => simp [parseDigits, h]
    | some d => simp [parseDigits, h, ih]

theorem parseDigits_all_digits (l : List Char) (acc v : Nat) (h : parseDigits l acc = some v) :
    ∀ c ∈ l, digitValue c ≠ none := by
  induction l generalizing acc with
  | nil => simp
  | cons a l ih =>
    intro c hc
    cases ha : digitValue a with
    | none => simp [parseDigits, ha] at h
    | some d =>
      simp only [parseDigits, ha] at h
      rcases List.mem_cons.mp hc with rfl | hc
      · simp [ha]
      · exact ih _ h c hc

theorem toDigitsCore_append (fuel n : Nat) (ds : List Char) :
    Nat.toDigitsCore 10 fuel n ds = Nat.toDigitsCore 10 fuel n [] ++ ds := by
  induction fuel generalizing n ds with
  | zero => simp [Nat.toDigitsCore]
  | succ fuel ih =>
    simp only [Nat.toDigitsCore]
    split
    · simp
    · rw [ih (n / 10) (Nat.digitChar (n % 10) :: ds), ih (n / 10) [Nat.digitChar (n % 10)]]
      simp

theorem parseDigits_toDigitsCore (fuel n : Nat) (h : n < fuel) :
    parseDigits (Nat.toDigitsCore 10 fuel n []) 0 = some n := by
  induction fuel generalizing n with
  | zero => omega
  | succ fuel ih =>
    simp only [Nat.toDigitsCore]
    split
    · rename_i h0
      have hn : n % 10 = n := by omega
      have hd := digitValue_digitChar (n % 10) (Nat.mod_lt _ (by decide))
      rw [hn] at hd
      simp [parseDigits, hn, hd]
    · rename_i h0
      rw [toDigitsCore_append, parseDigits_append_single, ih (n / 10) (by omega)]
      simp [digitValue_digitChar (n % 10) (Nat.mod_lt _ (by decide))]
      omega

theorem parseDigits_toDigits (n : Nat) : parseDigits (Nat.toDigits 10 n) 0 = some n :=
  parseDigits_toDigitsCore (n + 1) n (Nat.lt_succ_self n)

theorem Itoa_natCast_toList (n : Nat) : (Itoa (n : Int)).toList = Nat.toDigits 10 n := rfl

theorem toDigits_ne_nil (n : Nat) : Nat.toDigits 10 n ≠ [] := by
  intro h
  have := parseDigits_toDigits n
  rw [h] at this
  simp only [parseDigits, Option.some.injEq] at this
  subst this
  simp [Nat.toDigits, Nat.toDigitsCore] at h

theorem toDigits_injective (n m : Nat) (h : Nat.toDigits 10 n = Nat.toDigits 10 m) : n = m := by
  have h1 := parseDigits_toDigits n
  rw [h, parseDigits_toDigits m] at h1
  exact (Option.some.inj h1).symm

theorem dash_not_mem_toDigits (n : Nat) : '-' ∉ Nat.toDigits 10 n := by
  intro h
  exact parseDigits_all_digits _ _ _ (parseDigits_toDigits n) '-' h (by decide)

theorem plus_not_mem_toDigits (n : Nat) : '+' ∉ Nat.toDigits 10 n := by
  intro h
  exact parseDigits_all_digits _ _ _ (parseDigits_toDigits n) '+' h (by decide)

/-- Parsing what `Itoa` printed gives the number back, within the range of `int`. -/
theorem Atoi_Itoa (n : Nat) (h : n < 2 ^ 63) : Atoi (Itoa (n : Int)) = some (n : Int) := by
  unfold Atoi
  rw [Itoa_natCast_toList]
  have hne := toDigits_ne_nil n
  have hd := dash_not_mem_toDigits n
  have hp := plus_not_mem_toDigits n
  have hv := parseDigits_toDigits n
  cases hl : Nat.toDigits 10 n with
  | nil => exact absurd hl hne
  | cons c cs =>
    rw [hl] at hd hp hv
    have hc1 : c ≠ '-' := fun e => hd (by simp [e])
    have hc2 : c ≠ '+' := fun e => hp (by simp [e])
    simp only [hc1, hc2, or_self, if_false, decide_False, hv]
    have hlo : -(2 : Int) ^ 63 ≤ (n : Int) := by
      have : (0 : Int) ≤ (n : Int) := Int.ofNat_nonneg n
      omega
    have hhi : (n : Int) < 2 ^ 63 := by exact_mod_cast h
    rw [if_pos ⟨hlo, hhi⟩]
    simp

theorem Itoa_ne_empty (n : Nat) : Itoa (n : Int) ≠ "" := by
  intro h
  have := congrArg String.toList h
  rw [Itoa_natCast_toList] at this
  exact toDigits_ne_nil n this

theorem pageStart_Itoa (n : Nat) (h : n < 2 ^ 63) : pageStart (Itoa (n : Int)) = (n : Int) := by
  unfold pageStart
  simp [Itoa_ne_empty, Atoi_Itoa n h]

/-! ## Snapshot ids -/

theorem list_split_at_last_dash (l1 l2 r1 r2 : List Char) (h1 : '-' ∉ r1) (h2 : '-' ∉ r2)
    (h : l1 ++ '-' :: r1 = l2 ++ '-' :: r2) : l1 = l2 ∧ r1 = r2 := by
  rcases List.append_eq_append_iff.mp h with ⟨a, ha, hb⟩ | ⟨a, ha, hb⟩
  · cases a with
    | nil => simp at ha hb; exact ⟨ha.symm, hb⟩
    | cons c a =>
      simp only [List.cons_append, List.cons.injEq] at hb
      exact absurd (by rw [hb.2]; simp) h1
  · cases a with
    | nil => simp at ha hb; exact ⟨ha, hb.symm⟩
    | cons c a =>
      simp only [List.cons_append, List.cons.injEq] at hb
      exact absurd (by rw [hb.2]; simp) h2

theorem snapshotID_toList (d : String) (t : Nat) :
    (snapshotID d t).toList = d.toList ++ '-' :: Nat.toDigits 10 t := by
  have h := Itoa_natCast_toList t
  simp only [String.toList] at h
  simp [snapshotID, h]

/-- The id format is injective in the pair of the device id and the clock reading. -/
theorem snapshotID_injective (d1 d2 : String) (t1 t2 : Nat)
    (h : snapshotID d1 t1 = snapshotID d2 t2) : d1 = d2 ∧ t1 = t2 := by
  have h' := congrArg String.toList h
  rw [snapshotID_toList, snapshotID_toList] at h'
  obtain ⟨ha, hb⟩ := list_split_at_last_dash _ _ _ _ (dash_not_mem_toDigits t1)
    (dash_not_mem_toDigits t2) h'
  exact ⟨String.ext ha, toDigits_injective _ _ hb⟩

/-! ## The store: effect of `Put` -/

theorem Put_snd (s : Store) (d : String) (nodes : List Node) (t : Nat) :
    (s.Put d nodes t).2 = mkSnapshot s.ttl d nodes t := by
  unfold Store.Put mkSnapshot
  simp only []
  split
  · split <;> rfl
  · rfl

theorem Put_fst (s : Store) (d : String) (nodes : List Node) (t : Nat) :
    (s.Put d nodes t).1 =
      if (((s.byDevice d).getD [] ++ [snapshotID d t]).length : Int) > s.maxSnapshotsPerDevice then
        { s with
          items := (s.items.set (snapshotID d t) (mkSnapshot s.ttl d nodes t)).delete
            (((s.byDevice d).getD [] ++ [snapshotID d t]).headD (snapshotID d t))
          latestByDevice := s.latestByDevice.set d (snapshotID d t)
          byDevice := s.byDevice.set d ((s.byDevice d).getD [] ++ [snapshotID d t]).tail }
      else
        { s with
          items := s.items.set (snapshotID d t) (mkSnapshot s.ttl d nodes t)
          latestByDevice := s.latestByDevice.set d (snapshotID d t)
          byDevice := s.byDevice.set d ((s.byDevice d).getD [] ++ [snapshotID d t]) } := by
  unfold Store.Put mkSnapshot
  simp only []
  cases (s.byDevice d).getD [] with
  | nil => simp only [List.nil_append]; split <;> rfl
  | cons a l => simp only [List.cons_append]; split <;> rfl

theorem Put_ttl (s : Store) (d : String) (nodes : List Node) (t : Nat) :
    (s.Put d nodes t).1.ttl = s.ttl := by
  rw [Put_fst]; split <;> rfl

theorem Put_max (s : Store) (d : String) (nodes : List Node) (t : Nat) :
    (s.Put d nodes t).1.maxSnapshotsPerDevice = s.maxSnapshotsPerDevice := by
  rw [Put_fst]; split <;> rfl

theorem Put_latest (s : Store) (d : String) (nodes : List Node) (t : Nat) :
    (s.Put d nodes t).1.latestByDevice = s.latestByDevice.set d (snapshotID d t) := by
  rw [Put_fst]; split <;> rfl

theorem Put_byDevice_other (s : Store) (d d' : String) (nodes : List Node) (t : Nat)
    (h : d' ≠ d) : (s.Put d nodes t).1.byDevice d' = s.byDevice d' := by
  rw [Put_fst]; split <;> simp [GoMap.set, h]

theorem Put_byDevice_self (s : Store) (d : String) (nodes : List Node) (t : Nat) :
    (s.Put d nodes t).1.byDevice d =
      some (if (((s.byDevice d).getD [] ++ [snapshotID d t]).length : Int)
              > s.maxSnapshotsPerDevice
            then ((s.byDevice d).getD [] ++ [snapshotID d t]).tail
            else (s.byDevice d).getD [] ++ [snapshotID d t]) := by
  rw [Put_fst]; split <;> simp [GoMap.set]

theorem step_ttl (s : Store) (op : StoreOp) : (s.step op).ttl = s.ttl := by
  cases op with
  | put d nodes t => exact Put_ttl s d nodes t
  | cleanup t => rfl

theorem step_max (s : Store) (op : StoreOp) :
    (s.step op).maxSnapshotsPerDevice = s.maxSnapshotsPerDevice := by
  cases op with
  | put d nodes t => exact Put_max s d nodes t
  | cleanup t => rfl

theorem run_nil (s : Store) : s.run [] = s := rfl

theorem run_cons (s : Store) (op : StoreOp) (ops : List StoreOp) :
    s.run (op :: ops) = (s.step op).run ops := rfl

theorem run_append (s : Store) (ops1 ops2 : List StoreOp) :
    s.run (ops1 ++ ops2) = (s.run ops1).run ops2 := by
  simp [Store.run, List.foldl_append]

theorem run_ttl (s : Store) (ops : List StoreOp) : (s.run ops).ttl = s.ttl := by
  induction ops generalizing s with
  | nil => rfl
  | cons op ops ih => rw [run_cons, ih, step_ttl]

theorem run_max (s : Store) (ops : List StoreOp) :
    (s.run ops).maxSnapshotsPerDevice = s.maxSnapshotsPerDevice := by
  induction ops generalizing s with
  | nil => rfl
  | cons op ops ih => rw [run_cons, ih, step_max]

theorem putKeys_append (ops1 ops2 : List StoreOp) :
    putKeys (ops1 ++ ops2) = putKeys ops1 ++ putKeys ops2 := by
  induction ops1 with
  | nil => rfl
  | cons op ops ih => cases op <;> simp [putKeys, ih]

theorem mem_putKeys (ops : List StoreOp) (d : String) (t : Nat) :
    (d, t) ∈ putKeys ops ↔ ∃ nodes, StoreOp.put d nodes t ∈ ops := by
  induction ops with
  | nil => simp [putKeys]
  | cons op ops ih =>
    cases op with
    | put d' nodes' t' =>
      simp only [putKeys, List.mem_cons, Prod.mk.injEq, ih, StoreOp.put.injEq]
      constructor
      · rintro (⟨rfl, rfl⟩ | ⟨n, hn⟩)
        · exact ⟨nodes', Or.inl ⟨rfl, rfl, rfl⟩⟩
        · exact ⟨n, Or.inr hn⟩
      · rintro ⟨n, (⟨rfl, _, rfl⟩ | hn)⟩
        · exact Or.inl ⟨rfl, rfl⟩
        · exact Or.inr ⟨n, hn⟩
    | cleanup t' => simp [putKeys, ih]

/-! ## The store: listed ids come from `Put`s -/

theorem IdsFrom_mono (s : Store) (H H' : List (String × Nat)) (hsub : ∀ k ∈ H, k ∈ H')
    (h : IdsFrom s H) : IdsFrom s H' := by
  intro d ids hd i hi
  obtain ⟨t, ht, hmem⟩ := h d ids hd i hi
  exact ⟨t, ht, hsub _ hmem⟩

theorem IdsFrom_Put (s : Store) (H : List (String × Nat)) (d : String) (nodes : List Node)
    (t : Nat) (h : IdsFrom s H) : IdsFrom (s.Put d nodes t).1 (H ++ [(d, t)]) := by
  intro d' ids hd i hi
  by_cases hdd : d' = d
  · subst hdd
    rw [Put_byDevice_self] at hd
    have hmem : i ∈ (s.byDevice d').getD [] ++ [snapshotID d' t] := by
      have := Option.some.inj hd
      subst this
      split at hi
      · exact List.mem_of_mem_tail hi
      · exact hi
    rcases List.mem_append.mp hmem with hold | hnew
    · cases hb : s.byDevice d' with
      | none => simp [hb] at hold
      | some l =>
        simp only [hb, Option.getD_some] at hold
        obtain ⟨t', ht', hm⟩ := h d' l hb i hold
        exact ⟨t', ht', List.mem_append_left _ hm⟩
    · simp only [List.mem_singleton] at hnew
      exact ⟨t, hnew, by simp⟩
  · rw [Put_byDevice_other _ _ _ _ _ hdd] at hd
    obtain ⟨t', ht', hm⟩ := h d' ids hd i hi
    exact ⟨t', ht', List.mem_append_left _ hm⟩

theorem IdsFrom_cleanup (s : Store) (H : List (String × Nat)) (now : Nat) (h : IdsFrom s H) :
    IdsFrom (s.cleanupExpired now) H := by
  intro d ids hd i hi
  simp only [Store.cleanupExpired] at hd
  cases hb : s.byDevice d with
  | none => simp [hb] at hd
  | some l =>
    simp only [hb, Option.map_some', Option.some.injEq] at hd
    subst hd
    exact h d l hb i (List.mem_of_mem_filter hi)

theorem IdsFrom_step (s : Store) (H : List (String × Nat)) (op : StoreOp) (h : IdsFrom s H) :
    IdsFrom (s.step op) (H ++ putKeys [op]) := by
  cases op with
  | put d nodes t => exact IdsFrom_Put s H d nodes t h
  | cleanup t => simpa [putKeys] using IdsFrom_cleanup s H t h

theorem IdsFrom_run (ops : List StoreOp) (s : Store) (H : List (String × Nat))
    (h : IdsFrom s H) : IdsFrom (s.run ops) (H ++ putKeys ops) := by
  induction ops generalizing s H with
  | nil => simpa [putKeys] using h
  | cons op ops ih =>
    have := ih (s.step op) (H ++ putKeys [op]) (IdsFrom_step s H op h)
    rw [List.append_assoc, ← putKeys_append] at this
    exact this

theorem IdsFrom_NewStore (ttl maxN : Int) : IdsFrom (NewStore ttl maxN) [] := by
  intro d ids hd
  simp [NewStore, GoMap.empty] at hd

/-! ## The store: a snapshot between its `Put` and its expiry -/

theorem headD_mem_append_singleton (l : List String) (a : String) :
    (l ++ [a]).headD a ∈ l ++ [a] := by
  cases l with
  | nil => simp
  | cons b l => simp

theorem Put_items_other_device (s : Store) (H : List (String × Nat)) (d d' : String)
    (nodes : List Node) (t0 t' : Nat) (h : IdsFrom s H) (hd : d' ≠ d) :
    (s.Put d' nodes t').1.items (snapshotID d t0) = s.items (snapshotID d t0) := by
  have hne : snapshotID d t0 ≠ snapshotID d' t' := fun e =>
    hd (snapshotID_injective _ _ _ _ e).1.symm
  rw [Put_fst]
  split
  · have hhead : snapshotID d t0 ≠
        ((s.byDevice d').getD [] ++ [snapshotID d' t']).headD (snapshotID d' t') := by
      intro e
      have hm := headD_mem_append_singleton ((s.byDevice d').getD []) (snapshotID d' t')
      rw [← e] at hm
      rcases List.mem_append.mp hm with hold | hnew
      · cases hb : s.byDevice d' with
        | none => simp [hb] at hold
        | some l =>
          simp only [hb, Option.getD_some] at hold
          obtain ⟨t, ht, _⟩ := h d' l hb _ hold
          exact hd (snapshotID_injective _ _ _ _ ht).1.symm
      · exact hne (List.mem_singleton.mp hnew)
    simp only [GoMap.set, GoMap.delete]
    rw [if_neg hhead, if_neg hne]
  · simp [GoMap.set, hne]

theorem Put_items_self_fresh (s : Store) (d : String) (nodes : List Node) (t0 : Nat)
    (hmax : 1 ≤ s.maxSnapshotsPerDevice)
    (hfresh : snapshotID d t0 ∉ (s.byDevice d).getD []) :
    (s.Put d nodes t0).1.items (snapshotID d t0) = some (mkSnapshot s.ttl d nodes t0) := by
  rw [Put_fst]
  split
  · rename_i hlen
    cases hold : (s.byDevice d).getD [] with
    | nil =>
      rw [hold] at hlen
      simp at hlen
      omega
    | cons a l =>
      rw [hold] at hfresh
      have hne : snapshotID d t0 ≠ a := fun e => hfresh (by simp [e])
      simp [GoMap.set, GoMap.delete, hne]
  · simp [GoMap.set]

theorem cleanup_items (s : Store) (now : Nat) (i : String) :
    (s.cleanupExpired now).items i =
      match s.items i with
      | none => none
      | some snap => if (now : Int) > snap.ExpiresAt then none else some snap := rfl

/-- Steps that are no `Put` for device `d` leave the entry of an id of `d` alone or
delete it. -/
theorem run_items_some_or_none (post : List StoreOp) (s : Store) (H : List (String × Nat))
    (d : String) (t0 : Nat) (snap : Snapshot) (h : IdsFrom s H)
    (hpost : ∀ d' nodes' t', StoreOp.put d' nodes' t' ∈ post → d' ≠ d)
    (hs : s.items (snapshotID d t0) = some snap ∨ s.items (snapshotID d t0) = none) :
    (s.run post).items (snapshotID d t0) = some snap ∨
      (s.run post).items (snapshotID d t0) = none := by
  induction post generalizing s H with
  | nil => exact hs
  | cons op post ih =>
    rw [run_cons]
    apply ih (s.step op) (H ++ putKeys [op]) (IdsFrom_step s H op h)
    · intro d' nodes' t' hm
      exact hpost d' nodes' t' (List.mem_cons_of_mem _ hm)
    · cases op with
      | put d' nodes' t' =>
        have hd : d' ≠ d := hpost d' nodes' t' (List.mem_cons_self _ _)
        simp only [Store.step]
        rw [Put_items_other_device s H d d' nodes' t0 t' h hd]
        exact hs
      | cleanup tc =>
        simp only [Store.step]
        rw [cleanup_items]
        rcases hs with hs | hs
        · rw [hs]
          by_cases hexp : (tc : Int) > snap.ExpiresAt
          · right; simp [hexp]
          · left; simp [hexp]
        · right; rw [hs]

/-- Steps that are no `Put` for device `d` and no cleanup after the expiry keep the entry. -/
theorem run_items_kept (post : List StoreOp) (s : Store) (H : List (String × Nat))
    (d : String) (t0 : Nat) (snap : Snapshot) (h : IdsFrom s H)
    (hpost : ∀ d' nodes' t', StoreOp.put d' nodes' t' ∈ post → d' ≠ d)
    (hclean : ∀ tc, StoreOp.cleanup tc ∈ post → (tc : Int) ≤ snap.ExpiresAt)
    (hs : s.items (snapshotID d t0) = some snap) :
    (s.run post).items (snapshotID d t0) = some snap := by
  induction post generalizing s H with
  | nil => exact hs
  | cons op post ih =>
    rw [run_cons]
    apply ih (s.step op) (H ++ putKeys [op]) (IdsFrom_step s H op h)
    · intro d' nodes' t' hm
      exact hpost d' nodes' t' (List.mem_cons_of_mem _ hm)
    · intro tc hm
      exact hclean tc (List.mem_cons_of_mem _ hm)
    · cases op with
      | put d' nodes' t' =>
        have hd : d' ≠ d := hpost d' nodes' t' (List.mem_cons_self _ _)
        simp only [Store.step]
        rw [Put_items_other_device s H d d' nodes' t0 t' h hd]
        exact hs
      | cleanup tc =>
        have hle := hclean tc (List.mem_cons_self _ _)
        simp only [Store.step]
        rw [cleanup_items, hs]
        have : ¬ ((tc : Int) > snap.ExpiresAt) := by omega
        simp [this]

theorem fresh_of_not_mem_putKeys (s : Store) (H : List (String × Nat)) (d : String) (t0 : Nat)
    (h : IdsFrom s H) (hfresh : (d, t0) ∉ H) : snapshotID d t0 ∉ (s.byDevice d).getD [] := by
  intro hm
  cases hb : s.byDevice d with
  | none => simp [hb] at hm
  | some l =>
    simp only [hb, Option.getD_some] at hm
    obtain ⟨t, ht, hmem⟩ := h d l hb _ hm
    have := (snapshotID_injective _ _ _ _ ht).2
    subst this
    exact hfresh hmem

/-- C1 (amended).  Snapshot TTL.  In a store with `max_snapshots_per_device >= 1` and any
history `pre`, let `Put(d, nodes)` at clock reading `t0` return a snapshot, where no
earlier `Put` for `d` was made at the same clock reading `t0`.  After any further steps
`post` that contain no `Put` for `d`, `Get` of the snapshot's id at time `t` returns that
same snapshot whenever `t <= t0 + ttl` and every cleanup of `post` ran at a time `<= t`,
and returns a miss whenever `t > t0 + ttl`, whatever cleanups ran. -/
theorem put_get_within_ttl (ttl maxN : Int) (pre post : List StoreOp) (d : String)
    (nodes : List Node) (t0 t : Nat)
    (hmax : 1 ≤ maxN)
    (hfresh : ∀ nodes', StoreOp.put d nodes' t0 ∉ pre)
    (hpost : ∀ d' nodes' t', StoreOp.put d' nodes' t' ∈ post → d' ≠ d) :
    ((t : Int) ≤ (t0 : Int) + ttl → (∀ tc, StoreOp.cleanup tc ∈ post → tc ≤ t) →
        ((((NewStore ttl maxN).run pre).Put d nodes t0).1.run post).Get
          (((NewStore ttl maxN).run pre).Put d nodes t0).2.ID t
          = some (((NewStore ttl maxN).run pre).Put d nodes t0).2) ∧
    ((t : Int) > (t0 : Int) + ttl →
        ((((NewStore ttl maxN).run pre).Put d nodes t0).1.run post).Get
          (((NewStore ttl maxN).run pre).Put d nodes t0).2.ID t = none) := by
  have hpre : IdsFrom ((NewStore ttl maxN).run pre) (putKeys pre) := by
    simpa using IdsFrom_run pre (NewStore ttl maxN) [] (IdsFrom_NewStore ttl maxN)
  have httl : ((NewStore ttl maxN).run pre).ttl = ttl := by rw [run_ttl]; rfl
  have hmx : ((NewStore ttl maxN).run pre).maxSnapshotsPerDevice = maxN := by
    rw [run_max]; rfl
  have hnot : (d, t0) ∉ putKeys pre := by
    rw [mem_putKeys]
    rintro ⟨n, hn⟩
    exact hfresh n hn
  have hput : (((NewStore ttl maxN).run pre).Put d nodes t0).1.items (snapshotID d t0)
      = some (mkSnapshot ttl d nodes t0) := by
    rw [Put_items_self_fresh _ d nodes t0 (by rw [hmx]; exact hmax)
      (fresh_of_not_mem_putKeys _ _ d t0 hpre hnot), httl]
  have hinv := IdsFrom_Put _ _ d nodes t0 hpre
  rw [Put_snd, httl]
  have hid : (mkSnapshot ttl d nodes t0).ID = snapshotID d t0 := rfl
  have hexp : (mkSnapshot ttl d nodes t0).ExpiresAt = (t0 : Int) + ttl := rfl
  rw [hid]
  constructor
  · intro hle hclean
    have hkept := run_items_kept post _ _ d t0 (mkSnapshot ttl d nodes t0) hinv hpost
      (by
        intro tc hm
        have := hclean tc hm
        rw [hexp]
        have h2 : (tc : Int) ≤ (t : Int) := by exact_mod_cast this
        omega)
      hput
    unfold Store.Get
    rw [hkept]
    have : ¬ ((t : Int) > (mkSnapshot ttl d nodes t0).ExpiresAt) := by rw [hexp]; omega
    simp [this]
  · intro hgt
    have hsn := run_items_some_or_none post _ _ d t0 (mkSnapshot ttl d nodes t0) hinv hpost
      (Or.inl hput)
    unfold Store.Get
    rcases hsn with hsn | hsn
    · rw [hsn]
      have : (t : Int) > (mkSnapshot ttl d nodes t0).ExpiresAt := by rw [hexp]; omega
      simp [this]
    · rw [hsn]

/-- C1 (as stated) fails: with `max = 1`, a second `Put` for the device at the same clock
reading as the first returns a snapshot whose id `Get` misses at once. -/
theorem put_get_same_clock_reading_miss :
    (0 : Int) ≤ 10 ∧ (1 : Int) ≤ 1 ∧ (5 : Nat) ≤ 5 ∧ ((5 : Nat) : Int) ≤ ((5 : Nat) : Int) + 10 ∧
    ((((NewStore 10 1).run [StoreOp.put "d" [] 5]).Put "d" [] 5).1.run []).Get
      (((NewStore 10 1).run [StoreOp.put "d" [] 5]).Put "d" [] 5).2.ID 5 = none := by
  decide

theorem put_get_within_ttl_witness :
    ((((NewStore 10 1).run [StoreOp.put "d" [] 3]).Put "d" [] 5).1.run
        [StoreOp.cleanup 7, StoreOp.put "e" [] 6]).Get
      (((NewStore 10 1).run [StoreOp.put "d" [] 3]).Put "d" [] 5).2.ID 9
      = some (((NewStore 10 1).run [StoreOp.put "d" [] 3]).Put "d" [] 5).2 ∧
    ((((NewStore 10 1).run [StoreOp.put "d" [] 3]).Put "d" [] 5).1.run
        [StoreOp.cleanup 7, StoreOp.put "e" [] 6]).Get
      (((NewStore 10 1).run [StoreOp.put "d" [] 3]).Put "d" [] 5).2.ID 16 = none :=
  ⟨(put_get_within_ttl 10 1 [StoreOp.put "d" [] 3] [StoreOp.cleanup 7, StoreOp.put "e" [] 6]
      "d" [] 5 9 (by decide) (by intro n; simp)
      (by
        intro d' n' t' hm
        simp at hm
        rw [hm.1]
        decide)).1 (by decide) (by intro tc hm; simp at hm; omega),
   (put_get_within_ttl 10 1 [StoreOp.put "d" [] 3] [StoreOp.cleanup 7, StoreOp.put "e" [] 6]
      "d" [] 5 16 (by decide) (by intro n; simp)
      (by
        intro d' n' t' hm
        simp at hm
        rw [hm.1]
        decide)).2 (by decide)⟩

/-! ## The store: per-device cap -/

theorem run_putsFor_snoc (s : Store) (d : String) (puts : List (List Node × Nat))
    (p : List Node × Nat) :
    s.run (putsFor d (puts ++ [p])) = ((s.run (putsFor d puts)).Put d p.1 p.2).1 := by
  simp [putsFor, run_append, Store.run, Store.step]

theorem idsFor_snoc (d : String) (puts : List (List Node × Nat)) (p : List Node × Nat) :
    idsFor d (puts ++ [p]) = idsFor d puts ++ [snapshotID d p.2] := by
  simp [idsFor]

theorem idsFor_length (d : String) (puts : List (List Node × Nat)) :
    (idsFor d puts).length = puts.length := by
  simp [idsFor]

theorem idsFor_nodup (d : String) (puts : List (List Node × Nat))
    (hinc : (puts.map Prod.snd).Pairwise (fun a b => a < b)) : (idsFor d puts).Nodup := by
  unfold idsFor List.Nodup
  rw [List.pairwise_map] at hinc ⊢
  refine hinc.imp ?_
  intro a b hab e
  have := (snapshotID_injective _ _ _ _ e).2
  omega

theorem drop_eq_head_cons {α : Type} (l : List α) (k : Nat) (a : α) (h : k < l.length) :
    l.drop k = (l.drop k).headD a :: l.drop (k + 1) := by
  induction l generalizing k with
  | nil => simp at h
  | cons b l ih =>
    cases k with
    | zero => simp
    | succ k =>
      simp only [List.drop_succ_cons]
      exact ih k (by simpa using h)

/-- What `N` `Put`s for one device at strictly increasing clock readings leave in the
store: the last `min N max` ids, their snapshots, and nothing else. -/
theorem run_putsFor_state (ttl maxN : Int) (d : String) (puts : List (List Node × Nat))
    (hmax : 1 ≤ maxN) (hinc : (puts.map Prod.snd).Pairwise (fun a b => a < b)) :
    ((((NewStore ttl maxN).run (putsFor d puts)).byDevice d).getD []
        = (idsFor d puts).drop (puts.length - maxN.toNat)) ∧
    (∀ p ∈ puts.drop (puts.length - maxN.toNat),
        ((NewStore ttl maxN).run (putsFor d puts)).items (snapshotID d p.2)
          = some (mkSnapshot ttl d p.1 p.2)) ∧
    (∀ i, i ∉ (idsFor d puts).drop (puts.length - maxN.toNat) →
        ((NewStore ttl maxN).run (putsFor d puts)).items i = none) ∧
    (((NewStore ttl maxN).run (putsFor d puts)).latestByDevice d
        = (idsFor d puts).getLast?) := by
  induction puts using List.reverseRecOn with
  | nil =>
    refine ⟨?_, ?_, ?_, ?_⟩ <;> simp [putsFor, idsFor, Store.run, NewStore, GoMap.empty]
  | append_singleton puts p ih =>
    have hinc' : (puts.map Prod.snd).Pairwise (fun a b => a < b) := by
      rw [List.map_append, List.pairwise_append] at hinc
      exact hinc.1
    have hlt : ∀ q ∈ puts, q.2 < p.2 := by
      rw [List.map_append, List.pairwise_append] at hinc
      intro q hq
      exact hinc.2.2 q.2 (List.mem_map_of_mem _ hq) p.2 (by simp)
    obtain ⟨ihB, ihI, ihN, ihL⟩ := ih hinc'
    have hnd := idsFor_nodup d puts hinc'
    have hnew : snapshotID d p.2 ∉ idsFor d puts := by
      intro hm
      obtain ⟨q, hq, he⟩ := List.mem_map.mp hm
      have := (snapshotID_injective _ _ _ _ he).2
      have := hlt q hq
      omega
    have hlen := idsFor_length d puts
    have hm1 : 1 ≤ maxN.toNat := by omega
    rw [run_putsFor_snoc, idsFor_snoc, List.length_append, List.length_singleton]
    generalize hs : (NewStore ttl maxN).run (putsFor d puts) = s at ihB ihI ihN ihL ⊢
    have httl : s.ttl = ttl := by rw [← hs, run_ttl]; rfl
    have hmx : s.maxSnapshotsPerDevice = maxN := by rw [← hs, run_max]; rfl
    by_cases hfull : maxN.toNat ≤ puts.length
    · -- the list is full: the oldest id is evicted
      have hk : puts.length + 1 - maxN.toNat = (puts.length - maxN.toNat) + 1 := by omega
      have hklt : puts.length - maxN.toNat < (idsFor d puts).length := by omega
      have hcond : (((s.byDevice d).getD [] ++ [snapshotID d p.2]).length : Int)
          > s.maxSnapshotsPerDevice := by
        rw [ihB, hmx, List.length_append, List.length_drop, hlen]
        simp only [List.length_singleton]
        omega
      have hsplit := drop_eq_head_cons (idsFor d puts) (puts.length - maxN.toNat)
        (snapshotID d p.2) hklt
      have hheadD : ((idsFor d puts).drop (puts.length - maxN.toNat) ++ [snapshotID d p.2]).headD
          (snapshotID d p.2)
          = ((idsFor d puts).drop (puts.length - maxN.toNat)).headD (snapshotID d p.2) := by
        rw [hsplit]; rfl
      have hhead_mem : ((idsFor d puts).drop (puts.length - maxN.toNat)).headD (snapshotID d p.2)
          ∈ idsFor d puts := by
        apply List.mem_of_mem_drop (n := puts.length - maxN.toNat)
        rw [hsplit]; simp
      have hhead_not : ((idsFor d puts).drop (puts.length - maxN.toNat)).headD (snapshotID d p.2)
          ∉ (idsFor d puts).drop (puts.length - maxN.toNat + 1) := by
        have hnd' : ((idsFor d puts).drop (puts.length - maxN.toNat)).Nodup :=
          List.Nodup.sublist (List.drop_sublist _ _) hnd
        rw [hsplit] at hnd'
        exact (List.nodup_cons.mp hnd').1
      have hdropapp : (idsFor d puts ++ [snapshotID d p.2]).drop (puts.length - maxN.toNat + 1)
          = (idsFor d puts).drop (puts.length - maxN.toNat + 1) ++ [snapshotID d p.2] :=
        List.drop_append_of_le_length (by omega)
      have hitems : (s.Put d p.1 p.2).1.items =
          (s.items.set (snapshotID d p.2) (mkSnapshot ttl d p.1 p.2)).delete
            (((idsFor d puts).drop (puts.length - maxN.toNat)).headD (snapshotID d p.2)) := by
        rw [Put_fst, if_pos hcond, ihB, hheadD, httl]
      rw [hk, hdropapp]
      refine ⟨?_, ?_, ?_, ?_⟩
      · rw [Put_byDevice_self, if_pos hcond, ihB]
        simp only [Option.getD_some]
        conv_lhs => rw [hsplit]
        simp
      · intro q hq
        rw [List.drop_append_of_le_length (by omega)] at hq
        rw [hitems]
        rcases List.mem_append.mp hq with hq | hq
        · have hqid : snapshotID d q.2 ∈ (idsFor d puts).drop (puts.length - maxN.toNat + 1) := by
            unfold idsFor
            rw [← List.map_drop]
            exact List.mem_map_of_mem (fun p => snapshotID d p.2) hq
          have h1 : snapshotID d q.2 ≠
              ((idsFor d puts).drop (puts.length - maxN.toNat)).headD (snapshotID d p.2) :=
            fun e => hhead_not (e ▸ hqid)
          have h2 : snapshotID d q.2 ≠ snapshotID d p.2 :=
            fun e => hnew (e ▸ List.mem_of_mem_drop hqid)
          have hq' : q ∈ puts.drop (puts.length - maxN.toNat) := by
            have : puts.drop (puts.length - maxN.toNat + 1)
                = (puts.drop (puts.length - maxN.toNat)).drop 1 := by
              rw [List.drop_drop]
            rw [this] at hq
            exact List.mem_of_mem_drop hq
          simp only [GoMap.set, GoMap.delete]
          rw [if_neg h1, if_neg h2]
          exact ihI q hq'
        · simp only [List.mem_singleton] at hq
          subst hq
          have h1 : snapshotID d q.2 ≠
              ((idsFor d puts).drop (puts.length - maxN.toNat)).headD (snapshotID d q.2) :=
            fun e => hnew (e ▸ hhead_mem)
          simp only [GoMap.set, GoMap.delete]
          rw [if_neg h1]
          simp
      · intro i hi
        rw [hitems]
        simp only [GoMap.set, GoMap.delete]
        have hi1 : i ≠ snapshotID d p.2 := fun e => hi (by simp [e])
        have hi2 : i ∉ (idsFor d puts).drop (puts.length - maxN.toNat + 1) :=
          fun e => hi (List.mem_append_left _ e)
        by_cases hih : i = ((idsFor d puts).drop (puts.length - maxN.toNat)).headD (snapshotID d p.2)
        · rw [if_pos hih]
        · rw [if_neg hih, if_neg hi1]
          apply ihN
          rw [hsplit]
          simp only [List.mem_cons, not_or]
          exact ⟨hih, hi2⟩
      · rw [Put_latest]
        simp [GoMap.set]
    · -- the list is not full: nothing is evicted
      have hk0 : puts.length - maxN.toNat = 0 := by omega
      have hk1 : puts.length + 1 - maxN.toNat = 0 := by omega
      rw [hk0] at ihB ihI ihN
      simp only [List.drop_zero] at ihB ihI ihN
      have hcond : ¬ ((((s.byDevice d).getD [] ++ [snapshotID d p.2]).length : Int)
          > s.maxSnapshotsPerDevice) := by
        rw [ihB, hmx, List.length_append, hlen]
        simp only [List.length_singleton]
        omega
      have hitems : (s.Put d p.1 p.2).1.items =
          s.items.set (snapshotID d p.2) (mkSnapshot ttl d p.1 p.2) := by
        rw [Put_fst, if_neg hcond, httl]
      rw [hk1]
      simp only [List.drop_zero]
      refine ⟨?_, ?_, ?_, ?_⟩
      · rw [Put_byDevice_self, if_neg hcond, ihB]
        simp
      · intro q hq
        rw [hitems]
        simp only [GoMap.set]
        rcases List.mem_append.mp hq with hq | hq
        · have h2 : snapshotID d q.2 ≠ snapshotID d p.2 := by
            intro e
            apply hnew
            rw [← e]
            exact List.mem_map_of_mem (fun p => snapshotID d p.2) hq
          rw [if_neg h2]
          exact ihI q hq
        · simp only [List.mem_singleton] at hq
          subst hq
          simp
      · intro i hi
        rw [hitems]
        simp only [GoMap.set]
        have hi1 : i ≠ snapshotID d p.2 := fun e => hi (by simp [e])
        rw [if_neg hi1]
        exact ihN i (fun e => hi (List.mem_append_left _ e))
      · rw [Put_latest]
        simp [GoMap.set]

/-- C2.  Per-device cap.  For `max_snapshots_per_device >= 1`, after `N` `Put`s for one
device at strictly increasing clock readings on an empty store, `by_device[d]` has
length `min N max`; it lists the ids of the most recent `min N max` `Put`s in creation
order; every listed id is a key of `items` (holding the snapshot that `Put` returned);
every evicted id is absent from `items`; and `latest_by_device[d]` is the id returned by
the last `Put` (no entry when `N = 0`). -/
theorem per_device_cap (ttl maxN : Int) (d : String) (puts : List (List Node × Nat))
    (hmax : 1 ≤ maxN) (hinc : (puts.map Prod.snd).Pairwise (fun a b => a < b)) :
    ((((((NewStore ttl maxN).run (putsFor d puts)).byDevice d).getD []).length : Int)
        = min (puts.length : Int) maxN) ∧
    ((((NewStore ttl maxN).run (putsFor d puts)).byDevice d).getD []
        = idsFor d (puts.drop (puts.length - maxN.toNat))) ∧
    (puts.drop (puts.length - maxN.toNat)).length = min puts.length maxN.toNat ∧
    (∀ p ∈ puts.drop (puts.length - maxN.toNat),
        ((NewStore ttl maxN).run (putsFor d puts)).items (snapshotID d p.2)
          = some (mkSnapshot ttl d p.1 p.2)) ∧
    (∀ p ∈ puts.take (puts.length - maxN.toNat),
        ((NewStore ttl maxN).run (putsFor d puts)).items (snapshotID d p.2) = none) ∧
    (((NewStore ttl maxN).run (putsFor d puts)).latestByDevice d
        = (idsFor d puts).getLast?) := by
  obtain ⟨hB, hI, hN, hL⟩ := run_putsFor_state ttl maxN d puts hmax hinc
  have hnd := idsFor_nodup d puts hinc
  refine ⟨?_, ?_, ?_, hI, ?_, hL⟩
  · rw [hB, List.length_drop, idsFor_length]
    omega
  · rw [hB]
    unfold idsFor
    rw [List.map_drop]
  · rw [List.length_drop]
    omega
  · intro p hp
    apply hN
    intro hm
    have hsplit : idsFor d puts = (idsFor d puts).take (puts.length - maxN.toNat)
        ++ (idsFor d puts).drop (puts.length - maxN.toNat) :=
      (List.take_append_drop _ _).symm
    rw [hsplit] at hnd
    have hdis := List.disjoint_of_nodup_append hnd
    have hp' : snapshotID d p.2 ∈ (idsFor d puts).take (puts.length - maxN.toNat) := by
      unfold idsFor
      rw [← List.map_take]
      exact List.mem_map_of_mem (fun p => snapshotID d p.2) hp
    exact hdis hp' hm

theorem per_device_cap_witness :
    ((((((NewStore 3600 2).run (putsFor "d" [([], 1), ([], 2), ([], 3)])).byDevice "d").getD
        []).length : Int) = min (([([], 1), ([], 2), ([], 3)] : List (List Node × Nat)).length : Int) 2) ∧
    ((((NewStore 3600 2).run (putsFor "d" [([], 1), ([], 2), ([], 3)])).byDevice "d").getD []
        = idsFor "d" [([], 2), ([], 3)]) ∧
    ((NewStore 3600 2).run (putsFor "d" [([], 1), ([], 2), ([], 3)])).items "d-1" = none ∧
    ((NewStore 3600 2).run (putsFor "d" [([], 1), ([], 2), ([], 3)])).latestByDevice "d"
        = some "d-3" :=
  ⟨(per_device_cap 3600 2 "d" [([], 1), ([], 2), ([], 3)] (by decide) (by decide)).1,
   (per_device_cap 3600 2 "d" [([], 1), ([], 2), ([], 3)] (by decide) (by decide)).2.1,
   (per_device_cap 3600 2 "d" [([], 1), ([], 2), ([], 3)] (by decide) (by decide)).2.2.2.2.1
      ([], 1) (by decide),
   (per_device_cap 3600 2 "d" [([], 1), ([], 2), ([], 3)] (by decide) (by decide)).2.2.2.2.2⟩

/-! ## The store: pagination -/

theorem wrapInt64_of_range (x : Int) (h1 : -(2 : Int) ^ 63 ≤ x) (h2 : x < 2 ^ 63) :
    wrapInt64 x = x := by
  unfold wrapInt64
  omega

theorem pageStart_nonneg (cursor : String) : 0 ≤ pageStart cursor := by
  unfold pageStart
  split
  · split
    · split <;> omega
    · omega
  · omega

theorem pageStart_eq (cursor : String) :
    pageStart cursor = max 0 ((Atoi cursor).getD 0) := by
  unfold pageStart
  by_cases hc : cursor = ""
  · subst hc
    simp
    decide
  · simp only [ne_eq, hc, not_false_eq_true, if_true]
    cases h : Atoi cursor with
    | none => simp
    | some v =>
      simp only [Option.getD_some]
      split <;> omega

/-- The contract of `Page` on a snapshot that `Get` returns, when `start + limit` stays in
the range of `int`. -/
theorem Page_contract (s : Store) (id cursor : String) (limit : Int) (now : Nat)
    (snap : Snapshot) (hget : s.Get id now = some snap)
    (hsum : pageStart cursor + (if limit ≤ 0 then 200 else limit) < 2 ^ 63) :
    s.Page id cursor limit now = some
      { nodes := (snap.Nodes.drop (pageStart cursor).toNat).take
          (min (pageStart cursor + (if limit ≤ 0 then 200 else limit)) snap.Nodes.length
            - pageStart cursor).toNat
        nextCursor :=
          if min (pageStart cursor + (if limit ≤ 0 then 200 else limit)) snap.Nodes.length
              < snap.Nodes.length
          then Itoa (min (pageStart cursor + (if limit ≤ 0 then 200 else limit))
            snap.Nodes.length)
          else ""
        total := snap.Nodes.length
        ok := true } := by
  have h0 := pageStart_nonneg cursor
  have hL : 1 ≤ (if limit ≤ 0 then 200 else limit) := by split <;> omega
  unfold Store.Page
  rw [hget]
  simp only []
  generalize hst : pageStart cursor = start at *
  generalize hLL : (if limit ≤ 0 then (200 : Int) else limit) = L at *
  by_cases ht0 : (snap.Nodes.length : Int) = 0
  · have hnil : snap.Nodes = [] := by
      have : snap.Nodes.length = 0 := by exact_mod_cast ht0
      exact List.length_eq_zero.mp this
    have hneg : ¬ (start + L < 0) := by omega
    simp [hnil, hneg]
  · rw [if_neg ht0]
    by_cases hge : start ≥ (snap.Nodes.length : Int)
    · rw [if_pos hge]
      have hmin : min (start + L) (snap.Nodes.length : Int) = snap.Nodes.length := by omega
      have hdrop : snap.Nodes.drop start.toNat = [] := by
        apply List.drop_eq_nil_of_le
        omega
      simp [hmin, hdrop]
    · rw [if_neg hge]
      rw [wrapInt64_of_range (start + L) (by omega) hsum]
      by_cases hgt : start + L > (snap.Nodes.length : Int)
      · rw [if_pos hgt]
        have hmin : min (start + L) (snap.Nodes.length : Int) = snap.Nodes.length := by omega
        rw [hmin, if_neg (by omega)]
      · rw [if_neg hgt]
        have hmin : min (start + L) (snap.Nodes.length : Int) = start + L := by omega
        rw [hmin, if_neg (by omega)]

theorem Page_miss (s : Store) (id cursor : String) (limit : Int) (now : Nat)
    (hget : s.Get id now = none) :
    s.Page id cursor limit now = some { nodes := [], nextCursor := "", total := 0, ok := false } := by
  unfold Store.Page
  rw [hget]

theorem Get_of_items_live (s : Store) (id : String) (snap : Snapshot) (now : Nat)
    (hitem : s.items id = some snap) (hlive : (now : Int) ≤ snap.ExpiresAt) :
    s.Get id now = some snap := by
  unfold Store.Get
  rw [hitem]
  have : ¬ ((now : Int) > snap.ExpiresAt) := by omega
  simp [this]

/-- The pagination loop started at offset `start` returns the nodes from `start` on. -/
theorem pageAll_from (s : Store) (id : String) (k : Int) (clock : Nat → Nat) (snap : Snapshot)
    (hitem : s.items id = some snap) (hlive : ∀ j, (clock j : Int) ≤ snap.ExpiresAt)
    (hlen : snap.Nodes.length < 2 ^ 62) :
    ∀ (fuel start j : Nat) (cursor : String), pageStart cursor = (start : Int) →
      (start : Int) + (if k ≤ 0 then 200 else k) < 2 ^ 63 →
      snap.Nodes.length - start < fuel →
      ∃ pages, pageAll s id k clock fuel j cursor = some pages ∧
        pages.flatten = snap.Nodes.drop start := by
  intro fuel
  induction fuel with
  | zero => intro start j cursor _ _ h; omega
  | succ fuel ih =>
    intro start j cursor hstart hsum hfuel
    have hL : 1 ≤ (if k ≤ 0 then 200 else k) := by split <;> omega
    have hget := Get_of_items_live s id snap (clock j) hitem (hlive j)
    have hpage := Page_contract s id cursor k (clock j) snap hget (by rw [hstart]; exact hsum)
    rw [hstart] at hpage
    unfold pageAll
    rw [hpage]
    simp only [Bool.true_eq_false, if_false]
    generalize hLL : (if k ≤ 0 then (200 : Int) else k) = L at *
    have hstn : ((start : Int)).toNat = start := by simp
    by_cases hlt : min ((start : Int) + L) (snap.Nodes.length : Int) < (snap.Nodes.length : Int)
    · -- a further page follows
      have hmin : min ((start : Int) + L) (snap.Nodes.length : Int) = ((start + L.toNat : Nat) : Int) := by
        push_cast
        omega
      rw [if_pos hlt, hmin]
      have hne : Itoa ((start + L.toNat : Nat) : Int) ≠ "" := Itoa_ne_empty _
      rw [if_neg hne]
      have hlen' : (snap.Nodes.length : Int) < 2 ^ 62 := by exact_mod_cast hlen
      have hb : start + L.toNat < 2 ^ 63 := by
        have : ((start + L.toNat : Nat) : Int) < 2 ^ 63 := by rw [← hmin]; omega
        exact_mod_cast this
      obtain ⟨ps, hps, hjoin⟩ := ih (start + L.toNat) (j + 1) (Itoa ((start + L.toNat : Nat) : Int))
        (pageStart_Itoa _ hb) (by push_cast; omega) (by omega)
      refine ⟨_ :: ps, by rw [hps]; rfl, ?_⟩
      rw [List.flatten_cons, hjoin, hstn]
      have hk : (((start + L.toNat : Nat) : Int) - (start : Int)).toNat = L.toNat := by
        push_cast
        omega
      rw [hk, ← List.drop_drop]
      exact List.take_append_drop _ _
    · -- the last page
      rw [if_neg hlt]
      simp only [if_true]
      have hmin : min ((start : Int) + L) (snap.Nodes.length : Int) = (snap.Nodes.length : Int) := by
        omega
      refine ⟨_, rfl, ?_⟩
      rw [hmin, hstn]
      simp only [List.flatten_cons, List.flatten_nil, List.append_nil]
      apply List.take_of_length_le
      rw [List.length_drop]
      omega

/-- C3.  Pagination round trip.  For a stored snapshot that is not expired at any of the
calls, and every page size `k` (an `int`; `k <= 0` meaning the default 200), the loop that
starts from the empty cursor and calls `Page(id, cursor, k)` with each returned
`next_cursor` until it is empty terminates (any fuel above the node count is enough) and
the concatenation of its pages is the snapshot's node sequence. -/
theorem pagination_round_trip (s : Store) (id : String) (k : Int) (clock : Nat → Nat)
    (snap : Snapshot) (fuel : Nat)
    (hitem : s.items id = some snap) (hlive : ∀ j, (clock j : Int) ≤ snap.ExpiresAt)
    (hk : k < 2 ^ 63) (hlen : snap.Nodes.length < 2 ^ 62)
    (hfuel : snap.Nodes.length < fuel) :
    ∃ pages, pageAll s id k clock fuel 0 "" = some pages ∧ pages.flatten = snap.Nodes := by
  have h := pageAll_from s id k clock snap hitem hlive hlen fuel 0 0 ""
    (by decide) (by split <;> omega) (by omega)
  simpa using h

theorem pagination_round_trip_witness :
    ∃ pages, pageAll ((NewStore 10 1).Put "d" [exampleNode "n-0" "" "a",
        exampleNode "n-1" "n-0" "b", exampleNode "n-2" "n-0" "c"] 5).1 "d-5" 2 (fun _ => 6) 4 0 ""
        = some pages ∧
      pages.flatten = (mkSnapshot 10 "d" [exampleNode "n-0" "" "a",
        exampleNode "n-1" "n-0" "b", exampleNode "n-2" "n-0" "c"] 5).Nodes :=
  pagination_round_trip _ "d-5" 2 (fun _ => 6) (mkSnapshot 10 "d" [exampleNode "n-0" "" "a",
      exampleNode "n-1" "n-0" "b", exampleNode "n-2" "n-0" "c"] 5) 4
    (by decide) (by intro j; simp [mkSnapshot]) (by decide) (by decide) (by decide)

/-- C4 (failing input).  On a stored, live snapshot of two nodes, `Page` with cursor `"1"`
and the largest `int` as limit does not return: `start + limit` wraps to a negative `end`
and the slice expression `snap.Nodes[start:end]` faults. -/
theorem Page_limit_overflow_fault :
    ((NewStore 10 1).Put "d" [exampleNode "n-0" "" "a", exampleNode "n-1" "n-0" "b"] 5).1.Get
        "d-5" 5
      = some (mkSnapshot 10 "d" [exampleNode "n-0" "" "a", exampleNode "n-1" "n-0" "b"] 5) ∧
    pageStart "1" = 1 ∧
    ((NewStore 10 1).Put "d" [exampleNode "n-0" "" "a", exampleNode "n-1" "n-0" "b"] 5).1.Page
        "d-5" "1" (2 ^ 63 - 1) 5 = none := by
  decide

/-! ## The store: referential integrity -/

theorem StoreInv_NewStore (ttl maxN : Int) : StoreInv (NewStore ttl maxN) := by
  constructor
  · intro d ids h
    simp [NewStore, GoMap.empty] at h
  · intro d i h
    simp [NewStore, GoMap.empty] at h

theorem StoreInv_cleanup (s : Store) (now : Nat) (h : StoreInv s) :
    StoreInv (s.cleanupExpired now) := by
  obtain ⟨h1, h2⟩ := h
  constructor
  · intro d ids hd
    simp only [Store.cleanupExpired] at hd
    cases hb : s.byDevice d with
    | none => simp [hb] at hd
    | some l =>
      simp only [hb, Option.map_some', Option.some.injEq] at hd
      subst hd
      refine ⟨List.Nodup.filter _ (h1 d l hb).1, ?_⟩
      intro i hi
      have := (List.mem_filter.mp hi).2
      simpa [Store.cleanupExpired] using this
  · intro d i hl
    simp only [Store.cleanupExpired] at hl ⊢
    cases hb : s.byDevice d with
    | none =>
      simp only [hb] at hl
      obtain ⟨ids, hids, _⟩ := h2 d i hl
      rw [hb] at hids
      exact absurd hids (by simp)
    | some l =>
      simp only [hb] at hl
      refine ⟨_, rfl, ?_⟩
      simp only [Option.map_some']
      split at hl
      · exact absurd hl (by simp)
      · rename_i last hlast
        have := Option.some.inj hl
        subst this
        exact List.mem_of_getLast?_eq_some hlast

theorem StoreInv_Put (s : Store) (H : List (String × Nat)) (d : String) (nodes : List Node)
    (t : Nat) (h : StoreInv s) (hids : IdsFrom s H) (hfresh : (d, t) ∉ H)
    (hmax : 1 ≤ s.maxSnapshotsPerDevice) : StoreInv (s.Put d nodes t).1 := by
  obtain ⟨h1, h2⟩ := h
  have hnew := fresh_of_not_mem_putKeys s H d t hids hfresh
  have hold_nodup : ((s.byDevice d).getD []).Nodup := by
    cases hb : s.byDevice d with
    | none => simp
    | some l => simpa using (h1 d l hb).1
  have hold_items : ∀ i ∈ (s.byDevice d).getD [], (s.items i).isSome = true := by
    intro i hi
    cases hb : s.byDevice d with
    | none => simp [hb] at hi
    | some l =>
      simp only [hb, Option.getD_some] at hi
      exact (h1 d l hb).2 i hi
  have hall_nodup : ((s.byDevice d).getD [] ++ [snapshotID d t]).Nodup := by
    rw [List.nodup_append]
    refine ⟨hold_nodup, List.nodup_singleton _, ?_⟩
    intro a ha hb
    simp only [List.mem_singleton] at hb
    subst hb
    exact hnew ha
  have hother : ∀ d' ids, d' ≠ d → s.byDevice d' = some ids → ∀ i ∈ ids,
      i ∉ (s.byDevice d).getD [] ++ [snapshotID d t] := by
    intro d' ids hdd hb i hi hm
    obtain ⟨t1, ht1, _⟩ := hids d' ids hb i hi
    rcases List.mem_append.mp hm with hm | hm
    · cases hbd : s.byDevice d with
      | none => simp [hbd] at hm
      | some l =>
        simp only [hbd, Option.getD_some] at hm
        obtain ⟨t2, ht2, _⟩ := hids d l hbd i hm
        rw [ht1] at ht2
        exact hdd (snapshotID_injective _ _ _ _ ht2).1
    · simp only [List.mem_singleton] at hm
      rw [ht1] at hm
      exact hdd (snapshotID_injective _ _ _ _ hm).1
  by_cases hcond : (((s.byDevice d).getD [] ++ [snapshotID d t]).length : Int)
      > s.maxSnapshotsPerDevice
  · -- eviction of the oldest id
    have hne : (s.byDevice d).getD [] ≠ [] := by
      intro e
      rw [e] at hcond
      simp at hcond
      omega
    obtain ⟨a, l, hal⟩ := List.exists_cons_of_ne_nil hne
    have hitems : (s.Put d nodes t).1.items =
        (s.items.set (snapshotID d t) (mkSnapshot s.ttl d nodes t)).delete a := by
      rw [Put_fst, if_pos hcond, hal]; rfl
    have hby : (s.Put d nodes t).1.byDevice d = some (l ++ [snapshotID d t]) := by
      rw [Put_byDevice_self, if_pos hcond, hal]; rfl
    rw [hal] at hall_nodup hold_items hother
    simp only [List.cons_append] at hall_nodup hother
    have ha_not : a ∉ l ++ [snapshotID d t] := (List.nodup_cons.mp hall_nodup).1
    have hkeep : ∀ i, i ≠ a → (s.items i).isSome = true ∨ i = snapshotID d t →
        ((s.Put d nodes t).1.items i).isSome = true := by
      intro i hia hi
      rw [hitems]
      simp only [GoMap.set, GoMap.delete]
      rw [if_neg hia]
      by_cases hid : i = snapshotID d t
      · simp [hid]
      · rw [if_neg hid]
        rcases hi with hi | hi
        · exact hi
        · exact absurd hi hid
    constructor
    · intro d' ids hd'
      by_cases hdd : d' = d
      · subst hdd
        rw [hby] at hd'
        have := Option.some.inj hd'
        subst this
        refine ⟨(List.nodup_cons.mp hall_nodup).2, ?_⟩
        intro i hi
        apply hkeep i (fun e => ha_not (e ▸ hi))
        rcases List.mem_append.mp hi with hi | hi
        · exact Or.inl (hold_items i (List.mem_cons_of_mem _ hi))
        · exact Or.inr (List.mem_singleton.mp hi)
      · rw [Put_byDevice_other _ _ _ _ _ hdd] at hd'
        refine ⟨(h1 d' ids hd').1, ?_⟩
        intro i hi
        have hnot := hother d' ids hdd hd' i hi
        apply hkeep i (fun e => hnot (by simp [e]))
        exact Or.inl ((h1 d' ids hd').2 i hi)
    · intro d' i hl
      rw [Put_latest] at hl
      simp only [GoMap.set] at hl
      by_cases hdd : d' = d
      · subst hdd
        simp only [if_true, Option.some.injEq] at hl
        subst hl
        exact ⟨_, hby, by simp⟩
      · rw [if_neg hdd] at hl
        rw [Put_byDevice_other _ _ _ _ _ hdd]
        exact h2 d' i hl
  · -- no eviction
    have hitems : (s.Put d nodes t).1.items =
        s.items.set (snapshotID d t) (mkSnapshot s.ttl d nodes t) := by
      rw [Put_fst, if_neg hcond]
    have hby : (s.Put d nodes t).1.byDevice d
        = some ((s.byDevice d).getD [] ++ [snapshotID d t]) := by
      rw [Put_byDevice_self, if_neg hcond]
    have hkeep : ∀ i, (s.items i).isSome = true ∨ i = snapshotID d t →
        ((s.Put d nodes t).1.items i).isSome = true := by
      intro i hi
      rw [hitems]
      simp only [GoMap.set]
      by_cases hid : i = snapshotID d t
      · simp [hid]
      · rw [if_neg hid]
        rcases hi with hi | hi
        · exact hi
        · exact absurd hi hid
    constructor
    · intro d' ids hd'
      by_cases hdd : d' = d
      · subst hdd
        rw [hby] at hd'
        have := Option.some.inj hd'
        subst this
        refine ⟨hall_nodup, ?_⟩
        intro i hi
        apply hkeep i
        rcases List.mem_append.mp hi with hi | hi
        · exact Or.inl (hold_items i hi)
        · exact Or.inr (List.mem_singleton.mp hi)
      · rw [Put_byDevice_other _ _ _ _ _ hdd] at hd'
        refine ⟨(h1 d' ids hd').1, ?_⟩
        intro i hi
        exact hkeep i (Or.inl ((h1 d' ids hd').2 i hi))
    · intro d' i hl
      rw [Put_latest] at hl
      simp only [GoMap.set] at hl
      by_cases hdd : d' = d
      · subst hdd
        simp only [if_true, Option.some.injEq] at hl
        subst hl
        exact ⟨_, hby, by simp⟩
      · rw [if_neg hdd] at hl
        rw [Put_byDevice_other _ _ _ _ _ hdd]
        exact h2 d' i hl

theorem StoreInv_run (ops : List StoreOp) (s : Store) (H : List (String × Nat))
    (h : StoreInv s) (hids : IdsFrom s H) (hmax : 1 ≤ s.maxSnapshotsPerDevice)
    (hnd : (H ++ putKeys ops).Nodup) : StoreInv (s.run ops) := by
  induction ops generalizing s H with
  | nil => exact h
  | cons op ops ih =>
    rw [run_cons]
    have hids' := IdsFrom_step s H op hids
    apply ih (s.step op) (H ++ putKeys [op]) _ hids' (by rw [step_max]; exact hmax)
    · rw [List.append_assoc, ← putKeys_append]
      exact hnd
    · cases op with
      | put d nodes t =>
        apply StoreInv_Put s H d nodes t h hids _ hmax
        intro hm
        simp only [putKeys] at hnd
        have := (List.nodup_append.mp hnd).2.2
        exact this hm (List.mem_cons_self _ _)
      | cleanup t => exact StoreInv_cleanup s t h

/-- C5 (amended).  Store referential integrity.  In every store state reached from the
empty store, configured with `max_snapshots_per_device >= 1`, by a sequence of `Put` and
`cleanupExpired` steps in which no two `Put`s have both the same device and the same
clock reading, every id held in `latest_by_device[d]` and every id listed in
`by_device[d]` is a key of `items`. -/
theorem store_referential_integrity (ttl maxN : Int) (ops : List StoreOp) (hmax : 1 ≤ maxN)
    (hdistinct : (putKeys ops).Nodup) :
    (∀ d i, ((NewStore ttl maxN).run ops).latestByDevice d = some i →
        ∃ snap, ((NewStore ttl maxN).run ops).items i = some snap) ∧
    (∀ d ids i, ((NewStore ttl maxN).run ops).byDevice d = some ids → i ∈ ids →
        ∃ snap, ((NewStore ttl maxN).run ops).items i = some snap) := by
  have hinv := StoreInv_run ops (NewStore ttl maxN) [] (StoreInv_NewStore ttl maxN)
    (IdsFrom_NewStore ttl maxN) hmax (by simpa using hdistinct)
  obtain ⟨h1, h2⟩ := hinv
  constructor
  · intro d i hl
    obtain ⟨ids, hb, hi⟩ := h2 d i hl
    exact Option.isSome_iff_exists.mp ((h1 d ids hb).2 i hi)
  · intro d ids i hb hi
    exact Option.isSome_iff_exists.mp ((h1 d ids hb).2 i hi)

/-- C5 (as stated) fails: with `max_snapshots_per_device = 0` one `Put` leaves
`latest_by_device[d]` pointing at an id that is no key of `items`; and with
`max_snapshots_per_device = 1` two `Put`s for a device at the same clock reading leave
that id in `latest_by_device[d]` and in `by_device[d]` but not in `items`. -/
theorem latest_dangling_with_max_zero :
    (((NewStore 10 0).run [StoreOp.put "d" [] 1]).latestByDevice "d" = some "d-1" ∧
      ((NewStore 10 0).run [StoreOp.put "d" [] 1]).items "d-1" = none) ∧
    (((NewStore 10 1).run [StoreOp.put "d" [] 5, StoreOp.put "d" [] 5]).latestByDevice "d"
        = some "d-5" ∧
      ((NewStore 10 1).run [StoreOp.put "d" [] 5, StoreOp.put "d" [] 5]).byDevice "d"
        = some ["d-5"] ∧
      ((NewStore 10 1).run [StoreOp.put "d" [] 5, StoreOp.put "d" [] 5]).items "d-5" = none) := by
  decide

theorem store_referential_integrity_witness :
    (1 : Int) ≤ 2 ∧
    (putKeys [StoreOp.put "d" [] 1, StoreOp.put "d" [] 2, StoreOp.cleanup 20,
      StoreOp.put "d" [] 3]).Nodup ∧
    ∃ snap, ((NewStore 10 2).run [StoreOp.put "d" [] 1, StoreOp.put "d" [] 2,
      StoreOp.cleanup 20, StoreOp.put "d" [] 3]).items "d-3" = some snap :=
  ⟨by decide, by decide,
   (store_referential_integrity 10 2 [StoreOp.put "d" [] 1, StoreOp.put "d" [] 2,
      StoreOp.cleanup 20, StoreOp.put "d" [] 3] (by decide) (by decide)).1 "d" "d-3"
      (by decide)⟩

/-! ## The selector engine -/

theorem countMatched_foldl (rx : Regexp) (n : Node) (clauses : List SelectorClause) (acc : Nat) :
    clauses.foldl (fun matched clause => if clauseMatch rx n clause then matched + 1 else matched)
        acc
      = acc + clauses.countP (fun c => clauseMatch rx n c) := by
  induction clauses generalizing acc with
  | nil => simp
  | cons c cs ih =>
    simp only [List.foldl_cons, ih, List.countP_cons]
    split <;> omega

theorem countMatched_eq_countP (rx : Regexp) (n : Node) (clauses : List SelectorClause) :
    countMatched rx n clauses = clauses.countP (fun c => clauseMatch rx n c) := by
  unfold countMatched
  rw [countMatched_foldl]
  omega

theorem countMatched_eq_length_iff (rx : Regexp) (n : Node) (clauses : List SelectorClause) :
    countMatched rx n clauses = clauses.length ↔ ∀ c ∈ clauses, clauseMatch rx n c = true := by
  rw [countMatched_eq_countP, List.countP_eq_length]

theorem countMatched_pos_iff (rx : Regexp) (n : Node) (clauses : List SelectorClause) :
    countMatched rx n clauses > 0 ↔ ∃ c ∈ clauses, clauseMatch rx n c = true := by
  rw [countMatched_eq_countP, gt_iff_lt, List.countP_pos_iff]

/-- One round of the loop of `filterNodes` appends the node exactly when it is accepted. -/
theorem filterStep_eq (rx : Regexp) (sel : Selector) (out : List Node) (n : Node) :
    filterStep rx sel out n = if selectorAccepts rx sel n then out ++ [n] else out := by
  have hA : decide (countMatched rx n sel.Clauses = sel.Clauses.length)
      = sel.Clauses.all (fun c => clauseMatch rx n c) := by
    rw [Bool.eq_iff_iff]
    simp [countMatched_eq_length_iff]
  have hB : decide (countMatched rx n sel.Clauses > 0)
      = sel.Clauses.any (fun c => clauseMatch rx n c) := by
    rw [Bool.eq_iff_iff]
    simp only [decide_eq_true_eq, countMatched_pos_iff, List.any_eq_true]
  unfold filterStep selectorAccepts inScope satisfiesClauses
  simp only [hA, hB]
  generalize sel.Clauses.all (fun c => clauseMatch rx n c) = a
  generalize sel.Clauses.any (fun c => clauseMatch rx n c) = b
  by_cases hw : sel.WithinRefId = "" <;> by_cases hr : n.RefID = sel.WithinRefId <;>
    by_cases hp : n.ParentRefID = sel.WithinRefId <;>
    cases hM : sel.MatchAll <;> cases a <;> cases b <;> simp [hw, hr, hp]

theorem filterLoop_foldl (rx : Regexp) (sel : Selector) (nodes acc : List Node) :
    nodes.foldl (filterStep rx sel) acc
      = acc ++ nodes.filter (fun n => selectorAccepts rx sel n) := by
  induction nodes generalizing acc with
  | nil => simp
  | cons n ns ih =>
    rw [List.foldl_cons, ih, filterStep_eq, List.filter_cons]
    split <;> simp

theorem filterLoop_eq_filter (rx : Regexp) (nodes : List Node) (sel : Selector) :
    filterLoop rx nodes sel = nodes.filter (fun n => selectorAccepts rx sel n) := by
  unfold filterLoop
  rw [filterLoop_foldl]
  simp

theorem filterNodes_of_clauses (rx : Regexp) (nodes : List Node) (sel : Selector)
    (hne : sel.Clauses ≠ []) :
    filterNodes rx nodes (some sel) =
      if sel.Limit > 0 ∧ ((filterLoop rx nodes sel).length : Int) > sel.Limit
      then (filterLoop rx nodes sel).take sel.Limit.toNat
      else filterLoop rx nodes sel := by
  unfold filterNodes
  have : ¬ (sel.Clauses.length = 0) := fun h => hne (List.length_eq_zero.mp h)
  simp only [this, if_false]

/-- C6.  Selector matching.  For a selector with at least one clause, the matches of
`filterNodes` before the limit is applied (and its result when the limit is not
positive) are, in input order, exactly the nodes that are in scope and satisfy every
clause (`match_all`) or at least one clause (otherwise); with two clauses of which
exactly one matches a node in scope, `match_all = true` rejects it and
`match_all = false` accepts it. -/
theorem selector_matching (rx : Regexp) (nodes : List Node) (sel : Selector)
    (hne : sel.Clauses ≠ []) :
    filterLoop rx nodes sel = nodes.filter (fun n => selectorAccepts rx sel n) ∧
    (sel.Limit ≤ 0 →
      filterNodes rx nodes (some sel) = nodes.filter (fun n => selectorAccepts rx sel n)) ∧
    (∀ n c1 c2, sel.Clauses = [c1, c2] → inScope sel n = true →
      clauseMatch rx n c1 ≠ clauseMatch rx n c2 →
      (sel.MatchAll = true → filterNodes rx [n] (some { sel with Limit := 0 }) = []) ∧
      (sel.MatchAll = false → filterNodes rx [n] (some { sel with Limit := 0 }) = [n])) := by
  refine ⟨filterLoop_eq_filter rx nodes sel, ?_, ?_⟩
  · intro hlim
    rw [filterNodes_of_clauses rx nodes sel hne, if_neg (by omega), filterLoop_eq_filter]
  · intro n c1 c2 hc hscope hx
    have hne' : ({ sel with Limit := 0 } : Selector).Clauses ≠ [] := hne
    rw [filterNodes_of_clauses rx [n] _ hne', if_neg (by simp), filterLoop_eq_filter]
    have hacc : ∀ m : Bool, sel.MatchAll = m →
        selectorAccepts rx { sel with Limit := 0 } n = !m := by
      intro m hm
      have hs : inScope { sel with Limit := 0 } n = true := hscope
      unfold selectorAccepts satisfiesClauses
      rw [hs]
      simp only [hc, hm]
      cases h1 : clauseMatch rx n c1 <;> cases h2 : clauseMatch rx n c2 <;>
        cases m <;> simp_all
    constructor
    · intro hm
      simp [hacc true hm]
    · intro hm
      simp [hacc false hm]

theorem selector_matching_witness :
    filterNodes (fun _ => none)
        [exampleNode "n-0" "" "Login", exampleNode "n-1" "n-0" "Sign up"]
        (some { Clauses := [⟨SelectorField.TEXT, SelectorOperator.EQ, "Login"⟩,
                            ⟨SelectorField.ENABLED, SelectorOperator.EQ, "false"⟩],
                MatchAll := false, WithinRefId := "", Limit := 0 })
      = [exampleNode "n-0" "" "Login", exampleNode "n-1" "n-0" "Sign up"].filter
          (fun n => selectorAccepts (fun _ => none)
            { Clauses := [⟨SelectorField.TEXT, SelectorOperator.EQ, "Login"⟩,
                          ⟨SelectorField.ENABLED, SelectorOperator.EQ, "false"⟩],
              MatchAll := false, WithinRefId := "", Limit := 0 } n) :=
  (selector_matching (fun _ => none)
    [exampleNode "n-0" "" "Login", exampleNode "n-1" "n-0" "Sign up"]
    { Clauses := [⟨SelectorField.TEXT, SelectorOperator.EQ, "Login"⟩,
                  ⟨SelectorField.ENABLED, SelectorOperator.EQ, "false"⟩],
      MatchAll := false, WithinRefId := "", Limit := 0 } (by simp)).2.1 (by decide)

/-- C7 (as stated) fails: a selector without clauses and with `within_ref_id = "n-0"`
returns all three nodes, also the grandchild `n-2` that is out of scope. -/
theorem empty_selector_ignores_scope :
    filterNodes (fun _ => none)
        [exampleNode "n-0" "" "a", exampleNode "n-1" "n-0" "b", exampleNode "n-2" "n-1" "c"]
        (some { Clauses := [], MatchAll := false, WithinRefId := "n-0", Limit := 0 })
      = [exampleNode "n-0" "" "a", exampleNode "n-1" "n-0" "b", exampleNode "n-2" "n-1" "c"] ∧
    [exampleNode "n-0" "" "a", exampleNode "n-1" "n-0" "b", exampleNode "n-2" "n-1" "c"].filter
        (fun n => inScope { Clauses := [], MatchAll := false, WithinRefId := "n-0", Limit := 0 } n)
      = [exampleNode "n-0" "" "a", exampleNode "n-1" "n-0" "b"] := by
  decide

/-- C7 (amended).  For a selector whose clause list is empty, `filterNodes` returns all
nodes unchanged, whatever `within_ref_id` is; these are the nodes in scope when
`within_ref_id` is empty. -/
theorem empty_selector_returns_all (rx : Regexp) (nodes : List Node) (sel : Selector)
    (hempty : sel.Clauses = []) :
    filterNodes rx nodes (some sel) = nodes ∧
    (sel.WithinRefId = "" → filterNodes rx nodes (some sel)
      = nodes.filter (fun n => inScope sel n)) := by
  have h : filterNodes rx nodes (some sel) = nodes := by
    unfold filterNodes
    simp [hempty]
  refine ⟨h, ?_⟩
  intro hw
  rw [h]
  symm
  apply List.filter_eq_self.mpr
  intro n _
  simp [inScope, hw]

theorem empty_selector_returns_all_witness :
    filterNodes (fun _ => none)
        [exampleNode "n-0" "" "a", exampleNode "n-1" "n-0" "b", exampleNode "n-2" "n-1" "c"]
        (some { Clauses := [], MatchAll := true, WithinRefId := "n-1", Limit := 0 })
      = [exampleNode "n-0" "" "a", exampleNode "n-1" "n-0" "b", exampleNode "n-2" "n-1" "c"] :=
  (empty_selector_returns_all (fun _ => none)
    [exampleNode "n-0" "" "a", exampleNode "n-1" "n-0" "b", exampleNode "n-2" "n-1" "c"]
    { Clauses := [], MatchAll := true, WithinRefId := "n-1", Limit := 0 } rfl).1

/-- C8 (as stated) fails: a selector without clauses and with `limit = 1` returns both
nodes. -/
theorem empty_selector_ignores_limit :
    (0 : Int) < 1 ∧
    (filterNodes (fun _ => none) [exampleNode "n-0" "" "a", exampleNode "n-1" "n-0" "b"]
        (some { Clauses := [], MatchAll := false, WithinRefId := "", Limit := 1 })).length = 2 := by
  decide

/-- C8 (amended).  Selector limit.  For a selector with `limit > 0` and at least one
clause, `filterNodes` returns at most `limit` nodes, namely the first `limit` of the
nodes that the same selector returns with `limit = 0`. -/
theorem selector_limit (rx : Regexp) (nodes : List Node) (sel : Selector)
    (hne : sel.Clauses ≠ []) (hlim : 0 < sel.Limit) :
    filterNodes rx nodes (some sel)
      = (filterNodes rx nodes (some { sel with Limit := 0 })).take sel.Limit.toNat ∧
    ((filterNodes rx nodes (some sel)).length : Int) ≤ sel.Limit ∧
    filterNodes rx nodes (some sel) <+: filterNodes rx nodes (some { sel with Limit := 0 }) := by
  have hne' : ({ sel with Limit := 0 } : Selector).Clauses ≠ [] := hne
  have h0 : filterNodes rx nodes (some { sel with Limit := 0 })
      = nodes.filter (fun n => selectorAccepts rx sel n) := by
    rw [filterNodes_of_clauses rx nodes _ hne', if_neg (by simp), filterLoop_eq_filter]
    rfl
  have h1 : filterNodes rx nodes (some sel)
      = (nodes.filter (fun n => selectorAccepts rx sel n)).take sel.Limit.toNat := by
    rw [filterNodes_of_clauses rx nodes sel hne, filterLoop_eq_filter]
    split
    · rfl
    · rename_i hc
      symm
      apply List.take_of_length_le
      have : ¬ (((nodes.filter (fun n => selectorAccepts rx sel n)).length : Int) > sel.Limit) :=
        fun h => hc ⟨hlim, h⟩
      omega
  rw [h0, h1]
  refine ⟨rfl, ?_, List.take_prefix _ _⟩
  rw [List.length_take]
  omega

theorem selector_limit_witness :
    filterNodes (fun _ => none)
        [exampleNode "n-0" "" "a", exampleNode "n-1" "n-0" "b", exampleNode "n-2" "n-1" "c"]
        (some { Clauses := [⟨SelectorField.ENABLED, SelectorOperator.EQ, "true"⟩],
                MatchAll := true, WithinRefId := "", Limit := 2 })
      = (filterNodes (fun _ => none)
        [exampleNode "n-0" "" "a", exampleNode "n-1" "n-0" "b", exampleNode "n-2" "n-1" "c"]
        (some { Clauses := [⟨SelectorField.ENABLED, SelectorOperator.EQ, "true"⟩],
                MatchAll := true, WithinRefId := "", Limit := 0 })).take 2 :=
  (selector_limit (fun _ => none)
    [exampleNode "n-0" "" "a", exampleNode "n-1" "n-0" "b", exampleNode "n-2" "n-1" "c"]
    { Clauses := [⟨SelectorField.ENABLED, SelectorOperator.EQ, "true"⟩],
      MatchAll := true, WithinRefId := "", Limit := 2 } (by simp) (by decide)).1

/-! ## Boolean clauses -/

theorem zipWith_all_iff (l1 l2 : List Char) (h : l1.length = l2.length) :
    (List.zipWith (fun x y => decide (x.toLower = y.toLower)) l1 l2).all id = true
      ↔ l1.map Char.toLower = l2.map Char.toLower := by
  induction l1 generalizing l2 with
  | nil =>
    cases l2 with
    | nil => simp
    | cons b l2 => simp at h
  | cons a l1 ih =>
    cases l2 with
    | nil => simp at h
    | cons b l2 =>
      simp only [List.length_cons, Nat.add_right_cancel_iff] at h
      simp only [List.zipWith_cons_cons, List.all_cons, Bool.and_eq_true, decide_eq_true_eq,
        List.map_cons, List.cons.injEq, id_eq, ih l2 h]

theorem equalsIgnoringCase_iff (a b : String) :
    equalsIgnoringCase a b = true ↔ a.toList.map Char.toLower = b.toList.map Char.toLower := by
  unfold equalsIgnoringCase
  simp only [Bool.and_eq_true, decide_eq_true_eq]
  constructor
  · rintro ⟨hl, hz⟩
    exact (zipWith_all_iff _ _ hl).mp hz
  · intro h
    have hl : a.toList.length = b.toList.length := by
      have := congrArg List.length h
      simpa using this
    exact ⟨hl, (zipWith_all_iff _ _ hl).mpr h⟩

theorem boolFieldMatch_iff (b : Bool) (v : String) :
    boolFieldMatch b v = true ↔ ∃ w : Bool, equalsIgnoringCase v (boolText w) = true ∧ b = w := by
  have hT : ∀ l : List Char, String.mk l = "true" ↔ l = ['t', 'r', 'u', 'e'] := by
    intro l
    constructor
    · intro h; exact congrArg String.toList h
    · intro h; rw [h]
  have hF : ∀ l : List Char, String.mk l = "false" ↔ l = ['f', 'a', 'l', 's', 'e'] := by
    intro l
    constructor
    · intro h; exact congrArg String.toList h
    · intro h; rw [h]
  have hbt : boolText true = "true" := rfl
  have hbf : boolText false = "false" := rfl
  have hTl : ("true" : String).toList.map Char.toLower = ['t', 'r', 'u', 'e'] := by decide
  have hFl : ("false" : String).toList.map Char.toLower = ['f', 'a', 'l', 's', 'e'] := by decide
  have hw : (∃ w : Bool, equalsIgnoringCase v (boolText w) = true ∧ b = w) ↔
      (v.toList.map Char.toLower = ['t', 'r', 'u', 'e'] ∧ b = true) ∨
      (v.toList.map Char.toLower = ['f', 'a', 'l', 's', 'e'] ∧ b = false) := by
    constructor
    · rintro ⟨w, he, hb⟩
      rw [equalsIgnoringCase_iff] at he
      cases w
      · right
        rw [hbf, hFl] at he
        exact ⟨he, hb⟩
      · left
        rw [hbt, hTl] at he
        exact ⟨he, hb⟩
    · rintro (⟨he, hb⟩ | ⟨he, hb⟩)
      · exact ⟨true, by rw [equalsIgnoringCase_iff, hbt, hTl]; exact he, hb⟩
      · exact ⟨false, by rw [equalsIgnoringCase_iff, hbf, hFl]; exact he, hb⟩
  rw [hw]
  unfold boolFieldMatch boolRegexMatchString stringsToLower stringsEqualFold
  simp only [Bool.or_eq_true, decide_eq_true_eq, hT, hF, hTl]
  generalize v.toList.map Char.toLower = l
  by_cases h1 : l = ['t', 'r', 'u', 'e']
  · subst h1
    cases b <;> simp
  · by_cases h2 : l = ['f', 'a', 'l', 's', 'e']
    · subst h2
      cases b <;> simp
    · simp [h1, h2]

/-- C9.  Selector boolean semantics.  A clause on a boolean field (enabled, clickable,
visible) matches a node iff the clause value equals `"true"` or `"false"` ignoring letter
case and the node's field is the boolean so denoted; any other value makes the clause
false; neither the operator nor the regular expression library has an influence. -/
theorem bool_clause_semantics (rx : Regexp) (n : Node) (f : SelectorField)
    (op : SelectorOperator) (v : String) (b : Bool) (hf : boolField f n = some b) :
    (clauseMatch rx n { Field := f, Operator := op, Value := v } = true ↔
      ∃ w : Bool, equalsIgnoringCase v (boolText w) = true ∧ b = w) ∧
    (equalsIgnoringCase v "true" = false → equalsIgnoringCase v "false" = false →
      clauseMatch rx n { Field := f, Operator := op, Value := v } = false) ∧
    (∀ (rx' : Regexp) (op' : SelectorOperator),
      clauseMatch rx' n { Field := f, Operator := op', Value := v }
        = clauseMatch rx n { Field := f, Operator := op, Value := v }) := by
  have hcm : ∀ (rx' : Regexp) (op' : SelectorOperator),
      clauseMatch rx' n { Field := f, Operator := op', Value := v } = boolFieldMatch b v := by
    intro rx' op'
    cases f <;> simp only [boolField, Option.some.injEq, reduceCtorEq] at hf <;>
      subst hf <;> rfl
  refine ⟨?_, ?_, ?_⟩
  · rw [hcm, boolFieldMatch_iff]
  · intro h1 h2
    rw [hcm]
    cases hm : boolFieldMatch b v
    · rfl
    · obtain ⟨w, hw, _⟩ := (boolFieldMatch_iff b v).mp hm
      cases w
      · have hbf : boolText false = "false" := rfl
        rw [hbf, h2] at hw
        exact absurd hw (by simp)
      · have hbt : boolText true = "true" := rfl
        rw [hbt, h1] at hw
        exact absurd hw (by simp)
  · intro rx' op'
    rw [hcm, hcm]

theorem bool_clause_semantics_witness :
    (clauseMatch (fun _ => none) (exampleNode "n-0" "" "a")
        { Field := SelectorField.ENABLED, Operator := SelectorOperator.EQ, Value := "TRUE" } = true ↔
      ∃ w : Bool, equalsIgnoringCase "TRUE" (boolText w) = true ∧ true = w) ∧
    clauseMatch (fun _ => none) (exampleNode "n-0" "" "a")
        { Field := SelectorField.ENABLED, Operator := SelectorOperator.EQ, Value := "yes" } = false :=
  ⟨(bool_clause_semantics (fun _ => none) (exampleNode "n-0" "" "a") SelectorField.ENABLED
      SelectorOperator.EQ "TRUE" true rfl).1,
   (bool_clause_semantics (fun _ => none) (exampleNode "n-0" "" "a") SelectorField.ENABLED
      SelectorOperator.EQ "yes" true rfl).2.1 (by decide) (by decide)⟩

/-! ## Target resolution -/

/-- C10 (as stated) fails: without coordinates, ref id and selector, on an empty store and
with a failing capture, the result is the capture's error, not `missing action target`. -/
theorem no_target_capture_error :
    (resolveTargetPoint (fun _ => none) (NewStore 10 1)
        (Except.error "context deadline exceeded")
        { atGet := 1, atLatest := 2, atPut := 3, atResolveRef := 4 } "d" "" "" none none).2
      = Except.error "context deadline exceeded" := by
  decide

/-- C10 (amended).  Action target precedence.  With coordinates the result is the point
`(coords.x, coords.y)`, no error, and the store is neither read nor written; without
coordinates the snapshot is resolved first and a failure of that resolution is the
result; on a resolved snapshot a non-empty `ref_id` decides the result whatever the
selector is, an empty `ref_id` leaves it to the selector, and with neither present the
result is the error `missing action target`. -/
theorem action_target_precedence (rx : Regexp) (store : Store) (capture : Capture)
    (clk : Clock) (deviceID snapshotID refID : String) (selector : Option Selector) :
    (∀ c : Coordinates,
      resolveTargetPoint rx store capture clk deviceID snapshotID refID selector (some c)
        = (store, Except.ok { x := c.X, y := c.Y })) ∧
    (∀ store1 err, resolveSnapshot store capture clk deviceID snapshotID
        = (store1, Except.error err) →
      resolveTargetPoint rx store capture clk deviceID snapshotID refID selector none
        = (store1, Except.error err)) ∧
    (∀ store1 snap, resolveSnapshot store capture clk deviceID snapshotID
        = (store1, Except.ok snap) → refID ≠ "" →
      resolveTargetPoint rx store capture clk deviceID snapshotID refID selector none
        = (store1,
            match store1.ResolveRef snap.ID refID clk.atResolveRef with
            | none => Except.error ("ref_id " ++ refID ++ " not found")
            | some n => Except.ok (center n.Bounds))) ∧
    (∀ store1 snap sel, resolveSnapshot store capture clk deviceID snapshotID
        = (store1, Except.ok snap) → refID = "" → selector = some sel →
      resolveTargetPoint rx store capture clk deviceID snapshotID refID selector none
        = (store1,
            match filterNodes rx snap.Nodes (some sel) with
            | [] => Except.error "selector matched zero nodes"
            | m :: _ => Except.ok (center m.Bounds))) ∧
    (∀ store1 snap, resolveSnapshot store capture clk deviceID snapshotID
        = (store1, Except.ok snap) → refID = "" → selector = none →
      resolveTargetPoint rx store capture clk deviceID snapshotID refID selector none
        = (store1, Except.error "missing action target")) := by
  refine ⟨fun c => rfl, ?_, ?_, ?_, ?_⟩
  · intro store1 err h
    unfold resolveTargetPoint
    simp only [h]
  · intro store1 snap h href
    unfold resolveTargetPoint
    simp only [h, href, ne_eq, not_false_eq_true, if_true]
    cases store1.ResolveRef snap.ID refID clk.atResolveRef <;> rfl
  · intro store1 snap sel h href hsel
    unfold resolveTargetPoint
    subst href hsel
    simp only [h, ne_eq, not_true_eq_false, if_false]
    cases filterNodes rx snap.Nodes (some sel) <;> rfl
  · intro store1 snap h href hsel
    unfold resolveTargetPoint
    subst href hsel
    simp only [h, ne_eq, not_true_eq_false, if_false]

theorem action_target_precedence_witness :
    (resolveTargetPoint (fun _ => none)
        ((NewStore 10 1).Put "d" [exampleNode "n-0" "" "a"] 1).1 (Except.error "unreachable")
        { atGet := 2, atLatest := 2, atPut := 2, atResolveRef := 2 } "d" "d-1" "" none none).2
      = Except.error "missing action target" ∧
    (resolveTargetPoint (fun _ => none)
        ((NewStore 10 1).Put "d" [exampleNode "n-0" "" "a"] 1).1 (Except.error "unreachable")
        { atGet := 2, atLatest := 2, atPut := 2, atResolveRef := 2 } "d" "d-1" "n-3" none
        (some { X := 100, Y := 200 })).2
      = Except.ok { x := 100, y := 200 } :=
  ⟨congrArg Prod.snd
    ((action_target_precedence (fun _ => none)
      ((NewStore 10 1).Put "d" [exampleNode "n-0" "" "a"] 1).1 (Except.error "unreachable")
      { atGet := 2, atLatest := 2, atPut := 2, atResolveRef := 2 } "d" "d-1" "" none).2.2.2.2
      ((NewStore 10 1).Put "d" [exampleNode "n-0" "" "a"] 1).1
      (mkSnapshot 10 "d" [exampleNode "n-0" "" "a"] 1) (by
        unfold resolveSnapshot
        have hg : ((NewStore 10 1).Put "d" [exampleNode "n-0" "" "a"] 1).1.Get "d-1" 2
            = some (mkSnapshot 10 "d" [exampleNode "n-0" "" "a"] 1) := by decide
        simp [hg]) rfl rfl),
   congrArg Prod.snd
    ((action_target_precedence (fun _ => none)
      ((NewStore 10 1).Put "d" [exampleNode "n-0" "" "a"] 1).1 (Except.error "unreachable")
      { atGet := 2, atLatest := 2, atPut := 2, atResolveRef := 2 } "d" "d-1" "n-3" none).1
      { X := 100, Y := 200 })⟩

/-! ## Flattening the hierarchy -/

theorem hierarchyItem_ok (find : SubmatchFinder) : ItemOk (hierarchyItem find) := by
  intro node ref parentRef index
  rfl

theorem sourceItem_ok (find : SubmatchFinder) : ItemOk (sourceItem find) := by
  intro node ref parentRef index
  rfl

theorem walkNode_fields (item : hierarchyNode → String → String → Int → Node) (h : ItemOk item)
    (e : FlatEntry) :
    (walkNode item e).RefID = refName e.pos ∧
    (walkNode item e).ParentRefID = parentRefName e.parent ∧
    (walkNode item e).Index = wrapInt32 (e.sibling : Int) := by
  unfold walkNode
  rw [h]
  exact ⟨rfl, rfl, rfl⟩

theorem refName_injective (a b : Nat) (h : refName a = refName b) : a = b := by
  unfold refName at h
  have h' := congrArg String.toList h
  simp only [String.toList, String.data_append] at h'
  have h2 := List.append_cancel_left h'
  exact toDigits_injective a b h2

theorem refName_ne_empty (a : Nat) : refName a ≠ "" := by
  intro h
  have h' := congrArg String.length h
  simp only [refName, String.length_append] at h'
  have h2 : ("n-" : String).length = 2 := by decide
  have h3 : ("" : String).length = 0 := by decide
  omega

theorem wrapInt32_of_range (x : Int) (h1 : -(2 : Int) ^ 31 ≤ x) (h2 : x < 2 ^ 31) :
    wrapInt32 x = x := by
  unfold wrapInt32
  omega

mutual
/-- The walk of a tree appends the nodes of its pre-order listing and advances the
counter by the size of the tree. -/
theorem walkTree_eq (item : hierarchyNode → String → String → Int → Node) (t : hierarchyNode)
    (parent : Option Nat) (sibling depth c : Nat) (out : List Node) :
    walkTree item t (parentRefName parent) (wrapInt32 (sibling : Int)) c out
      = (c + treeSize t, out ++ (preorderTree t parent sibling depth c).map (walkNode item)) := by
  match t with
  | hierarchyNode.mk name attrs children =>
    simp only [walkTree, preorderTree, treeSize, List.map_cons]
    have h := walkLoop_eq item children (some c) 0 (depth + 1) (c + 1)
      (out ++ [item (hierarchyNode.mk name attrs children) (refName c) (parentRefName parent)
        (wrapInt32 (sibling : Int))])
    have hp : parentRefName (some c) = refName c := rfl
    rw [hp] at h
    rw [h]
    simp only [walkNode, List.append_assoc, List.singleton_append, Prod.mk.injEq, and_true]
    omega
/-- The loop over sibling trees appends the nodes of their pre-order listing. -/
theorem walkLoop_eq (item : hierarchyNode → String → String → Int → Node)
    (ts : List hierarchyNode) (parent : Option Nat) (sibling depth c : Nat) (out : List Node) :
    walkLoop item ts (parentRefName parent) sibling c out
      = (c + forestSize ts,
          out ++ (preorderForest ts parent sibling depth c).map (walkNode item)) := by
  match ts with
  | [] => simp [walkLoop, preorderForest, forestSize]
  | t :: rest =>
    simp only [walkLoop, preorderForest, forestSize, List.map_append]
    rw [walkTree_eq item t parent sibling depth c out]
    simp only []
    rw [walkLoop_eq item rest parent (sibling + 1) depth (c + treeSize t)]
    simp only [List.append_assoc, Prod.mk.injEq, and_true]
    omega
end

mutual
theorem preorderTree_pos (t : hierarchyNode) (parent : Option Nat) (sibling depth c : Nat) :
    (preorderTree t parent sibling depth c).map FlatEntry.pos = List.range' c (treeSize t) := by
  match t with
  | hierarchyNode.mk name attrs children =>
    simp only [preorderTree, treeSize, List.map_cons]
    rw [preorderForest_pos children (some c) 0 (depth + 1) (c + 1), Nat.add_comm 1,
      List.range'_succ]
theorem preorderForest_pos (ts : List hierarchyNode) (parent : Option Nat)
    (sibling depth c : Nat) :
    (preorderForest ts parent sibling depth c).map FlatEntry.pos
      = List.range' c (forestSize ts) := by
  match ts with
  | [] => simp [preorderForest, forestSize]
  | t :: rest =>
    simp only [preorderForest, forestSize, List.map_append]
    rw [preorderTree_pos t parent sibling depth c,
      preorderForest_pos rest parent (sibling + 1) depth (c + treeSize t)]
    rw [List.range'_append_1, Nat.add_comm]
end

theorem preorderForest_pos_bounds (ts : List hierarchyNode) (parent : Option Nat)
    (sibling depth c : Nat) (e : FlatEntry) (he : e ∈ preorderForest ts parent sibling depth c) :
    c ≤ e.pos ∧ e.pos < c + forestSize ts := by
  have hm : e.pos ∈ (preorderForest ts parent sibling depth c).map FlatEntry.pos :=
    List.mem_map_of_mem _ he
  rw [preorderForest_pos, List.mem_range'_1] at hm
  exact hm

theorem preorderTree_pos_bounds (t : hierarchyNode) (parent : Option Nat)
    (sibling depth c : Nat) (e : FlatEntry) (he : e ∈ preorderTree t parent sibling depth c) :
    c ≤ e.pos ∧ e.pos < c + treeSize t := by
  have hm : e.pos ∈ (preorderTree t parent sibling depth c).map FlatEntry.pos :=
    List.mem_map_of_mem _ he
  rw [preorderTree_pos, List.mem_range'_1] at hm
  exact hm

mutual
/-- The parent of an entry of a tree listing is the parent given for the root, or an
entry of the listing that stands before it. -/
theorem preorderTree_parent (t : hierarchyNode) (parent : Option Nat) (sibling depth c : Nat)
    (e : FlatEntry) (he : e ∈ preorderTree t parent sibling depth c) :
    e.parent = parent ∨ ∃ q, e.parent = some q ∧ c ≤ q ∧ q < e.pos := by
  match t with
  | hierarchyNode.mk name attrs children =>
    simp only [preorderTree, List.mem_cons] at he
    rcases he with he | he
    · left; rw [he]
    · right
      have hb := preorderForest_pos_bounds children (some c) 0 (depth + 1) (c + 1) e he
      rcases preorderForest_parent children (some c) 0 (depth + 1) (c + 1) e he with h | h
      · exact ⟨c, h, Nat.le_refl c, by omega⟩
      · obtain ⟨q, hq, h1, h2⟩ := h
        exact ⟨q, hq, by omega, h2⟩
theorem preorderForest_parent (ts : List hierarchyNode) (parent : Option Nat)
    (sibling depth c : Nat) (e : FlatEntry)
    (he : e ∈ preorderForest ts parent sibling depth c) :
    e.parent = parent ∨ ∃ q, e.parent = some q ∧ c ≤ q ∧ q < e.pos := by
  match ts with
  | [] => simp [preorderForest] at he
  | t :: rest =>
    simp only [preorderForest, List.mem_append] at he
    rcases he with he | he
    · exact preorderTree_parent t parent sibling depth c e he
    · rcases preorderForest_parent rest parent (sibling + 1) depth (c + treeSize t) e he with
        h | h
      · exact Or.inl h
      · obtain ⟨q, hq, h1, h2⟩ := h
        exact Or.inr ⟨q, hq, by omega, h2⟩
end

theorem preorderForest_length (ts : List hierarchyNode) (parent : Option Nat)
    (sibling depth c : Nat) :
    (preorderForest ts parent sibling depth c).length = forestSize ts := by
  have h := congrArg List.length (preorderForest_pos ts parent sibling depth c)
  simpa using h

theorem preorderForest_getElem_pos (ts : List hierarchyNode) (parent : Option Nat)
    (sibling depth c i : Nat) (e : FlatEntry)
    (h : (preorderForest ts parent sibling depth c)[i]? = some e) : e.pos = c + i := by
  have h1 : ((preorderForest ts parent sibling depth c).map FlatEntry.pos)[i]? = some e.pos := by
    rw [List.getElem?_map, h]; rfl
  rw [preorderForest_pos] at h1
  have hi : i < forestSize ts := by
    by_contra hc
    rw [List.getElem?_eq_none (by simpa using Nat.le_of_not_lt hc)] at h1
    exact absurd h1 (by simp)
  rw [List.getElem?_eq_getElem (by simpa using hi)] at h1
  simp only [List.getElem_range'_1, Option.some.injEq] at h1
  omega

/-- The flattening of a forest, started with counter 0 and an empty parent reference,
follows pre-order. -/
theorem walkLoop_flattens (item : hierarchyNode → String → String → Int → Node) (hok : ItemOk item)
    (roots : List hierarchyNode) :
    FlattensPreorder item roots (walkLoop item roots "" 0 0 []).2 := by
  have hout : (walkLoop item roots "" 0 0 []).2
      = (preorderForest roots none 0 0 0).map (walkNode item) := by
    have h := walkLoop_eq item roots none 0 0 0 []
    have hp : parentRefName none = "" := rfl
    rw [hp] at h
    rw [h]
    simp
  have hlen := preorderForest_length roots none 0 0 0
  have hget : ∀ i n, ((preorderForest roots none 0 0 0).map (walkNode item))[i]? = some n →
      n.RefID = refName i := by
    intro i n h
    rw [List.getElem?_map] at h
    cases he : (preorderForest roots none 0 0 0)[i]? with
    | none => rw [he] at h; exact absurd h (by simp)
    | some e =>
      rw [he] at h
      simp only [Option.map_some', Option.some.injEq] at h
      subst h
      rw [(walkNode_fields item hok e).1, preorderForest_getElem_pos roots none 0 0 0 i e he]
      simp
  rw [hout]
  refine ⟨rfl, ?_, ?_, hget, ?_, ?_⟩
  · rw [List.length_map, hlen]
  · rw [preorderForest_pos, List.range_eq_range']
  · have hmap : ((preorderForest roots none 0 0 0).map (walkNode item)).map Node.RefID
        = (List.range (forestSize roots)).map refName := by
      rw [List.range_eq_range', ← preorderForest_pos roots none 0 0 0, List.map_map, List.map_map]
      apply List.map_congr_left
      intro e _
      exact (walkNode_fields item hok e).1
    rw [hmap]
    exact List.Nodup.map (fun a b h => refName_injective a b h) (List.nodup_range _)
  · intro e he
    obtain ⟨h1, h2, h3⟩ := walkNode_fields item hok e
    refine ⟨h1, h2, ?_, ?_, ?_⟩
    · intro hn
      rw [h2, hn]; rfl
    · intro q hq
      have hlt : q < e.pos := by
        rcases preorderForest_parent roots none 0 0 0 e he with h | h
        · rw [hq] at h; exact absurd h (by simp)
        · obtain ⟨q', hq', _, hlt⟩ := h
          rw [hq] at hq'
          have := Option.some.inj hq'
          omega
      refine ⟨hlt, ?_⟩
      have hb := preorderForest_pos_bounds roots none 0 0 0 e he
      have hq_lt : q < ((preorderForest roots none 0 0 0).map (walkNode item)).length := by
        rw [List.length_map, hlen]; omega
      refine ⟨((preorderForest roots none 0 0 0).map (walkNode item))[q],
        List.getElem?_eq_getElem hq_lt, ?_⟩
      rw [hget q _ (List.getElem?_eq_getElem hq_lt), h2, hq]
      rfl
    · intro hs
      rw [h3]
      apply wrapInt32_of_range
      · have : (0 : Int) ≤ (e.sibling : Int) := Int.ofNat_nonneg _
        omega
      · exact_mod_cast hs

/-- C11.  Reference ids follow pre-order.  For every forest of hierarchy nodes, the
flattening walk of the Android client (`walkHierarchy`) and of the iOS client
(`walkSourceTree`), started with counter 0, produces one entry per tree node in
pre-order; the entry at position `i` has `ref_id` `n-i`; `ref_id`s are pairwise distinct;
the `parent_ref_id` of an entry is the `ref_id` of its tree parent (empty for roots),
which stands earlier in the list; and its index is its position among its siblings. -/
theorem ref_ids_follow_preorder (find : SubmatchFinder) (roots : List hierarchyNode) :
    FlattensPreorder (hierarchyItem find) roots (dumpHierarchyNodes find roots) ∧
    FlattensPreorder (sourceItem find) roots (dumpSourceNodes find roots) :=
  ⟨walkLoop_flattens (hierarchyItem find) (hierarchyItem_ok find) roots,
   walkLoop_flattens (sourceItem find) (sourceItem_ok find) roots⟩

/-! ## Depth pruning -/

theorem parentRefName_ne_refName (parent : Option Nat) (c p : Nat)
    (hlt : ∀ q, parent = some q → q < c) (hp : c ≤ p) : parentRefName parent ≠ refName p := by
  cases parent with
  | none => exact fun h => refName_ne_empty p h.symm
  | some q =>
    intro h
    have := refName_injective q p h
    have := hlt q rfl
    omega

theorem pruneStep_walkNode (item : hierarchyNode → String → String → Int → Node)
    (hok : ItemOk item) (maxDepth : Int) (m : GoMap Int) (out : List Node) (e : FlatEntry)
    (hpar : (m (parentRefName e.parent)).getD 0 + 1 = (e.depth : Int)) :
    pruneStep maxDepth (m, out) (walkNode item e)
      = (m.set (refName e.pos) (e.depth : Int),
          out ++ ([e].filter (fun e => decide ((e.depth : Int) ≤ maxDepth))).map (walkNode item)) := by
  obtain ⟨h1, h2, _⟩ := walkNode_fields item hok e
  unfold pruneStep
  simp only [h1, h2, hpar]
  by_cases hd : (e.depth : Int) ≤ maxDepth
  · simp [hd]
  · simp [hd]

mutual
/-- Pruning the nodes of a tree listing keeps the entries of depth at most `maxDepth` and
writes the depth map at the reference ids of the listing only. -/
theorem prune_tree (item : hierarchyNode → String → String → Int → Node) (hok : ItemOk item)
    (maxDepth : Int) (t : hierarchyNode) (parent : Option Nat) (sibling depth c : Nat)
    (m : GoMap Int) (out : List Node)
    (hpar : (m (parentRefName parent)).getD 0 + 1 = (depth : Int))
    (_hlt : ∀ q, parent = some q → q < c) :
    ∃ m', ((preorderTree t parent sibling depth c).map (walkNode item)).foldl
        (pruneStep maxDepth) (m, out)
      = (m', out ++ ((preorderTree t parent sibling depth c).filter
          (fun e => decide ((e.depth : Int) ≤ maxDepth))).map (walkNode item)) ∧
      ∀ k, (∀ p, c ≤ p → p < c + treeSize t → k ≠ refName p) → m' k = m k := by
  match t with
  | hierarchyNode.mk name attrs children =>
    simp only [preorderTree, List.map_cons, List.foldl_cons, treeSize]
    rw [pruneStep_walkNode item hok maxDepth m out _ hpar]
    have hpar' : ((m.set (refName c) (depth : Int)) (parentRefName (some c))).getD 0 + 1
        = ((depth + 1 : Nat) : Int) := by
      simp [parentRefName, GoMap.set]
    obtain ⟨m', hfold, hkeep⟩ := prune_forest item hok maxDepth children (some c) 0 (depth + 1)
      (c + 1) (m.set (refName c) (depth : Int))
      (out ++ ([(⟨hierarchyNode.mk name attrs children, c, parent, sibling, depth⟩ :
        FlatEntry)].filter (fun e => decide ((e.depth : Int) ≤ maxDepth))).map (walkNode item))
      hpar' (by intro q hq; have := Option.some.inj hq; omega)
    refine ⟨m', ?_, ?_⟩
    · rw [hfold]
      simp only [List.filter_cons, List.filter_nil]
      split <;> simp
    · intro k hk
      rw [hkeep k (fun p h1 h2 => hk p (by omega) (by omega))]
      simp only [GoMap.set]
      rw [if_neg (hk c (Nat.le_refl c) (by omega))]
theorem prune_forest (item : hierarchyNode → String → String → Int → Node) (hok : ItemOk item)
    (maxDepth : Int) (ts : List hierarchyNode) (parent : Option Nat) (sibling depth c : Nat)
    (m : GoMap Int) (out : List Node)
    (hpar : (m (parentRefName parent)).getD 0 + 1 = (depth : Int))
    (hlt : ∀ q, parent = some q → q < c) :
    ∃ m', ((preorderForest ts parent sibling depth c).map (walkNode item)).foldl
        (pruneStep maxDepth) (m, out)
      = (m', out ++ ((preorderForest ts parent sibling depth c).filter
          (fun e => decide ((e.depth : Int) ≤ maxDepth))).map (walkNode item)) ∧
      ∀ k, (∀ p, c ≤ p → p < c + forestSize ts → k ≠ refName p) → m' k = m k := by
  match ts with
  | [] =>
    exact ⟨m, by simp [preorderForest], fun k _ => rfl⟩
  | t :: rest =>
    simp only [preorderForest, List.map_append, List.foldl_append, forestSize,
      List.filter_append]
    obtain ⟨m1, hfold1, hkeep1⟩ := prune_tree item hok maxDepth t parent sibling depth c m out
      hpar hlt
    rw [hfold1]
    have hpar1 : (m1 (parentRefName parent)).getD 0 + 1 = (depth : Int) := by
      rw [hkeep1 (parentRefName parent)
        (fun p h1 _ => parentRefName_ne_refName parent c p hlt h1)]
      exact hpar
    obtain ⟨m2, hfold2, hkeep2⟩ := prune_forest item hok maxDepth rest parent (sibling + 1)
      depth (c + treeSize t) m1 _ hpar1 (by intro q hq; have := hlt q hq; omega)
    refine ⟨m2, ?_, ?_⟩
    · rw [hfold2]
      simp
    · intro k hk
      rw [hkeep2 k (fun p h1 h2 => hk p (by omega) (by omega)),
        hkeep1 k (fun p h1 h2 => hk p h1 (by omega))]
end

/-- Pruning the flattening of a forest keeps exactly the entries of depth at most
`maxDepth`, in their order. -/
theorem pruneByDepth_walk (item : hierarchyNode → String → String → Int → Node)
    (hok : ItemOk item) (roots : List hierarchyNode) (maxDepth : Int) (hpos : 0 < maxDepth) :
    pruneByDepth (walkLoop item roots "" 0 0 []).2 maxDepth
      = ((preorderForest roots none 0 0 0).filter
          (fun e => decide ((e.depth : Int) ≤ maxDepth))).map (walkNode item) := by
  have hout : (walkLoop item roots "" 0 0 []).2
      = (preorderForest roots none 0 0 0).map (walkNode item) :=
    (walkLoop_flattens item hok roots).1
  unfold pruneByDepth
  rw [if_neg (by omega), hout]
  obtain ⟨m', hfold, _⟩ := prune_forest item hok maxDepth roots none 0 0 0
    ((GoMap.empty : GoMap Int).set "" (-1)) []
    (by simp [parentRefName, GoMap.set])
    (by intro q hq; exact absurd hq (by simp))
  rw [hfold]
  simp

/-- C13.  Depth pruning.  For the node list that the pre-order flattening of a forest
produces (Android or iOS item) and every `depth_limit > 0`, `pruneByDepth` returns, in the
original order, exactly the nodes whose tree depth (roots have depth 0, a child has its
parent's depth + 1) is at most `depth_limit`; for `depth_limit <= 0` it returns any node
list unchanged. -/
theorem depth_pruning (find : SubmatchFinder) (roots : List hierarchyNode) (maxDepth : Int) :
    (0 < maxDepth →
      pruneByDepth (dumpHierarchyNodes find roots) maxDepth
        = ((preorderForest roots none 0 0 0).filter
            (fun e => decide ((e.depth : Int) ≤ maxDepth))).map (walkNode (hierarchyItem find)) ∧
      pruneByDepth (dumpSourceNodes find roots) maxDepth
        = ((preorderForest roots none 0 0 0).filter
            (fun e => decide ((e.depth : Int) ≤ maxDepth))).map (walkNode (sourceItem find))) ∧
    (maxDepth ≤ 0 → ∀ nodes : List Node, pruneByDepth nodes maxDepth = nodes) := by
  constructor
  · intro hpos
    exact ⟨pruneByDepth_walk (hierarchyItem find) (hierarchyItem_ok find) roots maxDepth hpos,
      pruneByDepth_walk (sourceItem find) (sourceItem_ok find) roots maxDepth hpos⟩
  · intro hle nodes
    unfold pruneByDepth
    rw [if_pos hle]

theorem depth_pruning_witness :
    (pruneByDepth (dumpHierarchyNodes (fun _ => none)
        [exampleTree "r" [exampleTree "a" [exampleTree "a1" []], exampleTree "b" []]]) 1).map
        (fun n => n.Text) = ["r", "a", "b"] := by
  rw [((depth_pruning (fun _ => none)
    [exampleTree "r" [exampleTree "a" [exampleTree "a1" []], exampleTree "b" []]] 1).1
    (by decide)).1]
  decide

/-! ## Reference stability -/

theorem find_of_nodup_refs (l : List Node) (hnd : (l.map Node.RefID).Nodup) (n : Node)
    (hn : n ∈ l) : l.find? (fun x => decide (x.RefID = n.RefID)) = some n := by
  induction l with
  | nil => simp at hn
  | cons a l ih =>
    simp only [List.map_cons, List.nodup_cons] at hnd
    rcases List.mem_cons.mp hn with rfl | hmem
    · simp
    · have hne : a.RefID ≠ n.RefID := by
        intro e
        apply hnd.1
        rw [e]
        exact List.mem_map_of_mem _ hmem
      simp only [List.find?_cons, hne, decide_False]
      exact ih hnd.2 hmem

theorem getUITreeStore_nodes (store : Store) (deviceID : String) (nodes : List Node)
    (depthLimit : Int) (now : Nat) :
    (getUITreeStore store deviceID nodes depthLimit now).2.Nodes
      = if depthLimit > 0 then pruneByDepth nodes depthLimit else nodes := by
  unfold getUITreeStore
  rw [Put_snd]
  rfl

theorem stored_refs_nodup (find : SubmatchFinder) (roots : List hierarchyNode)
    (depthLimit : Int) :
    ((if depthLimit > 0 then pruneByDepth (dumpHierarchyNodes find roots) depthLimit
      else dumpHierarchyNodes find roots).map Node.RefID).Nodup := by
  have hfl := walkLoop_flattens (hierarchyItem find) (hierarchyItem_ok find) roots
  have hnd : ((dumpHierarchyNodes find roots).map Node.RefID).Nodup := hfl.2.2.2.2.1
  split
  · rename_i hpos
    have hp := pruneByDepth_walk (hierarchyItem find) (hierarchyItem_ok find) roots depthLimit hpos
    have hout : dumpHierarchyNodes find roots
        = (preorderForest roots none 0 0 0).map (walkNode (hierarchyItem find)) := hfl.1
    have hsub : List.Sublist (pruneByDepth (dumpHierarchyNodes find roots) depthLimit)
        (dumpHierarchyNodes find roots) := by
      unfold dumpHierarchyNodes at hout ⊢
      rw [hp, hout]
      exact List.Sublist.map _ (List.filter_sublist _)
    exact List.Nodup.sublist (List.Sublist.map _ hsub) hnd
  · exact hnd

/-- C12 (amended).  Reference stability.  For the snapshot that `GetUITree` stores from a
captured hierarchy, while `Get` returns it: for every `depth_limit`, `ResolveRef` of the
`ref_id` of a stored node returns that node; and when `depth_limit <= 0` (no pruning) the
`ref_id`s are `n-0 … n-(total-1)` in list order and `ResolveRef(snapshot_id, "n-i")`
returns the `i`-th node. -/
theorem reference_stability (find : SubmatchFinder) (roots : List hierarchyNode) (store : Store)
    (deviceID : String) (depthLimit : Int) (now t : Nat)
    (hlive : (getUITreeStore store deviceID (dumpHierarchyNodes find roots) depthLimit now).1.Get
        (getUITreeStore store deviceID (dumpHierarchyNodes find roots) depthLimit now).2.ID t
      = some (getUITreeStore store deviceID (dumpHierarchyNodes find roots) depthLimit now).2) :
    (∀ n ∈ (getUITreeStore store deviceID (dumpHierarchyNodes find roots) depthLimit now).2.Nodes,
      (getUITreeStore store deviceID (dumpHierarchyNodes find roots) depthLimit now).1.ResolveRef
        (getUITreeStore store deviceID (dumpHierarchyNodes find roots) depthLimit now).2.ID
        n.RefID t = some n) ∧
    (depthLimit ≤ 0 → ∀ i n,
      (getUITreeStore store deviceID (dumpHierarchyNodes find roots) depthLimit now).2.Nodes[i]?
        = some n →
      n.RefID = refName i ∧
      (getUITreeStore store deviceID (dumpHierarchyNodes find roots) depthLimit now).1.ResolveRef
        (getUITreeStore store deviceID (dumpHierarchyNodes find roots) depthLimit now).2.ID
        (refName i) t = some n) := by
  have hnodes := getUITreeStore_nodes store deviceID (dumpHierarchyNodes find roots) depthLimit now
  have hnd := stored_refs_nodup find roots depthLimit
  rw [← hnodes] at hnd
  have hres : ∀ n ∈ (getUITreeStore store deviceID (dumpHierarchyNodes find roots) depthLimit
      now).2.Nodes,
      (getUITreeStore store deviceID (dumpHierarchyNodes find roots) depthLimit now).1.ResolveRef
        (getUITreeStore store deviceID (dumpHierarchyNodes find roots) depthLimit now).2.ID
        n.RefID t = some n := by
    intro n hn
    unfold Store.ResolveRef
    rw [hlive]
    exact find_of_nodup_refs _ hnd n hn
  refine ⟨hres, ?_⟩
  intro hle i n hi
  have hfl := walkLoop_flattens (hierarchyItem find) (hierarchyItem_ok find) roots
  have href : n.RefID = refName i := by
    rw [hnodes, if_neg (by omega)] at hi
    exact hfl.2.2.2.1 i n hi
  refine ⟨href, ?_⟩
  rw [← href]
  exact hres n (List.getElem?_mem hi)

/-- C12 (as stated) fails: with `depth_limit = 1` the stored snapshot of the tree
`r(a(a1), b)` has three nodes with reference ids `n-0, n-1, n-3`, and `ResolveRef` of
`n-2` misses while `Get` still returns the snapshot. -/
theorem pruned_ref_ids_not_contiguous :
    (getUITreeStore (NewStore 10 1) "d" (dumpHierarchyNodes (fun _ => none)
        [exampleTree "r" [exampleTree "a" [exampleTree "a1" []], exampleTree "b" []]]) 1 5).2.Nodes.map
        Node.RefID = ["n-0", "n-1", "n-3"] ∧
    (getUITreeStore (NewStore 10 1) "d" (dumpHierarchyNodes (fun _ => none)
        [exampleTree "r" [exampleTree "a" [exampleTree "a1" []], exampleTree "b" []]]) 1 5).1.Get
        "d-5" 6
      = some (getUITreeStore (NewStore 10 1) "d" (dumpHierarchyNodes (fun _ => none)
        [exampleTree "r" [exampleTree "a" [exampleTree "a1" []], exampleTree "b" []]]) 1 5).2 ∧
    (getUITreeStore (NewStore 10 1) "d" (dumpHierarchyNodes (fun _ => none)
        [exampleTree "r" [exampleTree "a" [exampleTree "a1" []], exampleTree "b" []]])
        1 5).1.ResolveRef "d-5" "n-2" 6 = none := by
  decide

theorem reference_stability_witness :
    (getUITreeStore (NewStore 10 1) "d" (dumpHierarchyNodes (fun _ => none)
        [exampleTree "r" [exampleTree "a" []]]) 0 5).1.ResolveRef
      (getUITreeStore (NewStore 10 1) "d" (dumpHierarchyNodes (fun _ => none)
        [exampleTree "r" [exampleTree "a" []]]) 0 5).2.ID (refName 1) 6
      = some (hierarchyItem (fun _ => none) (exampleTree "a" []) "n-1" "n-0" 0) :=
  ((reference_stability (fun _ => none) [exampleTree "r" [exampleTree "a" []]] (NewStore 10 1)
    "d" 0 5 6 (by decide)).2 (by decide) 1
    (hierarchyItem (fun _ => none) (exampleTree "a" []) "n-1" "n-0" 0) (by decide)).2

/-! ## Snapshot ids are unique -/

/-- C19.  Snapshot ids are unique.  The id `"{device_id}-{now_nanos}"` that `Put` assigns
is an injective function of the pair (device id, clock reading), for every device id
string, also one that contains `-` and digits: two `Put`s (on any stores, with any nodes)
that differ in the device or in the clock reading receive different ids. -/
theorem put_ids_unique (s1 s2 : Store) (d1 d2 : String) (nodes1 nodes2 : List Node)
    (t1 t2 : Nat) (hne : (d1, t1) ≠ (d2, t2)) :
    (s1.Put d1 nodes1 t1).2.ID ≠ (s2.Put d2 nodes2 t2).2.ID ∧
    snapshotID d1 t1 ≠ snapshotID d2 t2 := by
  have h : snapshotID d1 t1 ≠ snapshotID d2 t2 := by
    intro e
    obtain ⟨ha, hb⟩ := snapshotID_injective d1 d2 t1 t2 e
    exact hne (by rw [ha, hb])
  refine ⟨?_, h⟩
  rw [Put_snd, Put_snd]
  exact h

theorem put_ids_unique_witness :
    ((NewStore 10 1).Put "a-1" [] 2).2.ID ≠ ((NewStore 10 1).Put "a" [] 12).2.ID :=
  (put_ids_unique (NewStore 10 1) (NewStore 10 1) "a-1" "a" [] [] 2 12 (by decide)).1

/-! ## Stream rate -/

/-- C15 (failing input).  With `stream_max_fps = 0` the frame rate for `max_fps = 5` is 0,
not `max(1, min(5, 0)) = 1`, and the tick interval `1 second / fps` divides by zero; with
`stream_max_fps = -3` the rate is -3 and `NewTicker` gets a negative interval.  The rate
has no lower bound, whereas the same lines replace a requested `max_fps <= 0` by 2 and a
configured `StreamChunkBytes <= 0` by 65536. -/
theorem stream_fps_zero_when_max_zero :
    streamFps 5 0 = 0 ∧ max (1 : Int) (min 5 0) = 1 ∧ streamInterval (streamFps 5 0) = none ∧
    streamFps 5 (-3) = -3 ∧ streamInterval (streamFps 5 (-3)) = none ∧
    streamFps 0 15 = 2 ∧ streamChunkSize 0 = 65536 := by
  decide

/-- The stream rate clamp where the configuration is in range: for every requested
`max_fps` and every configured `stream_max_fps >= 1`, the frame rate used by
`ScreenshotStream` is
`max(1, min(max_fps if max_fps > 0 else 2, stream_max_fps))`; it is at least 1, so the
tick interval `1 second / fps` does not divide by zero, and for
`stream_max_fps <= 10^9` the ticker gets a positive interval. -/
theorem stream_rate_clamp (maxFps streamMaxFPS : Int) (hmax : 1 ≤ streamMaxFPS) :
    streamFps maxFps streamMaxFPS
      = max 1 (min (if maxFps > 0 then maxFps else 2) streamMaxFPS) ∧
    1 ≤ streamFps maxFps streamMaxFPS ∧
    streamFps maxFps streamMaxFPS ≠ 0 ∧
    (streamMaxFPS ≤ 1000000000 →
      ∃ interval, streamInterval (streamFps maxFps streamMaxFPS) = some interval ∧
        0 < interval) := by
  have hval : streamFps maxFps streamMaxFPS
      = min (if maxFps > 0 then maxFps else 2) streamMaxFPS := by
    unfold streamFps
    by_cases h : maxFps ≤ 0
    · have h' : ¬ maxFps > 0 := by omega
      simp only [h, h', if_true, if_false]
      split <;> omega
    · have h' : maxFps > 0 := by omega
      simp only [h, h', if_true, if_false]
      split <;> omega
  have hge : 1 ≤ streamFps maxFps streamMaxFPS := by
    rw [hval]
    split <;> omega
  refine ⟨?_, hge, by omega, ?_⟩
  · rw [hval] at hge ⊢
    omega
  · intro hbig
    have hle : streamFps maxFps streamMaxFPS ≤ 1000000000 := by
      rw [hval]
      split <;> omega
    generalize streamFps maxFps streamMaxFPS = fps at hge hle
    have hq : 0 < (1000000000 : Int).tdiv fps := by
      rw [Int.tdiv_eq_ediv (by decide) (by omega)]
      have h1 : (1 : Int) ≤ 1000000000 / fps :=
        Int.le_ediv_of_mul_le (by omega) (by omega)
      omega
    refine ⟨(1000000000 : Int).tdiv fps, ?_, hq⟩
    unfold streamInterval
    rw [if_neg (by omega), if_neg (by omega)]

theorem stream_rate_clamp_witness :
    streamFps 60 15 = max 1 (min (if (60 : Int) > 0 then 60 else 2) 15) ∧
    streamFps 60 15 = 15 :=
  ⟨(stream_rate_clamp 60 15 (by decide)).1, by decide⟩

/-! ## Action responses -/

/-- C16 (failing input).  A bridge call that fails with a deadline error is answered with
status FAILED: `actionFailed` looks for `timeout` in the error code, and the codes that
`Tap`, `Type` and `Swipe` pass for a failed bridge call never contain it, whatever the
error says. -/
theorem bridge_deadline_status_failed :
    (∀ (deviceID err actionID : String) (startedAt now : Nat),
      (actionFailed deviceID startedAt "TAP_FAILED" err actionID now).Status
        = ActionStatus.ACTION_STATUS_FAILED ∧
      (actionFailed deviceID startedAt "TYPE_FAILED" err actionID now).Status
        = ActionStatus.ACTION_STATUS_FAILED ∧
      (actionFailed deviceID startedAt "SWIPE_FAILED" err actionID now).Status
        = ActionStatus.ACTION_STATUS_FAILED) ∧
    (Tap (fun _ => none) (NewStore 10 1) (Except.error "no capture")
        { atGet := 0, atLatest := 0, atPut := 0, atResolveRef := 0 }
        { runtime := Except.ok (), submit := fun _ => Except.error "context deadline exceeded",
          actionID := "a-1", startedAt := 0, completedAt := 50000000 }
        { DeviceId := "d", SnapshotId := "", RefId := "", Selector := none,
          Coordinates := some { X := 100, Y := 200 }, TapCount := 1 }).2
      = { DeviceId := "d", ActionId := "a-1", Status := ActionStatus.ACTION_STATUS_FAILED,
          StartedAtUnixMs := 0, CompletedAtUnixMs := 50, ErrorCode := "TAP_FAILED",
          ErrorMessage := "context deadline exceeded" } ∧
    (Swipe
        { runtime := Except.ok (), submit := fun _ => Except.error "context deadline exceeded",
          actionID := "a-2", startedAt := 0, completedAt := 50000000 }
        { DeviceId := "d", Start := none, End := none, DistancePx := 0,
          Direction := Direction.DIRECTION_UP, DurationMs := 0 }).Status
      = ActionStatus.ACTION_STATUS_FAILED := by
  refine ⟨?_, by decide, by decide⟩
  intro deviceID err actionID startedAt now
  refine ⟨?_, ?_, ?_⟩ <;> · unfold actionFailed; simp only []; decide

/-! ## `FindElements` and the snapshot it answers from -/

theorem filterNodes_length_le (rx : Regexp) (nodes : List Node) (selector : Option Selector) :
    (filterNodes rx nodes selector).length ≤ nodes.length := by
  unfold filterNodes
  cases selector with
  | none => simp
  | some sel =>
    simp only []
    split
    · exact Nat.le_refl _
    · rw [filterLoop_eq_filter]
      split
      · rw [List.length_take]
        exact Nat.le_trans (Nat.min_le_right _ _) (List.length_filter_le _ _)
      · exact List.length_filter_le _ _

theorem parseCursor_nonneg (cursor : String) : 0 ≤ parseCursor cursor := by
  unfold parseCursor
  split
  · omega
  · split
    · omega
    · split <;> omega

/-- The paging part of `FindElements` returns a response for the resolved snapshot when
`start + limit` stays in the range of `int`. -/
theorem findElementsPage_returns (rx : Regexp) (snap : Snapshot) (req : FindElementsRequest)
    (hlim : req.Limit < 2 ^ 62) (hlen : snap.Nodes.length < 2 ^ 62) :
    ∃ resp, findElementsPage rx snap req = some resp ∧ resp.SnapshotId = snap.ID ∧
      resp.DeviceId = req.DeviceId := by
  have h0 := parseCursor_nonneg req.Cursor
  have hfl := filterNodes_length_le rx snap.Nodes req.Selector
  unfold findElementsPage
  simp only []
  generalize (filterNodes rx snap.Nodes req.Selector) = found at hfl ⊢
  generalize parseCursor req.Cursor = start0 at h0 ⊢
  have hfl' : (found.length : Int) < 2 ^ 62 := by
    have : (found.length : Int) ≤ (snap.Nodes.length : Int) := by exact_mod_cast hfl
    have : (snap.Nodes.length : Int) < 2 ^ 62 := by exact_mod_cast hlen
    omega
  have hstart : (0 : Int) ≤ (if start0 > (found.length : Int) then (found.length : Int) else start0)
      ∧ (if start0 > (found.length : Int) then (found.length : Int) else start0)
        ≤ (found.length : Int) := by
    split <;> omega
  generalize (if start0 > (found.length : Int) then (found.length : Int) else start0) = start
    at hstart ⊢
  have hL : 1 ≤ (if req.Limit ≤ 0 then (50 : Int) else req.Limit)
      ∧ (if req.Limit ≤ 0 then (50 : Int) else req.Limit) < 2 ^ 62 := by
    split <;> omega
  generalize (if req.Limit ≤ 0 then (50 : Int) else req.Limit) = limit at hL ⊢
  rw [wrapInt64_of_range (start + limit) (by omega) (by omega)]
  have hend : ¬ ((if start + limit > (found.length : Int) then (found.length : Int)
      else start + limit) < start) := by
    split <;> omega
  rw [if_neg hend]
  exact ⟨_, rfl, rfl, rfl⟩

/-- C17 (as stated) fails: `FindElements` with the snapshot id `"gone"`, which is not in
the store, answers from the device's latest snapshot `d-1` instead of returning an error. -/
theorem find_answers_from_latest :
    ((NewStore 10 1).Put "d" [exampleNode "n-0" "" "a"] 1).1.Get "gone" 2 = none ∧
    (FindElements (fun _ => none) ((NewStore 10 1).Put "d" [exampleNode "n-0" "" "a"] 1).1
        (Except.error "no capture") { atGet := 2, atLatest := 2, atPut := 2, atResolveRef := 2 }
        { DeviceId := "d", SnapshotId := "gone", Selector := none, Cursor := "", Limit := 0,
          IncludeNodes := false }).map Prod.snd
      = some (Except.ok
          { DeviceId := "d", SnapshotId := "d-1", Elements := [{ RefId := "n-0", Node := none }],
            NextCursor := "", TotalMatched := 1 }) := by
  decide

/-- C17 (amended).  Snapshot fallback on find.  When `FindElements` is called with a
snapshot id that is absent from the store or expired, it answers from the device's latest
snapshot if `Latest` returns one; otherwise it captures a fresh hierarchy, stores it and
answers from that; it returns the NotFound RPC error exactly when there is no live latest
snapshot and the capture fails. -/
theorem find_snapshot_fallback (rx : Regexp) (store : Store) (capture : Capture) (clk : Clock)
    (req : FindElementsRequest) (hmiss : store.Get req.SnapshotId clk.atGet = none) :
    (∀ latest, store.Latest req.DeviceId clk.atLatest = some latest →
      FindElements rx store capture clk req
        = (findElementsPage rx latest req).map (fun resp => (store, Except.ok resp))) ∧
    (store.Latest req.DeviceId clk.atLatest = none → ∀ err, capture = Except.error err →
      FindElements rx store capture clk req
        = some (store, Except.error { code := Code.NotFound, message := err })) ∧
    (store.Latest req.DeviceId clk.atLatest = none → ∀ nodes, capture = Except.ok nodes →
      FindElements rx store capture clk req
        = (findElementsPage rx (store.Put req.DeviceId nodes clk.atPut).2 req).map
            (fun resp => ((store.Put req.DeviceId nodes clk.atPut).1, Except.ok resp))) ∧
    (∀ snap : Snapshot, req.Limit < 2 ^ 62 → snap.Nodes.length < 2 ^ 62 →
      ∃ resp, findElementsPage rx snap req = some resp ∧ resp.SnapshotId = snap.ID) := by
  have hfirst : (if req.SnapshotId ≠ "" then store.Get req.SnapshotId clk.atGet else none)
      = none := by
    split
    · exact hmiss
    · rfl
  refine ⟨?_, ?_, ?_, ?_⟩
  · intro latest hl
    unfold FindElements resolveSnapshot
    rw [hfirst]
    simp only [hl]
    cases findElementsPage rx latest req <;> rfl
  · intro hl err hc
    unfold FindElements resolveSnapshot
    rw [hfirst]
    simp only [hl, hc]
  · intro hl nodes hc
    unfold FindElements resolveSnapshot
    rw [hfirst]
    simp only [hl, hc]
    cases findElementsPage rx (store.Put req.DeviceId nodes clk.atPut).2 req <;> rfl
  · intro snap h1 h2
    obtain ⟨resp, hr, hid, _⟩ := findElementsPage_returns rx snap req h1 h2
    exact ⟨resp, hr, hid⟩

theorem find_snapshot_fallback_witness :
    FindElements (fun _ => none) (NewStore 10 1) (Except.error "device offline")
        { atGet := 2, atLatest := 2, atPut := 2, atResolveRef := 2 }
        { DeviceId := "d", SnapshotId := "gone", Selector := none, Cursor := "", Limit := 0,
          IncludeNodes := false }
      = some (NewStore 10 1, Except.error { code := Code.NotFound, message := "device offline" }) :=
  (find_snapshot_fallback (fun _ => none) (NewStore 10 1) (Except.error "device offline")
    { atGet := 2, atLatest := 2, atPut := 2, atResolveRef := 2 }
    { DeviceId := "d", SnapshotId := "gone", Selector := none, Cursor := "", Limit := 0,
      IncludeNodes := false } (by decide)).2.1 (by decide) "device offline" rfl

/-! ## Port assignment -/

theorem assignPort_known (r : Registry) (d : String) (p : Int) (h : r.portByDev d = some p) :
    r.assignPort d = (r, p) := by
  unfold Registry.assignPort
  rw [h]

theorem assignPort_new (r : Registry) (d : String) (h : r.portByDev d = none)
    (hlo : -(2 : Int) ^ 63 ≤ r.nextPort + 1) (hhi : r.nextPort + 1 < 2 ^ 63) :
    r.assignPort d
      = ({ r with nextPort := r.nextPort + 1, portByDev := r.portByDev.set d r.nextPort },
          r.nextPort) := by
  unfold Registry.assignPort
  rw [h, wrapInt64_of_range _ hlo hhi]

theorem PortsOk_NewRegistry (B : Int) : PortsOk B (NewRegistry B) := by
  refine ⟨Int.le_refl B, ?_, ?_⟩
  · intro d p h
    simp [NewRegistry, GoMap.empty] at h
  · intro d1 d2 p h
    simp [NewRegistry, GoMap.empty] at h

theorem PortsOk_assignPort (B : Int) (r : Registry) (d : String) (h : PortsOk B r)
    (hB : -(2 : Int) ^ 63 ≤ B) (hhi : r.nextPort + 1 < 2 ^ 63) :
    PortsOk B (r.assignPort d).1 ∧ (r.assignPort d).1.nextPort ≤ r.nextPort + 1 := by
  obtain ⟨h1, h2, h3⟩ := h
  cases hp : r.portByDev d with
  | some p =>
    rw [assignPort_known r d p hp]
    exact ⟨⟨h1, h2, h3⟩, by simp⟩
  | none =>
    rw [assignPort_new r d hp (by omega) hhi]
    refine ⟨⟨by simp only []; omega, ?_, ?_⟩, by simp⟩
    · intro d' p hd'
      simp only [GoMap.set] at hd'
      by_cases hdd : d' = d
      · rw [if_pos hdd] at hd'
        have := Option.some.inj hd'
        simp only []
        omega
      · rw [if_neg hdd] at hd'
        have := h2 d' p hd'
        simp only []
        omega
    · intro d1 d2 p hd1 hd2
      simp only [GoMap.set] at hd1 hd2
      by_cases h1d : d1 = d
      · by_cases h2d : d2 = d
        · rw [h1d, h2d]
        · rw [if_pos h1d] at hd1
          rw [if_neg h2d] at hd2
          have := Option.some.inj hd1
          have := h2 d2 p hd2
          omega
      · by_cases h2d : d2 = d
        · rw [if_neg h1d] at hd1
          rw [if_pos h2d] at hd2
          have := Option.some.inj hd2
          have := h2 d1 p hd1
          omega
        · rw [if_neg h1d] at hd1
          rw [if_neg h2d] at hd2
          exact h3 d1 d2 p hd1 hd2

theorem assignAll_cons (r : Registry) (d : String) (calls : List String) :
    r.assignAll (d :: calls) = (r.assignPort d).1.assignAll calls := rfl

theorem PortsOk_assignAll (B : Int) (calls : List String) (r : Registry) (h : PortsOk B r)
    (hB : -(2 : Int) ^ 63 ≤ B) (hhi : r.nextPort + (calls.length : Int) < 2 ^ 63) :
    PortsOk B (r.assignAll calls) ∧
      (r.assignAll calls).nextPort ≤ r.nextPort + (calls.length : Int) := by
  induction calls generalizing r with
  | nil => exact ⟨h, by simp [Registry.assignAll]⟩
  | cons d calls ih =>
    simp only [List.length_cons, Nat.cast_add, Nat.cast_one] at hhi ⊢
    have hnn : (0 : Int) ≤ (calls.length : Int) := Int.ofNat_nonneg _
    obtain ⟨hok, hnext⟩ := PortsOk_assignPort B r d h hB (by omega)
    obtain ⟨hok', hnext'⟩ := ih (r.assignPort d).1 hok (by omega)
    rw [assignAll_cons]
    exact ⟨hok', by omega⟩

theorem RuntimeForDevice_failed (r : Registry) (d : String)
    (forward session : Int → Except String Unit) (err : String)
    (hfail : (r.RuntimeForDevice d forward session).2 = Except.error err) :
    (r.RuntimeForDevice d forward session).1 = (r.assignPort d).1 ∧
    (r.RuntimeForDevice d forward session).1.runtimes d = none ∧
    (r.RuntimeForDevice d forward session).1.portByDev d = some (r.assignPort d).2 := by
  have hport : (r.assignPort d).1.portByDev d = some (r.assignPort d).2 := by
    unfold Registry.assignPort
    cases hp : r.portByDev d with
    | some p => simp [hp]
    | none => simp [GoMap.set]
  have hrt : (r.assignPort d).1.runtimes = r.runtimes := by
    unfold Registry.assignPort
    cases hp : r.portByDev d <;> rfl
  unfold Registry.RuntimeForDevice at hfail ⊢
  cases hr : r.runtimes d with
  | some existing =>
    rw [hr] at hfail
    exact absurd hfail (by simp)
  | none =>
    rw [hr] at hfail
    simp only [] at hfail ⊢
    cases hf : forward (r.assignPort d).2 with
    | error e =>
      simp only []
      exact ⟨trivial, by rw [hrt]; exact hr, hport⟩
    | ok u =>
      rw [hf] at hfail
      simp only [] at hfail ⊢
      cases hs : session (r.assignPort d).2 with
      | error e =>
        simp only []
        exact ⟨trivial, by rw [hrt]; exact hr, hport⟩
      | ok u' =>
        rw [hs] at hfail
        exact absurd hfail (by simp)

theorem RuntimeForDevice_port (r : Registry) (d : String)
    (forward session : Int → Except String Unit) (rt : Runtime)
    (hnone : r.runtimes d = none)
    (hok : (r.RuntimeForDevice d forward session).2 = Except.ok rt) :
    rt.Port = (r.assignPort d).2 := by
  unfold Registry.RuntimeForDevice at hok
  rw [hnone] at hok
  simp only [] at hok
  cases hf : forward (r.assignPort d).2 with
  | error e =>
    rw [hf] at hok
    exact absurd hok (by simp)
  | ok u =>
    rw [hf] at hok
    simp only [] at hok
    cases hs : session (r.assignPort d).2 with
    | error e =>
      rw [hs] at hok
      exact absurd hok (by simp)
    | ok u' =>
      rw [hs] at hok
      simp only [Except.ok.injEq] at hok
      rw [← hok]

theorem RuntimeForDeviceIOS_eq (r : Registry) (d : String)
    (session : Int → Except String Unit) :
    r.RuntimeForDeviceIOS d session = r.RuntimeForDevice d (fun _ => Except.ok ()) session := by
  unfold Registry.RuntimeForDeviceIOS Registry.RuntimeForDevice
  cases r.runtimes d <;> rfl

/-- C18.  Port assignment.  In every registry state reached by `assignPort` calls from a
fresh registry with base port `B` (the ports staying in the range of `int`): a device
that already has a port is given the same port again and `next_port` is unchanged; a
device without one is given the current `next_port`, which then grows by exactly 1;
distinct devices hold distinct ports; every assigned port lies in `[B, next_port)`; and
after a failed `RuntimeForDevice` the device has no runtime but keeps its port, which the
retried `RuntimeForDevice` uses again (the iOS `RuntimeForDevice` is the Android one with
a port forward that always succeeds). -/
theorem port_assignment (B : Int) (calls : List String) (hB : -(2 : Int) ^ 63 ≤ B)
    (hrange : B + (calls.length : Int) + 1 < 2 ^ 63) :
    (∀ d p, ((NewRegistry B).assignAll calls).portByDev d = some p →
      ((NewRegistry B).assignAll calls).assignPort d = ((NewRegistry B).assignAll calls, p)) ∧
    (∀ d, ((NewRegistry B).assignAll calls).portByDev d = none →
      (((NewRegistry B).assignAll calls).assignPort d).2
        = ((NewRegistry B).assignAll calls).nextPort ∧
      (((NewRegistry B).assignAll calls).assignPort d).1.nextPort
        = ((NewRegistry B).assignAll calls).nextPort + 1 ∧
      (((NewRegistry B).assignAll calls).assignPort d).1.portByDev d
        = some ((NewRegistry B).assignAll calls).nextPort) ∧
    (∀ d1 d2 p, ((NewRegistry B).assignAll calls).portByDev d1 = some p →
      ((NewRegistry B).assignAll calls).portByDev d2 = some p → d1 = d2) ∧
    (∀ d p, ((NewRegistry B).assignAll calls).portByDev d = some p →
      B ≤ p ∧ p < ((NewRegistry B).assignAll calls).nextPort) ∧
    (∀ (r : Registry) (d : String) (forward session forward2 session2 : Int → Except String Unit)
      (err : String) (rt : Runtime),
      (r.RuntimeForDevice d forward session).2 = Except.error err →
      ((r.RuntimeForDevice d forward session).1.RuntimeForDevice d forward2 session2).2
        = Except.ok rt →
      rt.Port = (r.assignPort d).2 ∧
      (r.RuntimeForDevice d forward session).1.portByDev d = some (r.assignPort d).2) ∧
    (∀ (r : Registry) (d : String) (session : Int → Except String Unit),
      r.RuntimeForDeviceIOS d session
        = r.RuntimeForDevice d (fun _ => Except.ok ()) session) := by
  obtain ⟨⟨h1, h2, h3⟩, hnext⟩ := PortsOk_assignAll B calls (NewRegistry B)
    (PortsOk_NewRegistry B) hB (by simp only [NewRegistry]; omega)
  have hnext' : ((NewRegistry B).assignAll calls).nextPort ≤ B + (calls.length : Int) := hnext
  refine ⟨?_, ?_, h3, h2, ?_, RuntimeForDeviceIOS_eq⟩
  · intro d p hp
    exact assignPort_known _ d p hp
  · intro d hp
    rw [assignPort_new _ d hp (by omega) (by omega)]
    exact ⟨rfl, rfl, by simp [GoMap.set]⟩
  · intro r d forward session forward2 session2 err rt hfail hok
    obtain ⟨_, hrun, hport⟩ := RuntimeForDevice_failed r d forward session err hfail
    refine ⟨?_, hport⟩
    rw [RuntimeForDevice_port _ d forward2 session2 rt hrun hok,
      assignPort_known _ d _ hport]

theorem port_assignment_witness :
    ((NewRegistry 7900).assignAll ["emulator-5554", "emulator-5556"]).assignPort "emulator-5554"
      = ((NewRegistry 7900).assignAll ["emulator-5554", "emulator-5556"], 7900) ∧
    (((NewRegistry 7900).assignAll ["emulator-5554", "emulator-5556"]).assignPort "pixel").2
      = ((NewRegistry 7900).assignAll ["emulator-5554", "emulator-5556"]).nextPort :=
  ⟨(port_assignment 7900 ["emulator-5554", "emulator-5556"] (by decide) (by decide)).1
      "emulator-5554" 7900 (by decide),
   ((port_assignment 7900 ["emulator-5554", "emulator-5556"] (by decide) (by decide)).2.1
      "pixel" (by decide)).1⟩

/-! ## Stream framing -/

/-- C14 (failing input).  With `STREAM_CHUNK_BYTES = 9223372036854775807` a frame of ten
bytes is announced with `chunk_count = 0` and no chunk is sent: the sum
`len(frame.data) + chunkSize - 1` wraps around. -/
theorem stream_chunk_count_overflow :
    streamChunkSize (2 ^ 63 - 1) = 2 ^ 63 - 1 ∧
    chunkCount 10 (2 ^ 63 - 1) = 0 ∧
    sendFrame "f-1" "d" [1, 2, 3, 4, 5, 6, 7, 8, 9, 10] 0 0 (streamChunkSize (2 ^ 63 - 1)) 0
      = some [ScreenshotStreamEvent.FrameMeta
          { FrameId := "f-1", DeviceId := "d", Width := 0, Height := 0, MimeType := "image/jpeg",
            TotalBytes := 10, ChunkCount := 0, CapturedAtUnixMs := 0 }] := by
  decide

theorem sendChunks_of_forall (frameID : String) (data : List UInt8) (chunkSize : Int)
    (f : Nat → ScreenshotStreamEvent) (rounds : List Nat)
    (h : ∀ i ∈ rounds, chunkEvent frameID data chunkSize i = some (f i)) :
    sendChunks frameID data chunkSize rounds = some (rounds.map f) := by
  induction rounds with
  | nil => rfl
  | cons i rounds ih =>
    simp only [sendChunks, h i (List.mem_cons_self _ _),
      ih (fun j hj => h j (List.mem_cons_of_mem _ hj)), List.map_cons]

theorem flatten_chunks {α : Type} (c : Nat) (n : Nat) (data : List α)
    (hlen : data.length ≤ n * c) :
    ((List.range n).map (fun i => (data.drop (i * c)).take c)).flatten = data := by
  induction n generalizing data with
  | zero =>
    have : data.length = 0 := by omega
    rw [List.length_eq_zero.mp this]
    rfl
  | succ n ih =>
    rw [List.range_succ_eq_map, List.map_cons, List.map_map, List.flatten_cons]
    have hrest : (List.range n).map ((fun i => (data.drop (i * c)).take c) ∘ Nat.succ)
        = (List.range n).map (fun i => ((data.drop c).drop (i * c)).take c) := by
      apply List.map_congr_left
      intro i _
      simp only [Function.comp, List.drop_drop]
      congr 2
      rw [Nat.succ_mul]
      omega
    rw [hrest, ih (data.drop c) (by rw [List.length_drop, Nat.succ_mul] at *; omega)]
    simp

theorem ceil_div_facts (T c i : Nat) (hc : 0 < c) (hi : i < (T + c - 1) / c) :
    i * c < T ∧ i ≤ i * c ∧ T ≤ (T + c - 1) / c * c := by
  have h1 : (i + 1) * c ≤ (T + c - 1) / c * c := Nat.mul_le_mul_right c hi
  have h2 : (T + c - 1) / c * c ≤ T + c - 1 := Nat.div_mul_le_self _ _
  have h3 : i ≤ i * c := Nat.le_mul_of_pos_right i hc
  have h4 : T + c - 1 < ((T + c - 1) / c + 1) * c := by
    rw [Nat.add_mul, Nat.one_mul]
    exact Nat.lt_div_mul_add hc
  rw [Nat.add_mul] at h1 h4
  refine ⟨by omega, h3, by omega⟩

theorem ceil_div_cover (T c : Nat) (hc : 0 < c) : T ≤ (T + c - 1) / c * c := by
  have h4 : T + c - 1 < ((T + c - 1) / c + 1) * c := by
    rw [Nat.add_mul, Nat.one_mul]
    exact Nat.lt_div_mul_add hc
  rw [Nat.add_mul] at h4
  omega

theorem chunkEvent_in_range (frameID : String) (data : List UInt8) (c i : Nat) (hc : 0 < c)
    (hsum : (data.length : Int) + (c : Int) ≤ 2 ^ 63) (hT : data.length < 2 ^ 32)
    (hi : i < (data.length + c - 1) / c) :
    chunkEvent frameID data (c : Int) i
      = some (ScreenshotStreamEvent.Chunk
          { FrameId := frameID, ChunkIndex := (i : Int),
            Data := (data.drop (i * c)).take c }) := by
  obtain ⟨h1, h2, _⟩ := ceil_div_facts data.length c i hc hi
  have hP : (i : Int) * (c : Int) = ((i * c : Nat) : Int) := by push_cast; ring
  unfold chunkEvent
  simp only [hP]
  generalize i * c = P at h1 h2 ⊢
  have hstart : wrapInt64 ((P : Nat) : Int) = (P : Int) := by
    apply wrapInt64_of_range <;> omega
  rw [hstart]
  have hend : wrapInt64 ((P : Int) + (c : Int)) = (P : Int) + (c : Int) := by
    apply wrapInt64_of_range <;> omega
  rw [hend]
  have hidx : (i : Int) % 2 ^ 32 = (i : Int) := by
    apply Int.emod_eq_of_lt <;> omega
  rw [hidx]
  by_cases hgt : (P : Int) + (c : Int) > (data.length : Int)
  · rw [if_pos hgt, if_neg (by omega)]
    have hk : ((data.length : Int) - (P : Int)).toNat = data.length - P := by omega
    rw [hk, Int.toNat_ofNat]
    have e1 : (data.drop P).take (data.length - P) = data.drop P :=
      List.take_of_length_le (by rw [List.length_drop])
    have e2 : (data.drop P).take c = data.drop P :=
      List.take_of_length_le (by rw [List.length_drop]; omega)
    rw [e1, e2]
  · rw [if_neg hgt, if_neg (by omega)]
    have hk : ((P : Int) + (c : Int) - (P : Int)).toNat = c := by omega
    rw [hk, Int.toNat_ofNat]

theorem chunkCount_eq (T c : Nat) (hc : 0 < c) (hsum : (T : Int) + (c : Int) ≤ 2 ^ 63) :
    chunkCount T (c : Int) = (((T + c - 1) / c : Nat) : Int) := by
  unfold chunkCount
  rw [wrapInt64_of_range _ (by omega) (by omega),
    Int.tdiv_eq_ediv (by omega) (by omega)]
  have : (T : Int) + (c : Int) - 1 = ((T + c - 1 : Nat) : Int) := by omega
  rw [this]
  norm_cast

/-- The framing of one frame when `len(data) + chunkSize` stays in the range of `int` and
the frame is shorter than 2^32 bytes: one `FrameMeta` with `chunk_count = ceil(T/C)`,
then chunk `i` with bytes `[i*C, min((i+1)*C, T))` for `i = 0, …, chunk_count - 1`; the
chunk data concatenate to the frame, and chunk `i` has `min(C, T - i*C) >= 1` bytes. -/
theorem sendFrame_framing (frameID deviceID : String) (data : List UInt8) (w h : Int) (c : Nat)
    (now : Nat) (hc : 0 < c) (hsum : (data.length : Int) + (c : Int) ≤ 2 ^ 63)
    (hT : data.length < 2 ^ 32) :
    sendFrame frameID deviceID data w h (c : Int) now
      = some (ScreenshotStreamEvent.FrameMeta
          { FrameId := frameID, DeviceId := deviceID, Width := w % 2 ^ 32, Height := h % 2 ^ 32,
            MimeType := "image/jpeg", TotalBytes := (data.length : Int),
            ChunkCount := (((data.length + c - 1) / c : Nat) : Int),
            CapturedAtUnixMs := ((now / 1000000 : Nat) : Int) }
          :: (List.range ((data.length + c - 1) / c)).map (fun (i : Nat) =>
            ScreenshotStreamEvent.Chunk
              { FrameId := frameID, ChunkIndex := (i : Int),
                Data := (data.drop (i * c)).take c })) ∧
    (((List.range ((data.length + c - 1) / c)).map (fun (i : Nat) =>
        ScreenshotStreamEvent.Chunk
          { FrameId := frameID, ChunkIndex := (i : Int),
            Data := (data.drop (i * c)).take c })).map eventData).flatten = data ∧
    (∀ i, i < (data.length + c - 1) / c →
      ((data.drop (i * c)).take c).length = min c (data.length - i * c) ∧
      1 ≤ min c (data.length - i * c) ∧
      (i + 1 < (data.length + c - 1) / c → ((data.drop (i * c)).take c).length = c)) := by
  refine ⟨?_, ?_, ?_⟩
  · unfold sendFrame
    simp only [chunkCount_eq data.length c hc hsum, Int.toNat_ofNat]
    rw [sendChunks_of_forall frameID data (c : Int) _ _
      (fun i hi => chunkEvent_in_range frameID data c i hc hsum hT (List.mem_range.mp hi))]
    have key : ∀ n, n = (data.length + c - 1) / c → n ≤ data.length := by
      intro n hn
      by_cases hz : n = 0
      · omega
      · have := ceil_div_facts data.length c (n - 1) hc (by rw [← hn]; omega)
        omega
    have hle2 := key _ rfl
    generalize (data.length + c - 1) / c = n at hle2 ⊢
    have hn : ((n : Nat) : Int) % 2 ^ 32 = ((n : Nat) : Int) := by omega
    rw [hn]
  · rw [List.map_map]
    exact flatten_chunks c _ data (ceil_div_cover data.length c hc)
  · intro i hi
    obtain ⟨h1, _, _⟩ := ceil_div_facts data.length c i hc hi
    refine ⟨by rw [List.length_take, List.length_drop], by omega, ?_⟩
    intro hi2
    obtain ⟨h3, _, _⟩ := ceil_div_facts data.length c (i + 1) hc hi2
    rw [List.length_take, List.length_drop, Nat.add_mul] at *
    omega

/-! ## The store: cleanup -/

theorem cleanup_items_iff (s : Store) (now : Nat) (i : String) (snap : Snapshot) :
    (s.cleanupExpired now).items i = some snap
      ↔ s.items i = some snap ∧ (now : Int) ≤ snap.ExpiresAt := by
  simp only [Store.cleanupExpired]
  cases h : s.items i with
  | none => simp
  | some sn =>
    simp only [Option.some.injEq]
    by_cases he : (now : Int) > sn.ExpiresAt
    · rw [if_pos he]
      constructor
      · intro h'; exact absurd h' (by simp)
      · rintro ⟨rfl, h2⟩; omega
    · rw [if_neg he]
      constructor
      · intro h'
        have := Option.some.inj h'
        subst this
        exact ⟨rfl, by omega⟩
      · rintro ⟨rfl, _⟩; rfl

theorem cleanup_byDevice (s : Store) (now : Nat) (d : String) :
    (s.cleanupExpired now).byDevice d
      = (s.byDevice d).map
          (fun ids => ids.filter (fun id => ((s.cleanupExpired now).items id).isSome)) := rfl

theorem cleanup_latest (s : Store) (now : Nat) (d : String) (ids : List String)
    (h : s.byDevice d = some ids) :
    (s.cleanupExpired now).latestByDevice d
      = (ids.filter (fun id => ((s.cleanupExpired now).items id).isSome)).getLast? := by
  simp only [Store.cleanupExpired, h]
  generalize (ids.filter _).getLast? = o
  cases o <;> rfl

/-- C22 (counterexample).  One `Put` for device `d` at clock reading 5 with ttl 10, then
`cleanupExpired` at 20: the snapshot is expired and leaves `items`, the key `d` leaves
`latest_by_device`, but `by_device` keeps the key `d`, mapped to the empty list. -/
theorem cleanup_keeps_empty_device_key :
    (((NewStore 10 1).Put "d" [] 5).1.cleanupExpired 20).items "d-5" = none ∧
    (((NewStore 10 1).Put "d" [] 5).1.cleanupExpired 20).latestByDevice "d" = none ∧
    (((NewStore 10 1).Put "d" [] 5).1.cleanupExpired 20).byDevice "d" = some [] := by
  decide

/-- C22 (amended).  Cleanup postcondition.  After `cleanupExpired` at `now` on any store
state: `items` holds exactly the previous snapshots with `now <= expires_at`; a device
without key in `by_device` stays without, and its `latest_by_device` entry is untouched;
for a device with key in `by_device` the key stays and maps to the sublist, in the same
order, of its previous ids that are still in `items` (the empty list when none is), and
`latest_by_device[d]` is the last element of that list, the key being deleted when the
list is empty. -/
theorem cleanup_postcondition (s : Store) (now : Nat) :
    (∀ i snap, (s.cleanupExpired now).items i = some snap
        ↔ s.items i = some snap ∧ (now : Int) ≤ snap.ExpiresAt) ∧
    (∀ d, s.byDevice d = none →
        (s.cleanupExpired now).byDevice d = none ∧
        (s.cleanupExpired now).latestByDevice d = s.latestByDevice d) ∧
    (∀ d ids, s.byDevice d = some ids →
        (s.cleanupExpired now).byDevice d
          = some (ids.filter (fun i => ((s.cleanupExpired now).items i).isSome)) ∧
        (ids.filter (fun i => ((s.cleanupExpired now).items i).isSome)).Sublist ids ∧
        (s.cleanupExpired now).latestByDevice d
          = (ids.filter (fun i => ((s.cleanupExpired now).items i).isSome)).getLast? ∧
        (ids.filter (fun i => ((s.cleanupExpired now).items i).isSome) = [] →
          (s.cleanupExpired now).byDevice d = some [] ∧
          (s.cleanupExpired now).latestByDevice d = none)) := by
  refine ⟨cleanup_items_iff s now, ?_, ?_⟩
  · intro d h
    constructor
    · rw [cleanup_byDevice, h]; rfl
    · simp only [Store.cleanupExpired, h]
  · intro d ids h
    have hb : (s.cleanupExpired now).byDevice d
        = some (ids.filter (fun i => ((s.cleanupExpired now).items i).isSome)) := by
      rw [cleanup_byDevice, h]; rfl
    have hl := cleanup_latest s now d ids h
    refine ⟨hb, List.filter_sublist _, hl, ?_⟩
    intro he
    rw [hb, hl, he]
    exact ⟨rfl, rfl⟩

theorem cleanup_postcondition_witness :
    (((NewStore 10 2).run (putsFor "d" [([], 1), ([], 15)])).cleanupExpired 20).byDevice "d"
        = some ["d-15"] ∧
    (((NewStore 10 2).run (putsFor "d" [([], 1), ([], 15)])).cleanupExpired 20).latestByDevice "d"
        = some "d-15" := by
  have h := (cleanup_postcondition ((NewStore 10 2).run (putsFor "d" [([], 1), ([], 15)])) 20).2.2
    "d" ["d-1", "d-15"] (by decide)
  refine ⟨?_, ?_⟩
  · rw [h.1]; decide
  · rw [h.2.2.1]; decide

/-! ## The store: number of `Page` calls -/

theorem ceil_div_step (n k : Nat) (hk : 0 < k) (h : k < n) :
    (n + k - 1) / k = (n - k + k - 1) / k + 1 := by
  have : n + k - 1 = (n - k + k - 1) + k := by omega
  rw [this, Nat.add_div_right _ hk]

theorem ceil_div_le_one (n k : Nat) (hk : 0 < k) (h : n ≤ k) : max 1 ((n + k - 1) / k) = 1 := by
  have : (n + k - 1) / k < 2 := by
    rw [Nat.div_lt_iff_lt_mul hk]
    omega
  omega

theorem ceil_div_pos (n k : Nat) (hk : 0 < k) (h : 0 < n) : 1 ≤ (n + k - 1) / k := by
  rw [Nat.le_div_iff_mul_le hk]
  omega

/-- The pagination loop started at offset `start` makes `ceil((total - start) / k)` calls,
and one call when nothing is left. -/
theorem pageAll_calls_from (s : Store) (id : String) (k : Nat) (clock : Nat → Nat)
    (snap : Snapshot) (hitem : s.items id = some snap)
    (hlive : ∀ j, (clock j : Int) ≤ snap.ExpiresAt) (hk : 0 < k)
    (hlen : snap.Nodes.length < 2 ^ 62) :
    ∀ (fuel start j : Nat) (cursor : String), pageStart cursor = (start : Int) →
      (start : Int) + (k : Int) < 2 ^ 63 →
      snap.Nodes.length - start < fuel →
      ∃ pages, pageAll s id (k : Int) clock fuel j cursor = some pages ∧
        pages.length = max 1 ((snap.Nodes.length - start + k - 1) / k) := by
  intro fuel
  induction fuel with
  | zero => intro start j cursor _ _ h; omega
  | succ fuel ih =>
    intro start j cursor hstart hsum hfuel
    have hkk : (if (k : Int) ≤ 0 then (200 : Int) else (k : Int)) = (k : Int) := by
      rw [if_neg (by omega)]
    have hget := Get_of_items_live s id snap (clock j) hitem (hlive j)
    have hpage := Page_contract s id cursor (k : Int) (clock j) snap hget
      (by rw [hstart, hkk]; exact hsum)
    rw [hstart, hkk] at hpage
    unfold pageAll
    rw [hpage]
    simp only [Bool.true_eq_false, if_false]
    by_cases hlt : min ((start : Int) + (k : Int)) (snap.Nodes.length : Int)
        < (snap.Nodes.length : Int)
    · -- a further page follows
      have hmin : min ((start : Int) + (k : Int)) (snap.Nodes.length : Int)
          = ((start + k : Nat) : Int) := by
        push_cast
        omega
      rw [if_pos hlt, hmin]
      have hne : Itoa ((start + k : Nat) : Int) ≠ "" := Itoa_ne_empty _
      rw [if_neg hne]
      have hlen' : (snap.Nodes.length : Int) < 2 ^ 62 := by exact_mod_cast hlen
      have hb : start + k < 2 ^ 63 := by
        have : ((start + k : Nat) : Int) < 2 ^ 63 := by rw [← hmin]; omega
        exact_mod_cast this
      have hsk : start + k < snap.Nodes.length := by
        have : ((start + k : Nat) : Int) < (snap.Nodes.length : Int) := by rw [← hmin]; exact hlt
        exact_mod_cast this
      obtain ⟨ps, hps, hcount⟩ := ih (start + k) (j + 1) (Itoa ((start + k : Nat) : Int))
        (pageStart_Itoa _ hb) (by push_cast; omega) (by omega)
      refine ⟨_ :: ps, by rw [hps]; rfl, ?_⟩
      rw [List.length_cons, hcount]
      have h1 := ceil_div_pos (snap.Nodes.length - (start + k)) k hk (by omega)
      have h2 := ceil_div_step (snap.Nodes.length - start) k hk (by omega)
      have h3 : snap.Nodes.length - start - k = snap.Nodes.length - (start + k) := by omega
      rw [h3] at h2
      omega
    · -- the last page
      rw [if_neg hlt]
      simp only [if_true]
      refine ⟨_, rfl, ?_⟩
      have h1 := ceil_div_le_one (snap.Nodes.length - start) k hk (by omega)
      rw [h1]
      rfl

/-- C21 (counterexample).  On a stored, live snapshot without nodes (`total = 0`) and page
size 2 the iteration from the empty cursor makes one call of `Page` (it returns the empty
page and an empty `next_cursor`), whereas `ceil(0/2) = 0`. -/
theorem page_call_on_empty_snapshot :
    ((NewStore 10 1).Put "d" [] 5).1.Get "d-5" 6 = some (mkSnapshot 10 "d" [] 5) ∧
    pageAll ((NewStore 10 1).Put "d" [] 5).1 "d-5" 2 (fun _ => 6) 4 0 "" = some [[]] ∧
    ([[]] : List (List Node)).length ≠ ((mkSnapshot 10 "d" [] 5).Nodes.length + 2 - 1) / 2 := by
  decide

/-- C21 (amended).  Pagination call count.  For a stored snapshot with `total` nodes that
is not expired at any of the calls and every page size `k > 0` (an `int`), the iteration
that starts at the empty cursor and calls `Page(id, cursor, k)` until `next_cursor` is
empty terminates (any fuel above `total` is enough) after exactly
`max(1, ceil(total / k))` calls: `ceil(total / k)` calls when `total >= 1`, and one call
when `total = 0`. -/
theorem pagination_call_count (s : Store) (id : String) (k : Nat) (clock : Nat → Nat)
    (snap : Snapshot) (fuel : Nat)
    (hitem : s.items id = some snap) (hlive : ∀ j, (clock j : Int) ≤ snap.ExpiresAt)
    (hk : 0 < k) (hk63 : k < 2 ^ 63) (hlen : snap.Nodes.length < 2 ^ 62)
    (hfuel : snap.Nodes.length < fuel) :
    ∃ pages, pageAll s id (k : Int) clock fuel 0 "" = some pages ∧
      pages.length = max 1 ((snap.Nodes.length + k - 1) / k) ∧
      (1 ≤ snap.Nodes.length → pages.length = (snap.Nodes.length + k - 1) / k) ∧
      (snap.Nodes.length = 0 → pages.length = 1) := by
  obtain ⟨pages, hp, hc⟩ := pageAll_calls_from s id k clock snap hitem hlive hk hlen fuel 0 0 ""
    (by decide) (by have : ((k : Nat) : Int) < 2 ^ 63 := by exact_mod_cast hk63
                    omega) (by omega)
  rw [Nat.sub_zero] at hc
  refine ⟨pages, hp, hc, ?_, ?_⟩
  · intro h1
    have := ceil_div_pos snap.Nodes.length k hk h1
    omega
  · intro h0
    rw [hc, h0]
    have := ceil_div_le_one 0 k hk (by omega)
    simpa using this

theorem pagination_call_count_witness :
    ∃ pages, pageAll ((NewStore 10 1).Put "d" [exampleNode "n-0" "" "a",
        exampleNode "n-1" "n-0" "b", exampleNode "n-2" "n-0" "c"] 5).1 "d-5" ((2 : Nat) : Int)
        (fun _ => 6) 4 0 "" = some pages ∧
      pages.length = 2 := by
  obtain ⟨pages, hp, hc, _⟩ := pagination_call_count
    ((NewStore 10 1).Put "d" [exampleNode "n-0" "" "a",
        exampleNode "n-1" "n-0" "b", exampleNode "n-2" "n-0" "c"] 5).1 "d-5" 2 (fun _ => 6)
    (mkSnapshot 10 "d" [exampleNode "n-0" "" "a",
      exampleNode "n-1" "n-0" "b", exampleNode "n-2" "n-0" "c"] 5) 4
    (by decide) (by intro j; simp [mkSnapshot]) (by decide) (by decide) (by decide) (by decide)
  exact ⟨pages, hp, hc⟩

/-! ## Depth pruning keeps the parents of the kept nodes -/

mutual
/-- An entry of a tree listing is the root (with the parent and depth given for it), or
its parent is an entry of the listing, one level above it. -/
theorem preorderTree_parent_entry (t : hierarchyNode) (parent : Option Nat)
    (sibling depth c : Nat) (e : FlatEntry) (he : e ∈ preorderTree t parent sibling depth c) :
    (e.parent = parent ∧ e.depth = depth) ∨
      ∃ e' ∈ preorderTree t parent sibling depth c,
        e.parent = some e'.pos ∧ e'.depth + 1 = e.depth := by
  match t with
  | hierarchyNode.mk name attrs children =>
    simp only [preorderTree, List.mem_cons] at he ⊢
    rcases he with he | he
    · left; rw [he]; exact ⟨rfl, rfl⟩
    · right
      rcases preorderForest_parent_entry children (some c) 0 (depth + 1) (c + 1) e he with h | h
      · exact ⟨⟨hierarchyNode.mk name attrs children, c, parent, sibling, depth⟩,
          Or.inl rfl, h.1, h.2.symm⟩
      · obtain ⟨e', he', h1, h2⟩ := h
        exact ⟨e', Or.inr he', h1, h2⟩
theorem preorderForest_parent_entry (ts : List hierarchyNode) (parent : Option Nat)
    (sibling depth c : Nat) (e : FlatEntry)
    (he : e ∈ preorderForest ts parent sibling depth c) :
    (e.parent = parent ∧ e.depth = depth) ∨
      ∃ e' ∈ preorderForest ts parent sibling depth c,
        e.parent = some e'.pos ∧ e'.depth + 1 = e.depth := by
  match ts with
  | [] => simp [preorderForest] at he
  | t :: rest =>
    simp only [preorderForest, List.mem_append] at he ⊢
    rcases he with he | he
    · rcases preorderTree_parent_entry t parent sibling depth c e he with h | h
      · exact Or.inl h
      · obtain ⟨e', he', h1, h2⟩ := h
        exact Or.inr ⟨e', Or.inl he', h1, h2⟩
    · rcases preorderForest_parent_entry rest parent (sibling + 1) depth (c + treeSize t) e he
        with h | h
      · exact Or.inl h
      · obtain ⟨e', he', h1, h2⟩ := h
        exact Or.inr ⟨e', Or.inr he', h1, h2⟩
end

/-- Among the flattened entries of a forest, a selection that contains the parent of each
of its entries yields nodes whose `parent_ref_id` is empty or is the `ref_id` of a
selected node. -/
theorem kept_parent_mem (item : hierarchyNode → String → String → Int → Node) (hok : ItemOk item)
    (roots : List hierarchyNode) (P : FlatEntry → Bool)
    (hP : ∀ e e', P e = true → e'.depth + 1 = e.depth → P e' = true) :
    ∀ n ∈ ((preorderForest roots none 0 0 0).filter P).map (walkNode item),
      n.ParentRefID = "" ∨
        ∃ m ∈ ((preorderForest roots none 0 0 0).filter P).map (walkNode item),
          m.RefID = n.ParentRefID := by
  intro n hn
  obtain ⟨e, he, rfl⟩ := List.mem_map.mp hn
  obtain ⟨hmem, hPe⟩ := List.mem_filter.mp he
  obtain ⟨_, h2, _⟩ := walkNode_fields item hok e
  rcases preorderForest_parent_entry roots none 0 0 0 e hmem with h | h
  · left
    rw [h2, h.1]; rfl
  · right
    obtain ⟨e', he', h1, hd⟩ := h
    refine ⟨walkNode item e', List.mem_map_of_mem _ (List.mem_filter.mpr ⟨he', hP e e' hPe hd⟩), ?_⟩
    rw [(walkNode_fields item hok e').1, h2, h1]
    rfl

/-- The list that `pruneByDepth` returns for the flattening of a forest has no orphans,
whatever the depth limit. -/
theorem pruneByDepth_parent_mem (item : hierarchyNode → String → String → Int → Node)
    (hok : ItemOk item) (roots : List hierarchyNode) (maxDepth : Int) :
    ∀ n ∈ pruneByDepth (walkLoop item roots "" 0 0 []).2 maxDepth,
      n.ParentRefID = "" ∨
        ∃ m ∈ pruneByDepth (walkLoop item roots "" 0 0 []).2 maxDepth,
          m.RefID = n.ParentRefID := by
  by_cases hpos : 0 < maxDepth
  · rw [pruneByDepth_walk item hok roots maxDepth hpos]
    apply kept_parent_mem item hok roots
    intro e e' h hd
    have h' : (e.depth : Int) ≤ maxDepth := by simpa using h
    have : (e'.depth : Int) ≤ maxDepth := by
      have : (e.depth : Int) = (e'.depth : Int) + 1 := by exact_mod_cast hd.symm
      omega
    simpa using this
  · have hall : pruneByDepth (walkLoop item roots "" 0 0 []).2 maxDepth
        = ((preorderForest roots none 0 0 0).filter (fun _ => true)).map (walkNode item) := by
      unfold pruneByDepth
      rw [if_pos (by omega), (walkLoop_flattens item hok roots).1, List.filter_true]
    rw [hall]
    exact kept_parent_mem item hok roots (fun _ => true) (fun _ _ _ _ => rfl)

/-- C24 (counterexample).  There is no forest and no `depth_limit > 0` for which the list
that `pruneByDepth` returns for the pre-order flattening (Android or iOS) contains a node
whose non-empty `parent_ref_id` is not the `ref_id` of a node of the returned list. -/
theorem no_depth_pruned_orphans :
    ¬ ∃ (find : SubmatchFinder) (roots : List hierarchyNode) (maxDepth : Int), 0 < maxDepth ∧
      ((∃ n ∈ pruneByDepth (dumpHierarchyNodes find roots) maxDepth, n.ParentRefID ≠ "" ∧
          ∀ m ∈ pruneByDepth (dumpHierarchyNodes find roots) maxDepth,
            m.RefID ≠ n.ParentRefID) ∨
       (∃ n ∈ pruneByDepth (dumpSourceNodes find roots) maxDepth, n.ParentRefID ≠ "" ∧
          ∀ m ∈ pruneByDepth (dumpSourceNodes find roots) maxDepth,
            m.RefID ≠ n.ParentRefID)) := by
  rintro ⟨find, roots, maxDepth, _, h | h⟩
  · obtain ⟨n, hn, hne, hno⟩ := h
    rcases pruneByDepth_parent_mem (hierarchyItem find) (hierarchyItem_ok find) roots maxDepth
      n hn with h | ⟨m, hm, hmr⟩
    · exact hne h
    · exact hno m hm hmr
  · obtain ⟨n, hn, hne, hno⟩ := h
    rcases pruneByDepth_parent_mem (sourceItem find) (sourceItem_ok find) roots maxDepth
      n hn with h | ⟨m, hm, hmr⟩
    · exact hne h
    · exact hno m hm hmr

/-- C24 (amended).  No depth-pruned orphans.  For the node list that the pre-order
flattening of a forest produces (Android or iOS) and every `depth_limit`, every node of
the list that `pruneByDepth` returns has an empty `parent_ref_id` or a `parent_ref_id`
that is the `ref_id` of a node of the returned list. -/
theorem pruned_nodes_keep_parents (find : SubmatchFinder) (roots : List hierarchyNode)
    (maxDepth : Int) :
    (∀ n ∈ pruneByDepth (dumpHierarchyNodes find roots) maxDepth,
      n.ParentRefID = "" ∨
        ∃ m ∈ pruneByDepth (dumpHierarchyNodes find roots) maxDepth, m.RefID = n.ParentRefID) ∧
    (∀ n ∈ pruneByDepth (dumpSourceNodes find roots) maxDepth,
      n.ParentRefID = "" ∨
        ∃ m ∈ pruneByDepth (dumpSourceNodes find roots) maxDepth, m.RefID = n.ParentRefID) :=
  ⟨pruneByDepth_parent_mem (hierarchyItem find) (hierarchyItem_ok find) roots maxDepth,
   pruneByDepth_parent_mem (sourceItem find) (sourceItem_ok find) roots maxDepth⟩

theorem pruned_nodes_keep_parents_witness :
    ∃ m ∈ pruneByDepth (dumpHierarchyNodes (fun _ => none)
        [exampleTree "r" [exampleTree "a" [exampleTree "a1" []], exampleTree "b" []]]) 1,
      m.RefID = "n-0" := by
  have h := (pruned_nodes_keep_parents (fun _ => none)
    [exampleTree "r" [exampleTree "a" [exampleTree "a1" []], exampleTree "b" []]] 1).1
    (walkNode (hierarchyItem (fun _ => none))
      ⟨exampleTree "b" [], 3, some 0, 1, 1⟩) (by decide)
  rcases h with h | h
  · exact absurd h (by decide)
  · exact h

/-! ## The device of a resolved snapshot -/

theorem DevInv_NewStore (ttl maxN : Int) : DevInv (NewStore ttl maxN) := by
  refine ⟨?_, ?_, ?_⟩ <;> intro a b h <;> simp [NewStore, GoMap.empty] at h

theorem DevInv_Put (s : Store) (d : String) (nodes : List Node) (t : Nat) (h : DevInv s) :
    DevInv (s.Put d nodes t).1 := by
  obtain ⟨hI, hB, hL⟩ := h
  have hlist : ∀ i ∈ (s.byDevice d).getD [] ++ [snapshotID d t], ∃ t', i = snapshotID d t' := by
    intro i hi
    rcases List.mem_append.mp hi with hi | hi
    · cases hb : s.byDevice d with
      | none => rw [hb] at hi; simp at hi
      | some ids => rw [hb] at hi; exact hB d ids hb i hi
    · exact ⟨t, by simpa using hi⟩
  have hset : ∀ i snap, (s.items.set (snapshotID d t) (mkSnapshot s.ttl d nodes t)) i = some snap →
      ∃ t', i = snapshotID snap.DeviceID t' := by
    intro i snap hi
    simp only [GoMap.set] at hi
    split at hi
    · rename_i he
      have := Option.some.inj hi
      subst this
      exact ⟨t, he⟩
    · exact hI i snap hi
  have hlat : ∀ d' i, (s.latestByDevice.set d (snapshotID d t)) d' = some i →
      ∃ t', i = snapshotID d' t' := by
    intro d' i hi
    simp only [GoMap.set] at hi
    split at hi
    · rename_i he
      subst he
      exact ⟨t, (Option.some.inj hi).symm⟩
    · exact hL d' i hi
  rw [Put_fst]
  split
  · refine ⟨?_, ?_, hlat⟩
    · intro i snap hi
      simp only [GoMap.delete] at hi
      split at hi
      · exact absurd hi (by simp)
      · exact hset i snap hi
    · intro d' ids hb i hi
      simp only [GoMap.set] at hb
      split at hb
      · rename_i he
        subst he
        have := Option.some.inj hb
        subst this
        exact hlist i (List.mem_of_mem_tail hi)
      · exact hB d' ids hb i hi
  · refine ⟨hset, ?_, hlat⟩
    intro d' ids hb i hi
    simp only [GoMap.set] at hb
    split at hb
    · rename_i he
      subst he
      have := Option.some.inj hb
      subst this
      exact hlist i hi
    · exact hB d' ids hb i hi

theorem DevInv_cleanup (s : Store) (now : Nat) (h : DevInv s) :
    DevInv (s.cleanupExpired now) := by
  obtain ⟨hI, hB, hL⟩ := h
  refine ⟨?_, ?_, ?_⟩
  · intro i snap hi
    exact hI i snap ((cleanup_items_iff s now i snap).mp hi).1
  · intro d ids hb i hi
    rw [cleanup_byDevice] at hb
    cases hb0 : s.byDevice d with
    | none => rw [hb0] at hb; exact absurd hb (by simp)
    | some ids0 =>
      rw [hb0] at hb
      have := Option.some.inj hb
      subst this
      exact hB d ids0 hb0 i (List.mem_filter.mp hi).1
  · intro d i hi
    cases hb0 : s.byDevice d with
    | none =>
      have : (s.cleanupExpired now).latestByDevice d = s.latestByDevice d := by
        simp only [Store.cleanupExpired, hb0]
      rw [this] at hi
      exact hL d i hi
    | some ids0 =>
      rw [cleanup_latest s now d ids0 hb0] at hi
      have hm := List.mem_of_getLast?_eq_some hi
      exact hB d ids0 hb0 i (List.mem_filter.mp hm).1

theorem DevInv_run (ops : List StoreOp) (s : Store) (h : DevInv s) : DevInv (s.run ops) := by
  induction ops generalizing s with
  | nil => exact h
  | cons op ops ih =>
    rw [run_cons]
    apply ih
    cases op with
    | put d nodes t => exact DevInv_Put s d nodes t h
    | cleanup now => exact DevInv_cleanup s now h

theorem Get_items (s : Store) (i : String) (now : Nat) (snap : Snapshot)
    (h : s.Get i now = some snap) : s.items i = some snap := by
  unfold Store.Get at h
  cases hi : s.items i with
  | none => rw [hi] at h; exact absurd h (by simp)
  | some sn =>
    rw [hi] at h
    simp only [] at h
    split at h
    · exact absurd h (by simp)
    · exact h

/-- In a store that satisfies `DevInv`, `Latest(d)` returns a snapshot of device `d`. -/
theorem Latest_device (s : Store) (h : DevInv s) (d : String) (now : Nat) (snap : Snapshot)
    (hl : s.Latest d now = some snap) : snap.DeviceID = d := by
  unfold Store.Latest at hl
  cases hi : s.latestByDevice d with
  | none => rw [hi] at hl; exact absurd hl (by simp)
  | some i =>
    rw [hi] at hl
    simp only [] at hl
    obtain ⟨t, ht⟩ := h.2.2 d i hi
    obtain ⟨t', ht'⟩ := h.1 i snap (Get_items s i now snap hl)
    rw [ht] at ht'
    exact (snapshotID_injective _ _ _ _ ht').1.symm

/-- C25 (counterexample).  The store holds one live snapshot, of device `B`.  A request
for device `A` that carries the id of that snapshot resolves to it: `resolveSnapshot`
returns a snapshot whose `device_id` is `B`, and ref-id target resolution for `A` then
answers with the centre of a node of `B`. -/
theorem resolveSnapshot_other_device :
    (resolveSnapshot ((NewStore 10 1).Put "B" [exampleNode "n-0" "" "b"] 5).1
        (Except.error "no device") ⟨6, 6, 6, 6⟩ "A" "B-5").2
      = Except.ok (mkSnapshot 10 "B" [exampleNode "n-0" "" "b"] 5) ∧
    (mkSnapshot 10 "B" [exampleNode "n-0" "" "b"] 5).DeviceID ≠ "A" ∧
    (resolveTargetPoint (fun _ => none) ((NewStore 10 1).Put "B" [exampleNode "n-0" "" "b"] 5).1
        (Except.error "no device") ⟨6, 6, 6, 6⟩ "A" "B-5" "n-0" none none).2
      = Except.ok { x := 5, y := 10 } := by
  decide

/-- C25 (amended).  In every store state reached from the empty store by `Put`s and
cleanups, the snapshot that `resolveSnapshot(device_id, snapshot_id)` returns has
`device_id` equal to the requested one whenever `snapshot_id` is empty, or misses in
`Get`, or is an id that `Put` built for `device_id`. -/
theorem resolved_snapshot_device (ttl maxN : Int) (ops : List StoreOp) (capture : Capture)
    (clk : Clock) (deviceID snapshotID : String) (store1 : Store) (snap : Snapshot)
    (hres : resolveSnapshot ((NewStore ttl maxN).run ops) capture clk deviceID snapshotID
      = (store1, Except.ok snap))
    (hid : snapshotID = "" ∨ ((NewStore ttl maxN).run ops).Get snapshotID clk.atGet = none ∨
      ∃ t, snapshotID = FastMobile.snapshotID deviceID t) :
    snap.DeviceID = deviceID := by
  have hinv := DevInv_run ops _ (DevInv_NewStore ttl maxN)
  generalize (NewStore ttl maxN).run ops = s at hres hid hinv
  unfold resolveSnapshot at hres
  cases hg : (if snapshotID ≠ "" then s.Get snapshotID clk.atGet else none) with
  | some sn =>
    rw [hg] at hres
    simp only [Prod.mk.injEq, Except.ok.injEq] at hres
    obtain ⟨_, rfl⟩ := hres
    by_cases he : snapshotID = ""
    · rw [if_neg (by simp [he])] at hg
      exact absurd hg (by simp)
    · rw [if_pos he] at hg
      rcases hid with h | h | ⟨t, ht⟩
      · exact absurd h he
      · rw [h] at hg; exact absurd hg (by simp)
      · obtain ⟨t', ht'⟩ := hinv.1 snapshotID sn (Get_items s snapshotID _ sn hg)
        rw [ht] at ht'
        exact (snapshotID_injective _ _ _ _ ht').1.symm
  | none =>
    rw [hg] at hres
    simp only [] at hres
    cases hl : s.Latest deviceID clk.atLatest with
    | some latest =>
      rw [hl] at hres
      simp only [Prod.mk.injEq, Except.ok.injEq] at hres
      obtain ⟨_, rfl⟩ := hres
      exact Latest_device s hinv deviceID _ _ hl
    | none =>
      rw [hl] at hres
      simp only [] at hres
      cases capture with
      | error err => simp at hres
      | ok nodes =>
        simp only [Prod.mk.injEq, Except.ok.injEq] at hres
        obtain ⟨_, rfl⟩ := hres
        rw [Put_snd]
        rfl

theorem resolved_snapshot_device_witness :
    (resolveSnapshot ((NewStore 10 1).run [StoreOp.put "B" [exampleNode "n-0" "" "b"] 5,
        StoreOp.put "A" [exampleNode "n-0" "" "a"] 7])
        (Except.error "no device") ⟨8, 8, 8, 8⟩ "A" "").2
      = Except.ok (mkSnapshot 10 "A" [exampleNode "n-0" "" "a"] 7) ∧
    (mkSnapshot 10 "A" [exampleNode "n-0" "" "a"] 7).DeviceID = "A" :=
  ⟨by decide,
   resolved_snapshot_device 10 1 [StoreOp.put "B" [exampleNode "n-0" "" "b"] 5,
      StoreOp.put "A" [exampleNode "n-0" "" "a"] 7]
    (Except.error "no device") ⟨8, 8, 8, 8⟩ "A" ""
    ((NewStore 10 1).run [StoreOp.put "B" [exampleNode "n-0" "" "b"] 5,
      StoreOp.put "A" [exampleNode "n-0" "" "a"] 7])
    (mkSnapshot 10 "A" [exampleNode "n-0" "" "a"] 7) rfl (Or.inl rfl)⟩

/-! ## The latest snapshot after a cleanup -/

theorem PutsInv_mono (d : String) (ttl : Int) (T T' : Nat) (s : Store) (hT : T ≤ T')
    (h : PutsInv d ttl T s) : PutsInv d ttl T' s := by
  obtain ⟨⟨ts, h1, h2, h3⟩, hI⟩ := h
  refine ⟨⟨ts, h1, h2, fun t ht => Nat.le_trans (h3 t ht) hT⟩, ?_⟩
  intro i snap hi
  obtain ⟨t, ht, h4, h5⟩ := hI i snap hi
  exact ⟨t, Nat.le_trans ht hT, h4, h5⟩

theorem PutsInv_NewStore (d : String) (ttl maxN : Int) (T : Nat) :
    PutsInv d ttl T (NewStore ttl maxN) := by
  refine ⟨⟨[], ?_, List.Pairwise.nil, ?_⟩, ?_⟩
  · simp [NewStore, GoMap.empty]
  · intro t ht; simp at ht
  · intro i snap hi
    simp [NewStore, GoMap.empty] at hi

theorem PutsInv_Put (d : String) (ttl : Int) (T : Nat) (s : Store) (nodes : List Node)
    (h : PutsInv d ttl T s) (httl : s.ttl = ttl) : PutsInv d ttl T (s.Put d nodes T).1 := by
  obtain ⟨⟨ts, h1, h2, h3⟩, hI⟩ := h
  have hsorted : (ts ++ [T]).Pairwise (fun a b => a ≤ b) := by
    rw [List.pairwise_append]
    refine ⟨h2, List.pairwise_singleton _ _, ?_⟩
    intro a ha b hb
    simp only [List.mem_singleton] at hb
    rw [hb]
    exact h3 a ha
  have hle : ∀ t ∈ ts ++ [T], t ≤ T := by
    intro t ht
    rcases List.mem_append.mp ht with ht | ht
    · exact h3 t ht
    · simp only [List.mem_singleton] at ht
      omega
  have hlist : (s.byDevice d).getD [] ++ [snapshotID d T] = (ts ++ [T]).map (snapshotID d) := by
    rw [h1]; simp
  have hset : ∀ i snap, (s.items.set (snapshotID d T) (mkSnapshot s.ttl d nodes T)) i = some snap →
      ∃ t, t ≤ T ∧ i = snapshotID d t ∧ snap.ExpiresAt = (t : Int) + ttl := by
    intro i snap hi
    simp only [GoMap.set] at hi
    split at hi
    · rename_i he
      have := Option.some.inj hi
      subst this
      exact ⟨T, Nat.le_refl T, he, by rw [httl]; rfl⟩
    · exact hI i snap hi
  rw [Put_fst]
  split
  · refine ⟨⟨(ts ++ [T]).tail, ?_, hsorted.tail, fun t ht => hle t (List.mem_of_mem_tail ht)⟩, ?_⟩
    · simp only [GoMap.set, if_true, Option.getD_some]
      rw [hlist, List.map_tail]
    · intro i snap hi
      simp only [GoMap.delete] at hi
      split at hi
      · exact absurd hi (by simp)
      · exact hset i snap hi
  · refine ⟨⟨ts ++ [T], ?_, hsorted, hle⟩, hset⟩
    simp only [GoMap.set, if_true, Option.getD_some]
    exact hlist

theorem PutsInv_run (d : String) (ttl maxN : Int) (puts : List (List Node × Nat))
    (hsorted : (puts.map Prod.snd).Pairwise (fun a b => a ≤ b)) :
    ∀ T, (∀ p ∈ puts, p.2 ≤ T) → PutsInv d ttl T ((NewStore ttl maxN).run (putsFor d puts)) := by
  induction puts using List.reverseRecOn with
  | nil => intro T _; exact PutsInv_NewStore d ttl maxN T
  | append_singleton puts p ih =>
    intro T hT
    rw [List.map_append, List.pairwise_append] at hsorted
    have hle : ∀ q ∈ puts, q.2 ≤ p.2 := by
      intro q hq
      exact hsorted.2.2 q.2 (List.mem_map_of_mem _ hq) p.2 (by simp)
    have h0 := ih hsorted.1 p.2 hle
    rw [run_putsFor_snoc]
    apply PutsInv_mono d ttl p.2 T _ (hT p (by simp))
    apply PutsInv_Put d ttl p.2 _ p.1 h0
    rw [run_ttl]; rfl

/-- After a `Put` at a reading not below the earlier ones, with room for at least one
snapshot per device: the list of the device ends with the new id, and the new snapshot is
in `items` unless the whole list repeats the new id (and then `items` does not have it). -/
theorem Put_last_state (d : String) (ttl : Int) (T : Nat) (s : Store) (nodes : List Node)
    (h : PutsInv d ttl T s) (hmax : 1 ≤ s.maxSnapshotsPerDevice) :
    ∃ pre, (s.Put d nodes T).1.byDevice d = some (pre ++ [snapshotID d T]) ∧
      ((s.Put d nodes T).1.items (snapshotID d T) = some (mkSnapshot s.ttl d nodes T) ∨
       ((s.Put d nodes T).1.items (snapshotID d T) = none ∧ ∀ x ∈ pre, x = snapshotID d T)) := by
  obtain ⟨⟨ts, h1, h2, h3⟩, _⟩ := h
  rw [Put_fst]
  split
  · rename_i hcond
    rw [h1] at hcond ⊢
    cases ts with
    | nil =>
      simp only [List.map_nil, List.nil_append, List.length_singleton] at hcond
      omega
    | cons t0 ts1 =>
      refine ⟨ts1.map (snapshotID d), ?_, ?_⟩
      · simp [GoMap.set]
      · simp only [List.map_cons, List.cons_append, List.headD_cons, GoMap.delete, GoMap.set]
        by_cases he : t0 = T
        · right
          subst he
          refine ⟨by simp, ?_⟩
          intro x hx
          obtain ⟨t, ht, rfl⟩ := List.mem_map.mp hx
          have hge : t0 ≤ t := (List.pairwise_cons.mp h2).1 t ht
          have hle : t ≤ t0 := h3 t (List.mem_cons_of_mem _ ht)
          have : t = t0 := by omega
          rw [this]
        · left
          have hne : snapshotID d T ≠ snapshotID d t0 := by
            intro e
            have := (snapshotID_injective _ _ _ _ e).2
            omega
          rw [if_neg hne]
          simp
  · refine ⟨(s.byDevice d).getD [], ?_, ?_⟩
    · simp [GoMap.set]
    · left
      simp [GoMap.set]

/-- The state of the latest id of a device after its last `Put` and a cleanup: it names
the snapshot of the last `Put`, which is then in `items`, or there is no latest id, and
then the snapshot of the last `Put` is not in `items`. -/
theorem latest_after_puts_cleanup (ttl maxN : Int) (d : String)
    (init : List (List Node × Nat)) (p : List Node × Nat) (now : Nat) (hmax : 1 ≤ maxN)
    (hsorted : ((init ++ [p]).map Prod.snd).Pairwise (fun a b => a ≤ b)) :
    ((((NewStore ttl maxN).run (putsFor d (init ++ [p]))).cleanupExpired now).latestByDevice d
        = some (snapshotID d p.2) ∧
      (((NewStore ttl maxN).run (putsFor d (init ++ [p]))).cleanupExpired now).items
        (snapshotID d p.2) = some (mkSnapshot ttl d p.1 p.2)) ∨
    ((((NewStore ttl maxN).run (putsFor d (init ++ [p]))).cleanupExpired now).latestByDevice d
        = none ∧
      (((NewStore ttl maxN).run (putsFor d (init ++ [p]))).cleanupExpired now).items
        (snapshotID d p.2) = none) := by
  have hs := hsorted
  rw [List.map_append, List.pairwise_append] at hs
  have hle : ∀ q ∈ init, q.2 ≤ p.2 := by
    intro q hq
    exact hs.2.2 q.2 (List.mem_map_of_mem _ hq) p.2 (by simp)
  have hinv0 := PutsInv_run d ttl maxN init hs.1 p.2 hle
  rw [run_putsFor_snoc]
  generalize hs0 : (NewStore ttl maxN).run (putsFor d init) = s0 at hinv0 ⊢
  have httl : s0.ttl = ttl := by rw [← hs0, run_ttl]; rfl
  have hmx : s0.maxSnapshotsPerDevice = maxN := by rw [← hs0, run_max]; rfl
  have hinv := PutsInv_Put d ttl p.2 s0 p.1 hinv0 httl
  obtain ⟨pre, hby, hitem⟩ := Put_last_state d ttl p.2 s0 p.1 hinv0 (by omega)
  rw [httl] at hitem
  generalize (s0.Put d p.1 p.2).1 = s at hinv hby hitem ⊢
  rw [cleanup_latest s now d _ hby]
  have hnone : ∀ i, (s.cleanupExpired now).items i = none ↔
      ¬ ((s.cleanupExpired now).items i).isSome = true := by
    intro i; cases (s.cleanupExpired now).items i <;> simp
  rcases hitem with hsome | ⟨hno, hall⟩
  · by_cases hexp : (now : Int) ≤ (p.2 : Int) + ttl
    · left
      have hc : (s.cleanupExpired now).items (snapshotID d p.2)
          = some (mkSnapshot ttl d p.1 p.2) :=
        (cleanup_items_iff s now _ _).mpr ⟨hsome, hexp⟩
      refine ⟨?_, hc⟩
      rw [List.filter_append, List.filter_cons_of_pos (by rw [hc]; rfl), List.filter_nil,
        List.getLast?_concat]
    · right
      have hgone : ∀ i, (s.cleanupExpired now).items i = none := by
        intro i
        cases hc : (s.cleanupExpired now).items i with
        | none => rfl
        | some sn =>
          obtain ⟨h1, h2⟩ := (cleanup_items_iff s now i sn).mp hc
          obtain ⟨t, ht, _, h3⟩ := hinv.2 i sn h1
          have : (t : Int) ≤ (p.2 : Int) := by exact_mod_cast ht
          omega
      refine ⟨?_, hgone _⟩
      rw [List.filter_eq_nil_iff.mpr (fun a _ => (hnone a).mp (hgone a))]
      rfl
  · right
    have hc : (s.cleanupExpired now).items (snapshotID d p.2) = none := by
      cases hc : (s.cleanupExpired now).items (snapshotID d p.2) with
      | none => rfl
      | some sn =>
        have := ((cleanup_items_iff s now _ sn).mp hc).1
        rw [hno] at this
        exact absurd this (by simp)
    refine ⟨?_, hc⟩
    rw [List.filter_eq_nil_iff.mpr]
    · rfl
    · intro a ha
      have : a = snapshotID d p.2 := by
        rcases List.mem_append.mp ha with ha | ha
        · exact hall a ha
        · simpa using ha
      rw [this]
      exact (hnone _).mp hc

/-- C23 (counterexample).  There is no sequence of `Put`s for one device at
non-decreasing clock readings, with one ttl and `max_snapshots_per_device >= 1`, and no
clock reading of a following `cleanupExpired`, after which `latest_by_device[d]` is the
id of a snapshot in `items` that is older than the snapshot of the last `Put`, or any
snapshot other than that one. -/
theorem latest_never_older_after_cleanup :
    ¬ ∃ (ttl maxN : Int) (d : String) (init : List (List Node × Nat)) (p : List Node × Nat)
        (now : Nat),
      1 ≤ maxN ∧ ((init ++ [p]).map Prod.snd).Pairwise (fun a b => a ≤ b) ∧
      ∃ x snap,
        (((NewStore ttl maxN).run (putsFor d (init ++ [p]))).cleanupExpired now).latestByDevice d
          = some x ∧
        (((NewStore ttl maxN).run (putsFor d (init ++ [p]))).cleanupExpired now).items x
          = some snap ∧
        (snap.CreatedAt < (p.2 : Int) ∨ x ≠ snapshotID d p.2) := by
  rintro ⟨ttl, maxN, d, init, p, now, hmax, hsorted, x, snap, hl, hi, hold⟩
  rcases latest_after_puts_cleanup ttl maxN d init p now hmax hsorted with ⟨h1, h2⟩ | ⟨h1, _⟩
  · rw [h1] at hl
    have hx := Option.some.inj hl
    subst hx
    rw [h2] at hi
    have hs := Option.some.inj hi
    subst hs
    rcases hold with h | h
    · simp [mkSnapshot] at h
    · exact h rfl
  · rw [h1] at hl
    exact absurd hl (by simp)

/-- C23 (amended).  Latest does not move backward.  For every sequence of `Put`s for one
device on an empty store (clock readings non-decreasing, one ttl,
`max_snapshots_per_device >= 1`) followed by a `cleanupExpired` at any clock reading:
after the cleanup `latest_by_device[d]` is the id of the snapshot created by the last
`Put`, and that snapshot is in `items`; or `latest_by_device` has no entry for `d`, and
the snapshot of the last `Put` is not in `items`. -/
theorem latest_after_cleanup_is_last_put (ttl maxN : Int) (d : String)
    (init : List (List Node × Nat)) (p : List Node × Nat) (now : Nat) (hmax : 1 ≤ maxN)
    (hsorted : ((init ++ [p]).map Prod.snd).Pairwise (fun a b => a ≤ b)) :
    ((((NewStore ttl maxN).run (putsFor d (init ++ [p]))).cleanupExpired now).latestByDevice d
        = some (snapshotID d p.2) ∧
      (((NewStore ttl maxN).run (putsFor d (init ++ [p]))).cleanupExpired now).items
        (snapshotID d p.2) = some (mkSnapshot ttl d p.1 p.2)) ∨
    ((((NewStore ttl maxN).run (putsFor d (init ++ [p]))).cleanupExpired now).latestByDevice d
        = none ∧
      (((NewStore ttl maxN).run (putsFor d (init ++ [p]))).cleanupExpired now).items
        (snapshotID d p.2) = none) :=
  latest_after_puts_cleanup ttl maxN d init p now hmax hsorted

theorem latest_after_cleanup_is_last_put_witness :
    ((((NewStore 10 2).run (putsFor "d" ([([], 1), ([], 5)] ++ [([], 15)]))).cleanupExpired
        20).latestByDevice "d" = some (snapshotID "d" 15) ∧
      (((NewStore 10 2).run (putsFor "d" ([([], 1), ([], 5)] ++ [([], 15)]))).cleanupExpired
        20).items (snapshotID "d" 15) = some (mkSnapshot 10 "d" [] 15)) ∨
    ((((NewStore 10 2).run (putsFor "d" ([([], 1), ([], 5)] ++ [([], 15)]))).cleanupExpired
        20).latestByDevice "d" = none ∧
      (((NewStore 10 2).run (putsFor "d" ([([], 1), ([], 5)] ++ [([], 15)]))).cleanupExpired
        20).items (snapshotID "d" 15) = none) :=
  latest_after_cleanup_is_last_put 10 2 "d" [([], 1), ([], 5)] ([], 15) 20 (by decide)
    (by decide)

/-- When a later `Put` reads an earlier clock value the cleanup does move the latest id
to a snapshot of an earlier `Put`: `Put` at 100, `Put` at 50, ttl 10, cleanup at 105. -/
theorem latest_moves_when_clock_steps_back :
    ((NewStore 10 2).run (putsFor "d" [([], 100), ([], 50)])).latestByDevice "d"
      = some "d-50" ∧
    (((NewStore 10 2).run (putsFor "d" [([], 100), ([], 50)])).cleanupExpired
      105).latestByDevice "d" = some "d-100" ∧
    (((NewStore 10 2).run (putsFor "d" [([], 100), ([], 50)])).cleanupExpired
      105).items "d-50" = none := by
  decide

end FastMobile
